import Mathlib

/-!
# NIRF dashboard: the data-processing utilities

A shallow embedding of `src/utils/dataProcessor.js`, of the loaders of
`src/pages/AnalysisHub.jsx` and `src/pages/InstitutionProfile.jsx` (name cleaning,
normalisation of rows, identity keys), of the name cleaner of `src/pages/Home.jsx`, of the
filter of `src/pages/ExploreRankings.jsx` and of the selection handlers of
`src/pages/CompareInstitutions.jsx`, with the JavaScript values they compute on.

Conventions of the embedding.

* A JavaScript number is a `JSNum`: `NaN`, the two infinities, or a finite value, which is
  a rational. The binary64 numbers are the rationals that `roundToDouble` leaves as they
  are. The operators `+`, `-` and `/` and the parsers round their exact result to binary64
  (to nearest, ties to the even significand, an overflow gives an infinity), and a number
  read from a field is read as the binary64 number nearest to it (`JSNum.toDouble`): itself,
  for a binary64 number. The sign of zero is not modelled.
* A JavaScript value is a `JSVal`: `undefined`, a string or a number. These are the only
  values the fields of a parsed CSV record and of the objects built from them hold.
* An object is a `Record`: its own properties in insertion order, and `getField` reads an
  own property. The properties that an object inherits from `Object.prototype` show where
  the code uses a computed name: `inheritedPropertyNames` lists them, `assignField` is a
  write to a computed name, and a function that calls a method of what it read under a
  computed name throws when the name is an inherited one.
* A string is a Lean `String`; the functions that scan it work on its list of characters.
  The scanned characters are all ASCII, so code points and UTF-16 code units agree on them.
* `Array.prototype.sort` sorts in place and is stable (ECMAScript 2019): functions that
  call it on an argument return the new contents of that argument next to their result.
* A function that can throw returns an `Option`: `none` stands for the exception.
* `fetch` and `Papa.parse` are outside the repository: a function that calls them takes
  the parsed rows of each file as its argument.
-/

namespace NirfDashboard

/-! ## Numbers -/

/-- The binary64 numbers are the multiples of `2^-1074` with a significand of at most 53
bits and a magnitude below `2^1024`: this is the exponent 1074 of the unit. -/
@[irreducible] def minExponent : Nat := 1074

/-- The binade of a magnitude `t`, counted in units of `2^-1074`: the largest `s` below
4096 with `2^(52+s) <= t`, found by bisection, and 0 when `t < 2^52`. Binary64 numbers
of the magnitude `t` are `2^s` units apart. -/
def binadeShift (t : Nat) : Nat :=
  [2048, 1024, 512, 256, 128, 64, 32, 16, 8, 4, 2, 1].foldl
    (fun s b => if 2 ^ (52 + s + b) ≤ t then s + b else s) 0

/-- The binary64 magnitude nearest to `n / d`, in units of `2^-1074`: the quotient by the
spacing of the binade is rounded to the nearest integer, a tie to the even one. -/
def roundUnits (n d : Nat) : Nat :=
  let s := binadeShift (n * 2 ^ minExponent / d)
  let q := n * 2 ^ minExponent / (d * 2 ^ s)
  let r := n * 2 ^ minExponent % (d * 2 ^ s)
  (if 2 * r < d * 2 ^ s then q else if d * 2 ^ s < 2 * r then q + 1 else q + q % 2) * 2 ^ s

/-- A JavaScript number. -/
inductive JSNum where
  | nan
  | fin (q : ℚ)
  | posInf
  | negInf
deriving DecidableEq

/-- The Number value for a real number (IEEE 754 binary64, round to nearest, ties to
even): a magnitude that rounds to `2^1024` or more gives an infinity. -/
@[irreducible] def roundToDouble (q : ℚ) : JSNum :=
  let u := roundUnits q.num.natAbs q.den
  if 2 ^ (minExponent + 1024) ≤ u then (if q < 0 then JSNum.negInf else JSNum.posInf)
  else JSNum.fin ((if q < 0 then -(u : ℚ) else (u : ℚ)) / 2 ^ minExponent)

namespace JSNum

/-- The binary64 number that a finite value stands for: the nearest one, itself when it is
a binary64 number. -/
def toDouble : JSNum → JSNum
  | fin q => roundToDouble q
  | x => x

/-- Unary minus. -/
def neg : JSNum → JSNum
  | nan => nan
  | fin q => fin (-q)
  | posInf => negInf
  | negInf => posInf

/-- The `+` operator on numbers. -/
def add : JSNum → JSNum → JSNum
  | nan, _ => nan
  | _, nan => nan
  | fin a, fin b => roundToDouble (a + b)
  | posInf, negInf => nan
  | negInf, posInf => nan
  | posInf, _ => posInf
  | _, posInf => posInf
  | negInf, _ => negInf
  | _, negInf => negInf

/-- The `-` operator on numbers. -/
def sub (a b : JSNum) : JSNum := add a (neg b)

/-- The `/` operator on numbers; a zero divisor is `+0`. -/
def div : JSNum → JSNum → JSNum
  | nan, _ => nan
  | _, nan => nan
  | fin a, fin b =>
    if b = 0 then (if a = 0 then nan else if 0 < a then posInf else negInf)
    else roundToDouble (a / b)
  | fin _, _ => fin 0
  | posInf, fin b => if 0 ≤ b then posInf else negInf
  | negInf, fin b => if 0 ≤ b then negInf else posInf
  | _, _ => nan

/-- The test `x > 0`. -/
def isPos : JSNum → Bool
  | fin q => decide (0 < q)
  | posInf => true
  | _ => false

/-- The test `Number.isFinite x`. -/
def isFinite : JSNum → Bool
  | fin _ => true
  | _ => false

/-- The test `Number.isNaN x`. -/
def isNaN : JSNum → Bool
  | nan => true
  | _ => false

/-- The test `x >= y`. -/
def ge : JSNum → JSNum → Bool
  | nan, _ => false
  | _, nan => false
  | fin a, fin b => decide (b ≤ a)
  | posInf, _ => true
  | _, negInf => true
  | _, _ => false

end JSNum

/-! ## Values and records -/

/-- A JavaScript value held by a field. -/
inductive JSVal where
  | undefined
  | str (s : String)
  | num (x : JSNum)
deriving DecidableEq

namespace JSVal

/-- The truthiness test of `||`, `&&`, `!` and `if`. -/
def truthy : JSVal → Bool
  | undefined => false
  | str s => decide (s ≠ "")
  | num (JSNum.fin q) => decide (q ≠ 0)
  | num JSNum.nan => false
  | num _ => true

/-- The `||` operator: the left operand when it is truthy, else the right one. -/
def or (a b : JSVal) : JSVal := if a.truthy then a else b

/-- The `===` operator: same type and same value, and `NaN` differs from itself. -/
def strictEq : JSVal → JSVal → Bool
  | undefined, undefined => true
  | str a, str b => decide (a = b)
  | num JSNum.nan, num _ => false
  | num _, num JSNum.nan => false
  | num a, num b => decide (a = b)
  | _, _ => false

end JSVal

/-- An object: its own properties, in insertion order. -/
abbrev Record := List (String × JSVal)

/-- Property read `r[k]` of an own property, or of a name that `Object.prototype` does
not have: `undefined` when `r` has no property `k`. -/
def getField (r : Record) (k : String) : JSVal :=
  match r with
  | [] => JSVal.undefined
  | (k0, v0) :: rest => if k0 = k then v0 else getField rest k

/-- Property write `r[k] = v`: an existing property keeps its place. -/
def setField (r : Record) (k : String) (v : JSVal) : Record :=
  match r with
  | [] => [(k, v)]
  | (k0, v0) :: rest => if k0 = k then (k0, v) :: rest else (k0, v0) :: setField rest k v

/-- The names of the properties that every object inherits from `Object.prototype`. -/
def inheritedPropertyNames : List String :=
  ["constructor", "__defineGetter__", "__defineSetter__", "hasOwnProperty",
   "__lookupGetter__", "__lookupSetter__", "isPrototypeOf", "propertyIsEnumerable",
   "toString", "valueOf", "__proto__", "toLocaleString"]

/-- Property write `r[k] = v` with a computed name `k`. The inherited `__proto__` is an
accessor whose setter ignores a value that is neither an object nor `null`, and a `JSVal`
is neither: the write creates no property. Every other inherited property is a writable data
property, which the write shadows by an own property. -/
def assignField (r : Record) (k : String) (v : JSVal) : Record :=
  if k = "__proto__" then r else setField r k v

/-- The statements `if (!obj[key]) obj[key] = []; obj[key].push(item)` on the entries of
`obj`, in insertion order, for a `key` that is not the name of an inherited property. -/
def pushToGroup {α : Type} (stateMap : List (String × List α)) (state : String) (item : α) :
    List (String × List α) :=
  match stateMap with
  | [] => [(state, [item])]
  | (s, items) :: rest =>
    if s = state then (s, items ++ [item]) :: rest
    else (s, items) :: pushToGroup rest state item

/-! ## Strings: whitespace and the numeric parsers -/

/-- The code points of WhiteSpace and LineTerminator. -/
def isJSWhiteSpace (c : Char) : Bool :=
  let n := c.toNat
  n == 0x09 || n == 0x0A || n == 0x0B || n == 0x0C || n == 0x0D || n == 0x20 || n == 0xA0
    || n == 0x1680 || (0x2000 ≤ n && n ≤ 0x200A) || n == 0x2028 || n == 0x2029
    || n == 0x202F || n == 0x205F || n == 0x3000 || n == 0xFEFF

/-- The characters of `s.trimStart()`. -/
def trimStart (cs : List Char) : List Char := cs.dropWhile isJSWhiteSpace

/-- The characters of `s.trimEnd()`. -/
def trimEnd (cs : List Char) : List Char := (cs.reverse.dropWhile isJSWhiteSpace).reverse

/-- The characters of `s.trim()`. -/
def trim (cs : List Char) : List Char := trimEnd (trimStart cs)

/-- The test for a decimal digit. -/
def isDecDigit (c : Char) : Bool := decide ('0' ≤ c) && decide (c ≤ '9')

/-- The value of a digit in a radix up to 16, when the character is one. -/
def digitValue (radix : Nat) (c : Char) : Option Nat :=
  let n := c.toNat
  let v : Option Nat :=
    if 48 ≤ n ∧ n ≤ 57 then some (n - 48)
    else if 97 ≤ n ∧ n ≤ 102 then some (n - 87)
    else if 65 ≤ n ∧ n ≤ 70 then some (n - 55)
    else none
  match v with
  | some d => if d < radix then some d else none
  | none => none

/-- The test for a digit of the radix. -/
def isRadixDigit (radix : Nat) (c : Char) : Bool := (digitValue radix c).isSome

/-- The number written by a run of digits of the radix. -/
def digitsToNat (radix : Nat) (ds : List Char) : Nat :=
  ds.foldl (fun acc c => radix * acc + (digitValue radix c).getD 0) 0

/-- An optional sign: whether it is a minus, and what follows it. -/
def scanSign : List Char → Bool × List Char
  | '-' :: cs => (true, cs)
  | '+' :: cs => (false, cs)
  | cs => (false, cs)

/-- An optional ExponentPart: its value and what follows it. An `e` that no digit
follows is not part of the literal. -/
def scanExponent (cs : List Char) : Int × List Char :=
  match cs with
  | [] => (0, [])
  | e :: rest =>
    if e = 'e' ∨ e = 'E' then
      let sr := scanSign rest
      let ds := sr.2.takeWhile isDecDigit
      if ds = [] then (0, cs)
      else ((if sr.1 then -(digitsToNat 10 ds : Int) else (digitsToNat 10 ds : Int)),
            sr.2.dropWhile isDecDigit)
    else (0, cs)

/-- The longest StrUnsignedDecimalLiteral that starts `cs`: its value and what follows
it, or `none` when `cs` starts with none. -/
def scanUnsignedDecimal (cs : List Char) : Option (JSNum × List Char) :=
  if "Infinity".toList.isPrefixOf cs then some (JSNum.posInf, cs.drop 8)
  else
    let ip := cs.takeWhile isDecDigit
    let r1 := cs.dropWhile isDecDigit
    let fr : List Char × List Char :=
      match r1 with
      | '.' :: r => (r.takeWhile isDecDigit, r.dropWhile isDecDigit)
      | _ => ([], r1)
    if ip = [] ∧ fr.1 = [] then none
    else
      let er := scanExponent fr.2
      some (roundToDouble (((digitsToNat 10 ip : ℚ) + (digitsToNat 10 fr.1 : ℚ) / 10 ^ fr.1.length)
              * 10 ^ er.1), er.2)

/-- The result of `parseFloat` on a string: leading whitespace is skipped, the longest
decimal literal is read, and what follows it is ignored. -/
def parseFloatStr (s : String) : JSNum :=
  let sr := scanSign (trimStart s.toList)
  match scanUnsignedDecimal sr.2 with
  | none => JSNum.nan
  | some (v, _) => if sr.1 then v.neg else v

/-- The result of `parseInt` with no radix on a string: leading whitespace is skipped, a
sign and a `0x` mark are read, then the longest run of digits. -/
def parseIntStr (s : String) : JSNum :=
  let sr := scanSign (trimStart s.toList)
  let rr : Nat × List Char :=
    match sr.2 with
    | '0' :: 'x' :: r => (16, r)
    | '0' :: 'X' :: r => (16, r)
    | r => (10, r)
  let ds := rr.2.takeWhile (isRadixDigit rr.1)
  if ds = [] then JSNum.nan
  else if sr.1 then roundToDouble (-(digitsToNat rr.1 ds : ℚ))
  else roundToDouble (digitsToNat rr.1 ds : ℚ)

/-- The decimal exponent `n` of a positive binary64 number: `10^(n-1) <= q < 10^n`. -/
def decimalExponent (q : ℚ) : Int :=
  if 1 ≤ q then ((Nat.toDigits 10 ⌊q⌋₊).length : Int)
  else -(((List.range 330).foldl
      (fun (p : ℚ × Nat) _ => if p.1 * 10 < 1 then (p.1 * 10, p.2 + 1) else p) (q, 0)).2 : Int)

/-- The integer `s` for which the decimal `s * 10^(n-k)` of `k` digits rounds to the
positive binary64 number `q`, when there is one: of the two integers around
`q / 10^(n-k)`, the one whose decimal rounds to `q`; the nearer one when both do, and the
even one when they are as near. -/
def roundTripDigits (q : ℚ) (n : Int) (k : Nat) : Option Nat :=
  let scaled := q * 10 ^ ((k : Int) - n)
  let lo := ⌊scaled⌋₊
  let okLo := decide (roundToDouble ((lo : ℚ) * 10 ^ (n - (k : Int))) = JSNum.fin q)
  let okHi := decide (roundToDouble (((lo + 1 : Nat) : ℚ) * 10 ^ (n - (k : Int))) = JSNum.fin q)
  if okLo && okHi then
    (if scaled - (lo : ℚ) < ((lo + 1 : Nat) : ℚ) - scaled then some lo
     else if ((lo + 1 : Nat) : ℚ) - scaled < scaled - (lo : ℚ) then some (lo + 1)
     else if lo % 2 = 0 then some lo else some (lo + 1))
  else if okLo then some lo
  else if okHi then some (lo + 1)
  else none

/-- The decimal digits of a positive binary64 number and its decimal exponent `n` (the
number is `0.d1d2...dk * 10^n`, `d1` not zero, no trailing zero): the fewest digits that
round back to the number, at most 17. -/
def decimalDigits (q : ℚ) : List Char × Int :=
  let n := decimalExponent q
  let ks : Nat × Nat :=
    ((List.range 17).findSome?
      (fun i => (roundTripDigits q n (i + 1)).map (fun s => (i + 1, s)))).getD
      (17, ⌊q * 10 ^ (17 - n)⌋₊)
  let ds := Nat.toDigits 10 ks.2
  ((ds.reverse.dropWhile (fun c => c == '0')).reverse, n + ((ds.length : Int) - (ks.1 : Int)))

/-- The string of a number (Number::toString, radix 10). -/
def numberToString : JSNum → String
  | JSNum.nan => "NaN"
  | JSNum.posInf => "Infinity"
  | JSNum.negInf => "-Infinity"
  | JSNum.fin q =>
    match roundToDouble q with
    | JSNum.nan => "NaN"
    | JSNum.posInf => "Infinity"
    | JSNum.negInf => "-Infinity"
    | JSNum.fin x =>
      if x = 0 then "0"
      else
        let dn := decimalDigits |x|
        let ds := dn.1
        let n := dn.2
        let k : Int := ds.length
        let body : List Char :=
          if k ≤ n ∧ n ≤ 21 then ds ++ List.replicate (n - k).toNat '0'
          else if 0 < n ∧ n ≤ 21 then ds.take n.toNat ++ '.' :: ds.drop n.toNat
          else if -6 < n ∧ n ≤ 0 then '0' :: '.' :: List.replicate (-n).toNat '0' ++ ds
          else
            let mantissa := if ds.length = 1 then ds else ds.take 1 ++ '.' :: ds.drop 1
            mantissa ++ 'e' :: (if 0 < n - 1 then '+' else '-') :: Nat.toDigits 10 (n - 1).natAbs
        String.mk (if x < 0 then '-' :: body else body)

/-- The result of `parseInt` on a number, which is first written as a string. -/
def parseIntNum (x : JSNum) : JSNum := parseIntStr (numberToString x)

/-- The global `parseFloat`. A number survives its own string form: the result is the
binary64 number it stands for. -/
def parseFloat : JSVal → JSNum
  | JSVal.undefined => JSNum.nan
  | JSVal.str s => parseFloatStr s
  | JSVal.num x => x.toDouble

/-- The global `parseInt`, called with one argument. -/
def parseInt : JSVal → JSNum
  | JSVal.undefined => JSNum.nan
  | JSVal.str s => parseIntStr s
  | JSVal.num x => parseIntNum x

/-- The value of a string as a number (StringToNumber): the whole trimmed string is a
numeric literal, or the result is `NaN`; the empty string is `0`. -/
def stringToNumber (s : String) : JSNum :=
  let cs := trim s.toList
  let radixLit (radix : Nat) (r : List Char) : JSNum :=
    if r ≠ [] ∧ r.all (isRadixDigit radix) then roundToDouble (digitsToNat radix r : ℚ)
    else JSNum.nan
  match cs with
  | [] => JSNum.fin 0
  | '0' :: 'x' :: r => radixLit 16 r
  | '0' :: 'X' :: r => radixLit 16 r
  | '0' :: 'o' :: r => radixLit 8 r
  | '0' :: 'O' :: r => radixLit 8 r
  | '0' :: 'b' :: r => radixLit 2 r
  | '0' :: 'B' :: r => radixLit 2 r
  | _ =>
    let sr := scanSign cs
    match scanUnsignedDecimal sr.2 with
    | some (v, []) => if sr.1 then v.neg else v
    | _ => JSNum.nan

/-- The coercion of a value to a number (ToNumber), as `-` applies it to its operands. A
number is the binary64 number it stands for. -/
def toNumber : JSVal → JSNum
  | JSVal.undefined => JSNum.nan
  | JSVal.str s => stringToNumber s
  | JSVal.num x => x.toDouble

/-! ## `calculateAverageScores` -/

/-- The five scored parameters. -/
def parameters : List String := ["TLR", "RPC", "GO", "OI", "Perception"]

/-- Source `calculateAverageScores`: for each parameter, the sum of
`parseFloat(item[param] || 0)` over the records, divided by `data.length`. -/
def calculateAverageScores (data : List Record) : Record :=
  parameters.foldl
    (fun averages param =>
      let sum := data.foldl
        (fun acc item =>
          JSNum.add acc (parseFloat ((getField item param).or (JSVal.num (JSNum.fin 0)))))
        (JSNum.fin 0)
      setField averages param (JSVal.num (JSNum.div sum (JSNum.fin (data.length : ℚ)))))
    []

/-! ## `Array.prototype.sort` with a comparator -/

/-- One insertion of the stable sort: `x`, which stood before every element of the
sorted list, moves behind `y` only when `comparator(x, y) > 0`. A comparator result that
is `NaN` counts as `+0`. -/
def sortInsert {α : Type} (cmp : α → α → JSNum) (x : α) : List α → List α
  | [] => [x]
  | y :: ys => if (cmp x y).isPos then y :: sortInsert cmp x ys else x :: y :: ys

/-- The contents of an array after `arr.sort(cmp)`: the stable sort by the comparator.
For a comparator that is not a consistent ordering the language leaves the order to the
engine; the model then yields one of the permutations an engine may produce. -/
def arraySort {α : Type} (cmp : α → α → JSNum) : List α → List α
  | [] => []
  | x :: xs => sortInsert cmp x (arraySort cmp xs)

/-! ## The filters and `getTopNInstitutions` -/

/-- Source `filterByYear`: the records with `item.Year === year`. -/
def filterByYear (data : List Record) (year : JSVal) : List Record :=
  data.filter (fun item => (getField item "Year").strictEq year)

/-- The comparator `(a, b) => b.Score - a.Score`. -/
def scoreComparator (a b : Record) : JSNum :=
  JSNum.sub (toNumber (getField b "Score")) (toNumber (getField a "Score"))

/-- Source `getTopNInstitutions`, for an integer `n >= 0`: `data.sort(...)` sorts the
caller's array in place and `.slice(0, n)` copies its first `n` elements. The first
component is the returned array, the second the contents of `data` after the call. -/
def getTopNInstitutions (data : List Record) (n : Nat) : List Record × List Record :=
  let sorted := arraySort scoreComparator data
  (sorted.take n, sorted)

/-! ## `calculateYearOverYearChanges` -/

/-- Source `calculateYearOverYearChanges`: the records of the institution, in input
order, each copied with a `rankChange` property. -/
def calculateYearOverYearChanges (data : List Record) (institutionId : JSVal) : List Record :=
  let institutionData :=
    data.filter (fun item => (getField item "Institute_ID").strictEq institutionId)
  institutionData.enum.map (fun (p : Nat × Record) =>
    if p.1 = 0 then setField p.2 "rankChange" (JSVal.num (JSNum.fin 0))
    else
      let prevRank := parseInt (getField (institutionData.getD (p.1 - 1) []) "Rank")
      let currentRank := parseInt (getField p.2 "Rank")
      setField p.2 "rankChange" (JSVal.num (JSNum.sub prevRank currentRank)))

/-! ## The name cleaner of AnalysisHub and InstitutionProfile -/

/-- The characters of the class `[\d\(\)\"\']`: a decimal digit, a parenthesis, a double
quote (code 34) or a single quote (code 39). -/
def isNoiseChar (c : Char) : Bool :=
  isDecDigit c || c == '(' || c == ')' || c == Char.ofNat 34 || c == Char.ofNat 39

/-- The cleaner `name.replace(/[\d\(\)\"\']+/g, '').trim()`: replacing every maximal run
of class characters by the empty string deletes exactly the class characters. -/
def cleanName (name : String) : String :=
  String.mk (trim (name.toList.filter (fun c => !isNoiseChar c)))

/-! ## `processCSVData` -/

/-- The pieces of `s.split(sep)` for a one-character separator: always at least one piece,
and one more than the string has separators. -/
def splitOnChar (sep : Char) : List Char → List (List Char)
  | [] => [[]]
  | c :: cs =>
    if c = sep then [] :: splitOnChar sep cs
    else
      match splitOnChar sep cs with
      | [] => [[c]]
      | piece :: pieces => (c :: piece) :: pieces

/-- The expression `values[index]?.trim()`: `undefined` past the end of `values`. -/
def trimmedValueAt (values : List (List Char)) (index : Nat) : JSVal :=
  match values[index]? with
  | some v => JSVal.str (String.mk (trim v))
  | none => JSVal.undefined

/-- The row object that `headers.forEach((header, index) => ...)` fills: for each header
in order, `row[header.trim()] = values[index]?.trim()`. -/
def buildRow (headers values : List (List Char)) : Record :=
  headers.enum.foldl
    (fun row p => assignField row (String.mk (trim p.2)) (trimmedValueAt values p.1))
    []

/-- Source `processCSVData`. The result is `none` when the call throws: the one
expression that can is `lines[0].split(',')`, a TypeError when `lines[0]` is `undefined`. -/
def processCSVData (csvData : String) : Option (List Record) :=
  let lines := splitOnChar (Char.ofNat 10) csvData.toList
  match lines with
  | [] => none
  | headerLine :: rest =>
    let headers := splitOnChar ',' headerLine
    some (rest.map (fun line => buildRow headers (splitOnChar ',' line)))

/-! ## Rows parsed by Papa Parse

`Papa.parse(csvText, { header: true })` is a library call: the pages and `processNirfData`
start from its result, one object per row whose fields are strings. -/

/-- A row object of `Papa.parse` with `header: true`: each field is a string. -/
abbrev CsvRow := List (String × String)

/-- The chain `row.k1 || row.k2 || ...` over fields of a parsed row: the first field that
is present and not the empty string, if there is one. -/
def firstPresent (row : CsvRow) : List String → Option String
  | [] => none
  | k :: ks =>
    match row.lookup k with
    | some s => if s ≠ "" then some s else firstPresent row ks
    | none => firstPresent row ks

/-- The chain `row.k1 || row.k2 || ... || d` with a number `d` as its last operand. -/
def firstPresentOrNumber (row : CsvRow) (keys : List String) (d : ℚ) : JSVal :=
  match firstPresent row keys with
  | some s => JSVal.str s
  | none => JSVal.num (JSNum.fin d)

/-! ## `AnalysisHub.fetchData` -/

/-- An element of `institutions` in AnalysisHub. -/
structure Observation where
  name : String
  score : JSNum
  rank : JSNum
  state : String
  year : JSNum
  category : String
deriving DecidableEq

/-- What the loop of `fetchData` builds: the array `institutions`, the entries of the
objects `byState` and `stateCounts` in insertion order, and the keys of
`uniqueInstitutionTracker`. (`stateSet`, `yearSet` and `byYear` are left out: nothing
below reads them and their statements cannot throw, the keys of `byYear` being the strings
of numbers.) -/
structure HubData where
  institutions : List Observation
  byState : List (String × List Observation)
  stateCounts : List (String × Nat)
  tracker : List String
deriving DecidableEq

/-- The normalisation of one row in `fetchData`, and its validity test
`name && !isNaN(score) && !isNaN(rank) && score > 0`: the observation that is pushed, or
`none` when the row is skipped. -/
def AnalysisHub.observationOf (fileName : String) (row : CsvRow) : Option Observation :=
  let name := cleanName ((firstPresent row ["Name", "name"]).getD "")
  let score := parseFloat (firstPresentOrNumber row ["Score", "score"] 0)
  let rank := parseInt (firstPresentOrNumber row ["Rank", "rank"] 0)
  let state := String.mk (trim ((firstPresent row ["State", "state"]).getD "Unknown").toList)
  let year := parseInt (firstPresentOrNumber row ["Year", "year"] 2020)
  if name ≠ "" ∧ score.isNaN = false ∧ rank.isNaN = false ∧ score.isPos = true then
    some { name := name, score := score, rank := rank, state := state, year := year,
           category := fileName }
  else none

/-- The template string that keys `uniqueInstitutionTracker`: name, state and file name
joined by hyphens. -/
def AnalysisHub.institutionKey (name state fileName : String) : String :=
  name ++ "-" ++ state ++ "-" ++ fileName

/-- The statements `if (!stateCounts[state]) stateCounts[state] = 0; stateCounts[state]++`. -/
def incrementCount (counts : List (String × Nat)) (state : String) : List (String × Nat) :=
  match counts with
  | [] => [(state, 1)]
  | (s, n) :: rest => if s = state then (s, n + 1) :: rest else (s, n) :: incrementCount rest state

/-- The value `stateCounts[state] || 0`. -/
def countOf (counts : List (String × Nat)) (state : String) : Nat :=
  (counts.lookup state).getD 0

/-- The body of `parsedData.forEach(row => ...)` in `fetchData`. The result is `none` when
it throws: for a `state` that names an inherited property, `byState[state]` is that
property, which is truthy and has no `push`, and `byState[state].push(institution)` is a
TypeError. -/
def AnalysisHub.step (fileName : String) (st : HubData) (row : CsvRow) : Option HubData :=
  match AnalysisHub.observationOf fileName row with
  | none => some st
  | some inst =>
    if inst.state ∈ inheritedPropertyNames then none
    else
      let key := AnalysisHub.institutionKey inst.name inst.state fileName
      if key ∈ st.tracker then
        some { st with institutions := st.institutions ++ [inst],
                       byState := pushToGroup st.byState inst.state inst }
      else
        some { institutions := st.institutions ++ [inst],
               byState := pushToGroup st.byState inst.state inst,
               stateCounts := incrementCount st.stateCounts inst.state,
               tracker := st.tracker ++ [key] }

/-- The comparator `(a, b) => b.score - a.score` on observations. -/
def AnalysisHub.scoreComparator (a b : Observation) : JSNum := JSNum.sub b.score a.score

/-- The initial value of the state `data` of the page, with no key in the tracker. -/
def AnalysisHub.initialData : HubData :=
  { institutions := [], byState := [], stateCounts := [], tracker := [] }

/-- The `try` block of `fetchData` up to `setData`, from the parsed rows of each file (file
name, rows), in file order: the loop over the files and their rows, then the sort of each
array of `byState` by score. The result is `none` when the block throws. -/
def AnalysisHub.loadData (files : List (String × List CsvRow)) : Option HubData :=
  match files.foldlM (fun st file => file.2.foldlM (AnalysisHub.step file.1) st)
      AnalysisHub.initialData with
  | none => none
  | some st =>
    some { st with byState :=
      st.byState.map (fun e => (e.1, arraySort AnalysisHub.scoreComparator e.2)) }

/-- Source `fetchData` of AnalysisHub: the value of the state `data` after the call. When
the `try` block throws, `catch` reports the failure, `setData` is not reached and `data`
keeps its initial value. -/
def AnalysisHub.fetchData (files : List (String × List CsvRow)) : HubData :=
  (AnalysisHub.loadData files).getD AnalysisHub.initialData

/-- Source `fetchData` of AnalysisHub: the value of the state `error` after the call. -/
def AnalysisHub.fetchError (files : List (String × List CsvRow)) : String :=
  if (AnalysisHub.loadData files).isSome then ""
  else "Failed to load data. Please try again later."

/-! ## `InstitutionProfile.fetchInstitutions` -/

/-- A value of `uniqueInstitutionsMap`. -/
structure ProfileEntry where
  name : String
  category : String
  state : String
deriving DecidableEq

/-- The template string that keys `uniqueInstitutionsMap`. -/
def InstitutionProfile.institutionKey (name category : String) : String :=
  name ++ "-" ++ category

/-- The cleaned name of a row in `fetchInstitutions`. -/
def InstitutionProfile.nameOf (row : CsvRow) : String :=
  cleanName
    ((firstPresent row ["Name", "name", "Institution", "INSTITUTION", "institute"]).getD "")

/-- The entry that a row of a file would set in `uniqueInstitutionsMap`. -/
def InstitutionProfile.entryOf (category : String) (row : CsvRow) : ProfileEntry :=
  { name := InstitutionProfile.nameOf row, category := category,
    state := (firstPresent row ["State", "state"]).getD "Unknown" }

/-- The body of `parsedData.forEach(row => ...)` in `fetchInstitutions`, on
`uniqueInstitutionsMap` (its entries in insertion order): a row with a non-empty cleaned
name sets its key unless the map has it. (`institutionCategories` is left out.) -/
def InstitutionProfile.step (category : String) (m : List (String × ProfileEntry))
    (row : CsvRow) : List (String × ProfileEntry) :=
  if InstitutionProfile.nameOf row ≠ "" then
    let key := InstitutionProfile.institutionKey (InstitutionProfile.nameOf row) category
    if (m.lookup key).isSome then m
    else m ++ [(key, InstitutionProfile.entryOf category row)]
  else m

/-- The map `uniqueInstitutionsMap` that `fetchInstitutions` builds from the parsed rows
of each file (category, rows), in file order. The institution list is its values, each
extended with `categories` and ordered by name. -/
def InstitutionProfile.fetchInstitutions (files : List (String × List CsvRow)) :
    List (String × ProfileEntry) :=
  files.foldl (fun m file => file.2.foldl (InstitutionProfile.step file.1) m) []

/-! ## `processNirfData`: the records of the year and the top institutions -/

/-- The value `yearData` of `processNirfData`: the records with `record.Year === year`
of each category in turn. `allData` holds, per file, its name and its parsed records. -/
def processNirfData.yearData (allData : List (String × List Record)) (year : JSVal) :
    List Record :=
  allData.foldl
    (fun acc categoryData =>
      acc ++ categoryData.2.filter (fun record => (getField record "Year").strictEq year))
    []

/-- The value `topInstitutions` of `processNirfData`: the first ten of `yearData` sorted
by score, each mapped to `{ name: inst.Name, score: parseFloat(inst.Score),
category: inst.Category }`. -/
def processNirfData.topInstitutions (allData : List (String × List Record)) (year : JSVal) :
    List Record :=
  ((arraySort scoreComparator (processNirfData.yearData allData year)).take 10).map
    (fun inst =>
      [("name", getField inst "Name"),
       ("score", JSVal.num (parseFloat (getField inst "Score"))),
       ("category", getField inst "Category")])

/-! ## `processNirfData`: the result -/

/-- The function `Math.round`: the nearest integer, halves going up. -/
def mathRound : JSNum → JSNum
  | JSNum.fin q => JSNum.fin (⌊q + 1 / 2⌋ : ℚ)
  | x => x

/-- The test `value && !isNaN(parseFloat(value)) && parseFloat(value) > 0`. -/
def isPositiveNumberField (value : JSVal) : Bool :=
  value.truthy && !(parseFloat value).isNaN && (parseFloat value).isPos

/-- The property key that a value names in `obj[value]` (ToPropertyKey). -/
def propertyKey : JSVal → String
  | JSVal.undefined => "undefined"
  | JSVal.str s => s
  | JSVal.num x => numberToString x

/-- The object that `processNirfData` resolves to. -/
structure NirfResult where
  topInstitutions : List Record
  parameters : List (String × JSNum)
  regions : List (String × Nat)
  totalInstitutions : Nat
  averageScore : JSNum
  topState : String
deriving DecidableEq

/-- The comparator `([, a], [, b]) => b - a` on the entries of `regions`. -/
def regionComparator (p q : String × Nat) : JSNum :=
  JSNum.sub (JSNum.fin (q.2 : ℚ)) (JSNum.fin (p.2 : ℚ))

/-- Source `processNirfData`, from the parsed records of each file. The result is `none`
when the function returns `null`: an exception inside `try` is caught and `null` is
returned, and the expression that can throw is `Object.entries(regions).sort(...)[0][0]`,
a TypeError when `regions` has no entry. The sort of `yearData` is in place, so what
follows it reads the sorted array. The entries of `regions` are counts: this holds for the
States that do not name an inherited property. -/
def processNirfData (allData : List (String × List Record)) (year : JSVal) :
    Option NirfResult :=
  let yearData := arraySort scoreComparator (processNirfData.yearData allData year)
  let topInstitutions := processNirfData.topInstitutions allData year
  let parameterData := parameters.map (fun param =>
    let validRecords := yearData.filter (fun record => isPositiveNumberField (getField record param))
    let average :=
      if validRecords.length > 0 then
        JSNum.div
          (validRecords.foldl (fun sum record => JSNum.add sum (parseFloat (getField record param)))
            (JSNum.fin 0))
          (JSNum.fin (validRecords.length : ℚ))
      else JSNum.fin 0
    (param, mathRound average))
  let regions := yearData.foldl
    (fun acc record =>
      incrementCount acc (propertyKey ((getField record "State").or (JSVal.str "Other"))))
    []
  let regionData := (arraySort regionComparator regions).take 5
  let validScores := yearData.filter (fun record => isPositiveNumberField (getField record "Score"))
  let totalInstitutions := validScores.length
  let averageScore :=
    if totalInstitutions > 0 then
      JSNum.div
        (validScores.foldl (fun sum record => JSNum.add sum (parseFloat (getField record "Score")))
          (JSNum.fin 0))
        (JSNum.fin (totalInstitutions : ℚ))
    else JSNum.fin 0
  match arraySort regionComparator regions with
  | [] => none
  | top :: _ =>
    some { topInstitutions := topInstitutions, parameters := parameterData,
           regions := regionData, totalInstitutions := totalInstitutions,
           averageScore := averageScore, topState := top.1 }

/-! ## `getInstitutionsByState` and `filterByCategory` -/

/-- The body of the callback of `data.forEach` in `getInstitutionsByState`, on the entries
of `stateMap`. The result is `none` when it throws: for a `state` that names an inherited
property, `stateMap[state]` is that property, which is truthy and has no `push`, and
`stateMap[state].push(item)` is a TypeError. -/
def getInstitutionsByState.step (stateMap : List (String × List Record)) (item : Record) :
    Option (List (String × List Record)) :=
  let state := propertyKey (getField item "State")
  if state ∈ inheritedPropertyNames then none else some (pushToGroup stateMap state item)

/-- Source `getInstitutionsByState`: the entries of the returned `stateMap`, or `none` when
the call throws. -/
def getInstitutionsByState (data : List Record) : Option (List (String × List Record)) :=
  data.foldlM getInstitutionsByState.step []

/-- The method `s.includes(t)` on strings: `t` occurs in `s`. -/
def includes (s t : String) : Bool :=
  s.toList.tails.any (fun u => t.toList.isPrefixOf u)

/-- Source `filterByCategory`. The result is `none` when the call throws: the callback
`item.Institute_ID.includes(category)` throws a TypeError for an item whose `Institute_ID`
is not a string. -/
def filterByCategory : List Record → String → Option (List Record)
  | [], _ => some []
  | item :: rest, category =>
    match getField item "Institute_ID" with
    | JSVal.str id =>
      match filterByCategory rest category with
      | some kept => some (if includes id category then item :: kept else kept)
      | none => none
    | _ => none

/-! ## `ExploreRankings.filterInstitutions` -/

/-- Property read on a parsed row, whose fields are strings. -/
def csvField (row : CsvRow) (k : String) : JSVal :=
  match row.lookup k with
  | some s => JSVal.str s
  | none => JSVal.undefined

/-- The expression `inst.k?.toLowerCase().includes(searchLower)` as a condition:
false when the row has no field `k`. -/
def fieldIncludes (toLowerCase : String → String) (row : CsvRow) (k searchLower : String) :
    Bool :=
  match row.lookup k with
  | some s => includes (toLowerCase s) searchLower
  | none => false

/-- Source `filterInstitutions` of ExploreRankings: the list it passes to
`setFilteredInstitutions`. `String.prototype.toLowerCase` is a parameter; the rows are
the parsed rows extended with `category`. -/
def ExploreRankings.filterInstitutions (toLowerCase : String → String)
    (allInstitutions : List CsvRow) (year : JSVal) (category search : String) : List CsvRow :=
  allInstitutions.filter (fun inst =>
    let yearMatch := !year.truthy || (csvField inst "Year").strictEq year
    let categoryMatch := category == "" || (csvField inst "category").strictEq (JSVal.str category)
    let searchLower := toLowerCase search
    let searchMatch := search == "" || fieldIncludes toLowerCase inst "Name" searchLower
      || fieldIncludes toLowerCase inst "State" searchLower
    yearMatch && categoryMatch && searchMatch)

/-! ## The name cleaner of Home -/

/-- The text left of a string by `replace(/\([^)]*\)/g, '')`, in two readings of the
characters: the first component is the result when the scan stands outside a match, the
second the result when it stands inside a match whose closing parenthesis is ahead. A
match starts at a `(` that a `)` follows and ends at the first `)` after it. -/
def stripParenGroups : List Char → List Char × List Char
  | [] => ([], [])
  | c :: cs =>
    ((if c = '(' ∧ ')' ∈ cs then (stripParenGroups cs).2 else c :: (stripParenGroups cs).1),
     (if c = ')' then (stripParenGroups cs).1 else (stripParenGroups cs).2))

/-- The cleaner `name.replace(/\([^)]*\)/g, '').trim()` of Home. -/
def Home.cleanName (name : String) : String :=
  String.mk (trim (stripParenGroups name.toList).1)

/-! ## The selection of CompareInstitutions -/

/-- An option of the institution picker in CompareInstitutions. -/
structure CompareOption where
  name : String
  category : String
  score : Option String
  year : Option String
deriving DecidableEq

/-- The state that the two handlers write: `selectedInstitutions` and `error`. -/
structure CompareState where
  selectedInstitutions : List CompareOption
  error : String
deriving DecidableEq

/-- Source `handleAddInstitution`; the value is `none` for `null`. -/
def handleAddInstitution (st : CompareState) (value : Option CompareOption) : CompareState :=
  match value with
  | none => st
  | some v =>
    if st.selectedInstitutions.length ≥ 3 then
      { st with error := "You can compare up to 3 institutions at a time" }
    else if st.selectedInstitutions.any (fun inst => inst.name == v.name) then
      { st with error := "This institution is already selected" }
    else { st with selectedInstitutions := st.selectedInstitutions ++ [v] }

/-- The array after `updated.splice(index, 1)`: a negative index counts from the end,
and an index past the end removes nothing. -/
def spliceOne (l : List CompareOption) (index : Int) : List CompareOption :=
  let start : Nat := if index < 0 then (l.length + index).toNat else min index.toNat l.length
  l.eraseIdx start

/-- Source `handleRemoveInstitution`. -/
def handleRemoveInstitution (st : CompareState) (index : Int) : CompareState :=
  { st with selectedInstitutions := spliceOne st.selectedInstitutions index }

/-- A call of one of the two handlers. -/
inductive SelectionCall where
  | add (value : Option CompareOption)
  | remove (index : Int)

/-- The state after a sequence of handler calls, each seeing the state the previous one
left. -/
def runSelection (st : CompareState) (calls : List SelectionCall) : CompareState :=
  calls.foldl
    (fun s call =>
      match call with
      | SelectionCall.add value => handleAddInstitution s value
      | SelectionCall.remove index => handleRemoveInstitution s index)
    st

/-! ## Reference definitions, worded as the specification words them -/

/-- The Score of a record as a rational: `0` when it is not a finite number. -/
def scoreValue (r : Record) : ℚ :=
  match toNumber (getField r "Score") with
  | JSNum.fin q => q
  | _ => 0

/-- The stable descending sort by score, as the specification words the top-N order:
ties keep their input order. -/
def stableSortDescByScore (data : List Record) : List Record :=
  data.mergeSort (fun a b => decide (scoreValue b ≤ scoreValue a))

/-- The condition "sorted by Year ascending": the years, read as numbers, never
decrease along the list. -/
def sortedByYearAscending (l : List Record) : Prop :=
  l.Pairwise (fun a b =>
    JSNum.ge (toNumber (getField b "Year")) (toNumber (getField a "Year")) = true)

/-- The characters of `parts.join(sep)` for a one-character separator. -/
def joinWith (sep : Char) : List (List Char) → List Char
  | [] => []
  | [p] => p
  | p :: q :: rest => p ++ sep :: joinWith sep (q :: rest)

/-- The text of a table, as the specification words the round trip: the header names
joined by commas, each row joined by commas, the lines joined by a line feed. -/
def serializeCSV (header : List String) (rows : List (List String)) : String :=
  String.mk (joinWith (Char.ofNat 10)
    (joinWith ',' (header.map String.toList)
      :: rows.map (fun row => joinWith ',' (row.map String.toList))))

/-- The condition on a name or value of a well-formed table: no comma, no line feed, no
leading or trailing whitespace. -/
def plainCell (s : String) : Prop :=
  ',' ∉ s.toList ∧ Char.ofNat 10 ∉ s.toList ∧ trim s.toList = s.toList

/-- The sum of `rankChange` over a history, added as numbers from `0`. -/
def rankChangeSum (history : List Record) : JSNum :=
  history.foldl (fun acc r => JSNum.add acc (toNumber (getField r "rankChange"))) (JSNum.fin 0)

/-- The condition "sorted by score descending" on raw records: the Scores, read as
numbers, never increase along the list. -/
def sortedByScoreDescending (l : List Record) : Prop :=
  l.Pairwise (fun a b =>
    JSNum.ge (toNumber (getField a "Score")) (toNumber (getField b "Score")) = true)

/-- The condition "no parenthesised group": no `(` that a `)` follows later. -/
def noParenGroup (cs : List Char) : Prop :=
  ∀ a b : List Char, cs = a ++ '(' :: b → ')' ∉ b

/-- The invariant of the selection: at most 3 institutions, with pairwise distinct names. -/
def selectionInvariant (selected : List CompareOption) : Prop :=
  selected.length ≤ 3 ∧ selected.Pairwise (fun a b => a.name ≠ b.name)

/-! ## Facts about rounding to binary64

`roundUnits n d` is a multiple of the spacing `2^s` of the binade of `n / d`; the binade is
the right one (`binadeShift_spec`, `binadeShift_lt`), so the multiplier has at most 53 bits
(`roundUnits_significand`); and the result is within half a spacing of `n / d`
(`roundUnits_error`). -/

theorem binadeShift_foldl (t : Nat) (bs : List Nat) :
    ∀ s : Nat, (s = 0 ∨ 2 ^ (52 + s) ≤ t) →
      (bs.foldl (fun s b => if 2 ^ (52 + s + b) ≤ t then s + b else s) s = 0
        ∨ 2 ^ (52 + bs.foldl (fun s b => if 2 ^ (52 + s + b) ≤ t then s + b else s) s) ≤ t) := by
  induction bs with
  | nil => intro s h; exact h
  | cons b bs ih =>
    intro s h
    rw [List.foldl_cons]
    apply ih
    by_cases hc : 2 ^ (52 + s + b) ≤ t
    · rw [if_pos hc]
      right
      rw [← Nat.add_assoc]
      exact hc
    · rw [if_neg hc]
      exact h

theorem binadeShift_spec (t : Nat) : binadeShift t = 0 ∨ 2 ^ (52 + binadeShift t) ≤ t :=
  binadeShift_foldl t _ 0 (Or.inl rfl)

theorem roundUnits_of_dvd (n d : Nat) (hd : 0 < d)
    (h : d * 2 ^ binadeShift (n * 2 ^ minExponent / d) ∣ n * 2 ^ minExponent) :
    roundUnits n d = n * 2 ^ minExponent / d := by
  unfold roundUnits
  simp only
  generalize binadeShift (n * 2 ^ minExponent / d) = s at h ⊢
  generalize n * 2 ^ minExponent = N at h ⊢
  have hden : 0 < d * 2 ^ s := by positivity
  rw [Nat.mod_eq_zero_of_dvd h]
  rw [if_pos (by simpa using hden)]
  obtain ⟨c, hc⟩ := h
  rw [hc, Nat.mul_div_cancel_left c hden]
  rw [Nat.mul_assoc, Nat.mul_div_cancel_left _ hd, Nat.mul_comm]

theorem roundUnits_representable (n d m0 s0 : Nat) (hd : 0 < d)
    (hN : n * 2 ^ minExponent = d * (m0 * 2 ^ s0)) (hm : m0 < 2 ^ 53) :
    roundUnits n d = m0 * 2 ^ s0 := by
  have ht : n * 2 ^ minExponent / d = m0 * 2 ^ s0 := by
    rw [hN, Nat.mul_div_cancel_left _ hd]
  rw [roundUnits_of_dvd n d hd, ht]
  rw [ht, hN]
  apply Nat.mul_dvd_mul_left
  rcases binadeShift_spec (m0 * 2 ^ s0) with h0 | h1
  · rw [h0]; simp
  · have hlt : 2 ^ (52 + binadeShift (m0 * 2 ^ s0)) < 2 ^ (53 + s0) := by
      calc 2 ^ (52 + binadeShift (m0 * 2 ^ s0)) ≤ m0 * 2 ^ s0 := h1
        _ < 2 ^ 53 * 2 ^ s0 := Nat.mul_lt_mul_of_pos_right hm (by positivity)
        _ = 2 ^ (53 + s0) := by rw [pow_add]
    have hle : binadeShift (m0 * 2 ^ s0) ≤ s0 := by
      have := (Nat.pow_lt_pow_iff_right (by norm_num : 1 < 2)).mp hlt
      omega
    exact Dvd.dvd.mul_left (pow_dvd_pow 2 hle) m0

theorem roundUnits_zero (d : Nat) (hd : 0 < d) : roundUnits 0 d = 0 := by
  have := roundUnits_representable 0 d 0 0 hd (by simp) (by norm_num)
  simpa using this

theorem roundUnits_pos (n d : Nat) (hd : 0 < d) (h : d ≤ n * 2 ^ minExponent) :
    0 < roundUnits n d := by
  unfold roundUnits
  simp only
  have ht : 1 ≤ n * 2 ^ minExponent / d := (Nat.one_le_div_iff hd).mpr h
  have hden : d * 2 ^ binadeShift (n * 2 ^ minExponent / d) ≤ n * 2 ^ minExponent := by
    rcases binadeShift_spec (n * 2 ^ minExponent / d) with h0 | h1
    · rw [h0]; simpa using h
    · have h2 : 2 ^ binadeShift (n * 2 ^ minExponent / d) ≤ n * 2 ^ minExponent / d :=
        le_trans (Nat.pow_le_pow_right (by norm_num) (by omega)) h1
      calc d * 2 ^ binadeShift (n * 2 ^ minExponent / d) ≤ d * (n * 2 ^ minExponent / d) :=
            Nat.mul_le_mul_left d h2
        _ ≤ n * 2 ^ minExponent := Nat.mul_div_le _ _
  have hq : 1 ≤ n * 2 ^ minExponent / (d * 2 ^ binadeShift (n * 2 ^ minExponent / d)) :=
    (Nat.one_le_div_iff (by positivity)).mpr hden
  have hp : 0 < 2 ^ binadeShift (n * 2 ^ minExponent / d) := by positivity
  apply Nat.mul_pos _ hp
  split
  · omega
  · split <;> omega

theorem roundUnits_int (n : Nat) : ∃ k : Nat, roundUnits n 1 = k * 2 ^ minExponent := by
  by_cases hs : binadeShift (n * 2 ^ minExponent / 1) ≤ minExponent
  · refine ⟨n, ?_⟩
    rw [roundUnits_of_dvd n 1 (by norm_num), Nat.div_one]
    rw [Nat.one_mul]
    exact Dvd.dvd.mul_left (pow_dvd_pow 2 hs) n
  · unfold roundUnits
    simp only
    obtain ⟨e, he⟩ : ∃ e, binadeShift (n * 2 ^ minExponent / 1) = e + minExponent :=
      ⟨binadeShift (n * 2 ^ minExponent / 1) - minExponent, by omega⟩
    rw [he, pow_add]
    exact ⟨_, by rw [← Nat.mul_assoc]⟩

theorem roundUnits_error (n d : Nat) (hd : 0 < d) :
    2 * (n * 2 ^ minExponent)
        ≤ 2 * (d * roundUnits n d) + d * 2 ^ binadeShift (n * 2 ^ minExponent / d)
    ∧ 2 * (d * roundUnits n d)
        ≤ 2 * (n * 2 ^ minExponent) + d * 2 ^ binadeShift (n * 2 ^ minExponent / d) := by
  unfold roundUnits
  simp only
  generalize binadeShift (n * 2 ^ minExponent / d) = s
  generalize n * 2 ^ minExponent = N
  have hden : 0 < d * 2 ^ s := by positivity
  generalize hD : d * 2 ^ s = D at hden
  have hN : D * (N / D) + N % D = N := Nat.div_add_mod N D
  have hr : N % D < D := Nat.mod_lt N hden
  generalize N / D = q at hN
  generalize N % D = r at hN hr
  have hmul : ∀ m : Nat, d * (m * 2 ^ s) = D * m := by
    intro m
    rw [← hD]
    ring
  split
  · rw [hmul]
    constructor <;> omega
  · split
    · rw [hmul, Nat.mul_add]
      constructor <;> omega
    · have ht : 2 * r = D := by omega
      rw [hmul, Nat.mul_add]
      have hq : q % 2 = 0 ∨ q % 2 = 1 := by omega
      rcases hq with h0 | h1
      · rw [h0]
        constructor <;> omega
      · rw [h1]
        constructor <;> omega

theorem binadeShift_foldl_lt (t : Nat) :
    ∀ (bs : List Nat) (s b : Nat), List.Chain (fun x y => x = 2 * y) b bs →
      (bs ++ [1]).getLast? = some 1 → (b :: bs).getLast? = some 1 →
      t < 2 ^ (52 + s + 2 * b) →
      t < 2 ^ (53 + (b :: bs).foldl (fun s b => if 2 ^ (52 + s + b) ≤ t then s + b else s) s) := by
  intro bs
  induction bs with
  | nil =>
    intro s b _ _ hlast ht
    have hb : b = 1 := by simpa using hlast
    subst hb
    rw [List.foldl_cons, List.foldl_nil]
    by_cases hc : 2 ^ (52 + s + 1) ≤ t
    · rw [if_pos hc]
      have e : 53 + (s + 1) = 52 + s + 2 * 1 := by omega
      rw [e]
      exact ht
    · rw [if_neg hc]
      have e : 53 + s = 52 + s + 1 := by omega
      rw [e]
      exact not_le.mp hc
  | cons c cs ih =>
    intro s b hchain h1 hlast ht
    rw [List.foldl_cons]
    have hbc : b = 2 * c := (List.chain_cons.mp hchain).1
    have hchain2 := (List.chain_cons.mp hchain).2
    have hlast2 : (c :: cs).getLast? = some 1 := by
      simpa [List.getLast?_cons_cons] using hlast
    apply ih _ c hchain2 (by simp) hlast2
    by_cases hc : 2 ^ (52 + s + b) ≤ t
    · rw [if_pos hc]
      have e : 52 + (s + b) + 2 * c = 52 + s + 2 * b := by omega
      rw [e]
      exact ht
    · rw [if_neg hc]
      have e : 52 + s + 2 * c = 52 + s + b := by omega
      rw [e]
      exact not_le.mp hc

theorem binadeShift_lt (t : Nat) (h : t < 2 ^ (52 + 4096)) : t < 2 ^ (53 + binadeShift t) := by
  unfold binadeShift
  apply binadeShift_foldl_lt t _ 0 2048
  · simp [List.chain_cons]
  · simp
  · simp
  · have e : 52 + 0 + 2 * 2048 = 52 + 4096 := by norm_num
    rw [e]
    exact h

theorem roundUnits_significand (n d : Nat)
    (h : n * 2 ^ minExponent / d < 2 ^ (52 + 4096)) :
    ∃ m : Nat, m ≤ 2 ^ 53
      ∧ roundUnits n d = m * 2 ^ binadeShift (n * 2 ^ minExponent / d) := by
  have hlt := binadeShift_lt _ h
  unfold roundUnits
  simp only
  generalize binadeShift (n * 2 ^ minExponent / d) = s at hlt ⊢
  generalize n * 2 ^ minExponent = N at hlt ⊢
  have hq : N / (d * 2 ^ s) < 2 ^ 53 := by
    rw [← Nat.div_div_eq_div_mul]
    apply Nat.div_lt_of_lt_mul
    rw [← pow_add, Nat.add_comm s 53]
    exact hlt
  refine ⟨_, ?_, rfl⟩
  split
  · omega
  · split
    · omega
    · omega

theorem roundToDouble_grid (q r : ℚ) (h : roundToDouble q = JSNum.fin r) :
    ∃ k : ℤ, r = (k : ℚ) / 2 ^ minExponent := by
  unfold roundToDouble at h
  simp only at h
  split at h
  · split at h <;> exact absurd h (by simp)
  · have := JSNum.fin.inj h
    split at this
    · exact ⟨-(roundUnits q.num.natAbs q.den : ℤ), by rw [← this]; push_cast; ring⟩
    · exact ⟨(roundUnits q.num.natAbs q.den : ℤ), by rw [← this]; push_cast; ring⟩

theorem roundToDouble_int (z : ℤ) (h : |z| < 2 ^ 53) :
    roundToDouble (z : ℚ) = JSNum.fin (z : ℚ) := by
  have hu : roundUnits z.natAbs 1 = z.natAbs * 2 ^ minExponent :=
    roundUnits_representable z.natAbs 1 z.natAbs minExponent (by norm_num) (by ring) (by
      have : (z.natAbs : ℤ) < 2 ^ 53 := by rw [Int.natCast_natAbs]; exact h
      exact_mod_cast this)
  unfold roundToDouble
  simp only [Rat.num_intCast, Rat.den_intCast, hu]
  have hlt : ¬ 2 ^ (minExponent + 1024) ≤ z.natAbs * 2 ^ minExponent := by
    have : z.natAbs < 2 ^ 53 := by
      have : (z.natAbs : ℤ) < 2 ^ 53 := by rw [Int.natCast_natAbs]; exact h
      exact_mod_cast this
    have h2 : z.natAbs * 2 ^ minExponent < 2 ^ 53 * 2 ^ minExponent :=
      Nat.mul_lt_mul_of_pos_right this (by positivity)
    have h3 : (2 : Nat) ^ 53 * 2 ^ minExponent ≤ 2 ^ (minExponent + 1024) := by
      rw [← pow_add]
      exact Nat.pow_le_pow_right (by norm_num) (by omega)
    omega
  rw [if_neg hlt]
  refine congrArg JSNum.fin ?_
  have hp : (2 : ℚ) ^ minExponent ≠ 0 := by positivity
  by_cases hz : (z : ℚ) < 0
  · rw [if_pos hz]
    have hz1 : z < 0 := by exact_mod_cast hz
    have : ((z.natAbs : ℕ) : ℚ) = -(z : ℚ) := by
      rw [Nat.cast_natAbs, abs_of_neg hz1, Int.cast_neg]
    push_cast
    rw [this]
    field_simp
  · rw [if_neg hz]
    have hz1 : 0 ≤ z := by
      have : (0 : ℚ) ≤ z := not_lt.mp hz
      exact_mod_cast this
    have : ((z.natAbs : ℕ) : ℚ) = (z : ℚ) := by
      rw [Nat.cast_natAbs, abs_of_nonneg hz1]
    push_cast
    rw [this]
    field_simp

theorem roundToDouble_int_or_inf (z : ℤ) :
    roundToDouble (z : ℚ) = JSNum.posInf ∨ roundToDouble (z : ℚ) = JSNum.negInf
      ∨ ∃ w : ℤ, roundToDouble (z : ℚ) = JSNum.fin (w : ℚ) := by
  obtain ⟨k, hk⟩ := roundUnits_int z.natAbs
  unfold roundToDouble
  simp only [Rat.num_intCast, Rat.den_intCast, hk]
  have hp : (2 : ℚ) ^ minExponent ≠ 0 := by positivity
  split
  · split
    · exact Or.inr (Or.inl rfl)
    · exact Or.inl rfl
  · right; right
    split
    · exact ⟨-(k : ℤ), congrArg JSNum.fin (by push_cast; field_simp)⟩
    · exact ⟨(k : ℤ), congrArg JSNum.fin (by push_cast; field_simp)⟩

theorem roundToDouble_isPos_of_nonpos (q : ℚ) (h : q ≤ 0) : (roundToDouble q).isPos = false := by
  unfold roundToDouble
  simp only
  rcases lt_or_eq_of_le h with hlt | heq
  · rw [if_pos hlt, if_pos hlt]
    split
    · rfl
    · simp only [JSNum.isPos, decide_eq_false_iff_not, not_lt]
      apply div_nonpos_of_nonpos_of_nonneg
      · simp
      · positivity
  · subst heq
    simp [roundUnits_zero, JSNum.isPos]

theorem roundToDouble_isPos_of_ge (q : ℚ) (h : 1 / 2 ^ minExponent ≤ q) :
    (roundToDouble q).isPos = true := by
  have hq : 0 < q := lt_of_lt_of_le (by positivity) h
  have hnum : 0 < q.num := Rat.num_pos.mpr hq
  have hle : q.den ≤ q.num.natAbs * 2 ^ minExponent := by
    have h1 : (q.den : ℚ) ≤ (q.num : ℚ) * 2 ^ minExponent := by
      have hd : (0 : ℚ) < q.den := by exact_mod_cast q.den_pos
      have hqe : q = (q.num : ℚ) / q.den := (Rat.num_div_den q).symm
      rw [hqe, div_le_div_iff₀ (by positivity) hd] at h
      linarith
    have h2 : ((q.num.natAbs : ℕ) : ℚ) = (q.num : ℚ) := by
      rw [Nat.cast_natAbs, abs_of_pos hnum]
    have h3 : ((q.den : ℕ) : ℚ) ≤ ((q.num.natAbs * 2 ^ minExponent : ℕ) : ℚ) := by
      push_cast
      rw [h2]
      exact h1
    exact_mod_cast h3
  have hu := roundUnits_pos q.num.natAbs q.den q.den_pos hle
  unfold roundToDouble
  simp only
  rw [if_neg (not_lt.mpr hq.le), if_neg (not_lt.mpr hq.le)]
  split
  · rfl
  · simp only [JSNum.isPos, decide_eq_true_eq]
    apply div_pos
    · exact_mod_cast hu
    · positivity

theorem roundToDouble_zero : roundToDouble 0 = JSNum.fin 0 := by
  simpa using roundToDouble_int 0 (by norm_num)

theorem isPos_sub_of_grid (x y : ℚ) (hx : ∃ k : ℤ, x = (k : ℚ) / 2 ^ minExponent)
    (hy : ∃ k : ℤ, y = (k : ℚ) / 2 ^ minExponent) :
    (JSNum.sub (JSNum.fin y) (JSNum.fin x)).isPos = decide (x < y) := by
  obtain ⟨kx, rfl⟩ := hx
  obtain ⟨ky, rfl⟩ := hy
  have hp : (0 : ℚ) < 2 ^ minExponent := by positivity
  show (roundToDouble ((ky : ℚ) / 2 ^ minExponent + -((kx : ℚ) / 2 ^ minExponent))).isPos = _
  by_cases h : (kx : ℚ) / 2 ^ minExponent < (ky : ℚ) / 2 ^ minExponent
  · rw [decide_eq_true h]
    apply roundToDouble_isPos_of_ge
    have hk : kx < ky := by
      have := (div_lt_div_iff_of_pos_right hp).mp h
      exact_mod_cast this
    have hk1 : (1 : ℚ) ≤ (ky : ℚ) - (kx : ℚ) := by
      have : (1 : ℤ) ≤ ky - kx := by omega
      exact_mod_cast this
    rw [← sub_eq_add_neg, ← sub_div]
    exact div_le_div_of_nonneg_right hk1 hp.le
  · rw [decide_eq_false h]
    apply roundToDouble_isPos_of_nonpos
    linarith [not_lt.mp h]

theorem roundToDouble_ties_to_even :
    roundToDouble (1 / 10) = JSNum.fin (3602879701896397 / 36028797018963968)
    ∧ roundToDouble 9007199254740993 = JSNum.fin 9007199254740992
    ∧ roundToDouble 9007199254740995 = JSNum.fin 9007199254740996
    ∧ roundToDouble (10 ^ 309) = JSNum.posInf := by
  decide!

theorem add_is_rounded :
    JSNum.add (parseFloatStr "0.1") (parseFloatStr "0.2") = parseFloatStr "0.30000000000000004"
    ∧ numberToString (JSNum.add (parseFloatStr "0.1") (parseFloatStr "0.2"))
      = "0.30000000000000004"
    ∧ numberToString (parseFloatStr "0.3") = "0.3"
    ∧ getField (calculateAverageScores
        [[("TLR", JSVal.str "0.1")], [("TLR", JSVal.str "0.2")]]) "TLR"
      = JSVal.num (parseFloatStr "0.15000000000000002")
    ∧ parseIntStr (String.mk (List.replicate 309 '9')) = JSNum.posInf := by
  decide!

theorem neg_grid (x : JSNum)
    (h : ∀ r : ℚ, x = JSNum.fin r → ∃ k : ℤ, r = (k : ℚ) / 2 ^ minExponent) :
    ∀ r : ℚ, x.neg = JSNum.fin r → ∃ k : ℤ, r = (k : ℚ) / 2 ^ minExponent := by
  intro r hr
  cases x with
  | nan => simp [JSNum.neg] at hr
  | posInf => simp [JSNum.neg] at hr
  | negInf => simp [JSNum.neg] at hr
  | fin q =>
    obtain ⟨k, hk⟩ := h q rfl
    have := JSNum.fin.inj hr
    exact ⟨-k, by rw [← this, hk]; push_cast; ring⟩

theorem scanUnsignedDecimal_grid (cs rest : List Char) (v : JSNum)
    (h : scanUnsignedDecimal cs = some (v, rest)) :
    ∀ r : ℚ, v = JSNum.fin r → ∃ k : ℤ, r = (k : ℚ) / 2 ^ minExponent := by
  intro r hr
  unfold scanUnsignedDecimal at h
  simp only at h
  split at h
  · have := (Prod.mk.inj (Option.some.inj h)).1
    rw [← this] at hr
    simp at hr
  · split at h
    · simp at h
    · have := (Prod.mk.inj (Option.some.inj h)).1
      rw [← this] at hr
      exact roundToDouble_grid _ r hr

theorem stringToNumber_grid (s : String) (r : ℚ) (h : stringToNumber s = JSNum.fin r) :
    ∃ k : ℤ, r = (k : ℚ) / 2 ^ minExponent := by
  have hlit : ∀ (radix : Nat) (cs : List Char),
      (if cs ≠ [] ∧ cs.all (isRadixDigit radix) = true
        then roundToDouble (digitsToNat radix cs : ℚ) else JSNum.nan) = JSNum.fin r →
      ∃ k : ℤ, r = (k : ℚ) / 2 ^ minExponent := by
    intro radix cs hc
    split at hc
    · exact roundToDouble_grid _ r hc
    · simp at hc
  unfold stringToNumber at h
  simp only at h
  split at h
  · exact ⟨0, by rw [← JSNum.fin.inj h]; simp⟩
  · exact hlit _ _ h
  · exact hlit _ _ h
  · exact hlit _ _ h
  · exact hlit _ _ h
  · exact hlit _ _ h
  · exact hlit _ _ h
  · split at h
    · rename_i v hv
      have hg := scanUnsignedDecimal_grid _ _ v hv
      split at h
      · exact neg_grid v hg r h
      · exact hg r h
    · simp at h

theorem toNumber_grid (v : JSVal) (r : ℚ) (h : toNumber v = JSNum.fin r) :
    ∃ k : ℤ, r = (k : ℚ) / 2 ^ minExponent := by
  cases v with
  | undefined => simp [toNumber] at h
  | str s => exact stringToNumber_grid s r h
  | num x =>
    cases x with
    | fin q => exact roundToDouble_grid q r h
    | nan => simp [toNumber, JSNum.toDouble] at h
    | posInf => simp [toNumber, JSNum.toDouble] at h
    | negInf => simp [toNumber, JSNum.toDouble] at h

/-! ## Facts about the sort -/

theorem sortInsert_eq_orderedInsert {α : Type} (cmp : α → α → JSNum) (x : α) (l : List α) :
    sortInsert cmp x l = List.orderedInsert (fun a b => (cmp a b).isPos = false) x l := by
  induction l with
  | nil => rfl
  | cons y ys ih =>
    by_cases h : (cmp x y).isPos = true
    · simp [sortInsert, List.orderedInsert, h, ih]
    · simp [sortInsert, List.orderedInsert, h]

theorem arraySort_eq_insertionSort {α : Type} (cmp : α → α → JSNum) (l : List α) :
    arraySort cmp l = List.insertionSort (fun a b => (cmp a b).isPos = false) l := by
  induction l with
  | nil => rfl
  | cons x xs ih => simp [arraySort, List.insertionSort, ih, sortInsert_eq_orderedInsert]

theorem arraySort_perm {α : Type} (cmp : α → α → JSNum) (l : List α) :
    (arraySort cmp l).Perm l := by
  rw [arraySort_eq_insertionSort]
  exact List.perm_insertionSort _ l

theorem sublist_arraySort {α : Type} (cmp : α → α → JSNum) {l c : List α}
    (hc : c.Pairwise (fun a b => (cmp a b).isPos = false)) (hs : c.Sublist l) :
    c.Sublist (arraySort cmp l) := by
  rw [arraySort_eq_insertionSort]
  exact List.sublist_insertionSort hc hs

theorem sortInsert_pairwise {α : Type} (cmp : α → α → JSNum) (k : α → ℚ) (x : α) (l : List α)
    (h : ∀ b ∈ l, (cmp x b).isPos = decide (k x < k b))
    (hs : l.Pairwise (fun a b => k b ≤ k a)) :
    (sortInsert cmp x l).Pairwise (fun a b => k b ≤ k a) := by
  induction l with
  | nil => simp [sortInsert]
  | cons y ys ih =>
    have hy := h y (List.mem_cons_self _ _)
    rw [List.pairwise_cons] at hs
    by_cases hlt : k x < k y
    · have hp : (cmp x y).isPos = true := by rw [hy]; exact decide_eq_true hlt
      simp only [sortInsert, hp, if_true]
      rw [List.pairwise_cons]
      refine ⟨?_, ih (fun b hb => h b (List.mem_cons_of_mem _ hb)) hs.2⟩
      intro z hz
      rw [sortInsert_eq_orderedInsert, List.mem_orderedInsert] at hz
      rcases hz with rfl | hz
      · exact le_of_lt hlt
      · exact hs.1 z hz
    · have hp : (cmp x y).isPos = false := by rw [hy]; exact decide_eq_false hlt
      simp only [sortInsert, hp, Bool.false_eq_true, if_false]
      rw [List.pairwise_cons]
      refine ⟨?_, List.pairwise_cons.mpr hs⟩
      intro z hz
      rcases List.mem_cons.mp hz with rfl | hz
      · exact not_lt.mp hlt
      · exact le_trans (hs.1 z hz) (not_lt.mp hlt)

theorem arraySort_pairwise {α : Type} (cmp : α → α → JSNum) (k : α → ℚ) (l : List α)
    (h : ∀ a ∈ l, ∀ b ∈ l, (cmp a b).isPos = decide (k a < k b)) :
    (arraySort cmp l).Pairwise (fun a b => k b ≤ k a) := by
  induction l with
  | nil => simp [arraySort]
  | cons x xs ih =>
    simp only [arraySort]
    apply sortInsert_pairwise
    · intro b hb
      exact h x (List.mem_cons_self _ _) b
        (List.mem_cons_of_mem _ ((arraySort_perm cmp xs).mem_iff.mp hb))
    · exact ih (fun a ha b hb => h a (List.mem_cons_of_mem _ ha) b (List.mem_cons_of_mem _ hb))

/-! ## Facts about the score comparator -/

theorem scoreComparator_isPos (a b : Record)
    (ha : (toNumber (getField a "Score")).isFinite = true)
    (hb : (toNumber (getField b "Score")).isFinite = true) :
    (scoreComparator a b).isPos = decide (scoreValue a < scoreValue b) := by
  unfold scoreComparator scoreValue
  cases hA : toNumber (getField a "Score") <;> simp [hA, JSNum.isFinite] at ha
  cases hB : toNumber (getField b "Score") <;> simp [hB, JSNum.isFinite] at hb
  exact isPos_sub_of_grid _ _ (toNumber_grid _ _ hA) (toNumber_grid _ _ hB)

theorem scoreComparator_eq_zero_of_eq (a b : Record)
    (ha : (toNumber (getField a "Score")).isFinite = true)
    (hb : (toNumber (getField b "Score")).isFinite = true)
    (h : scoreValue a = scoreValue b) :
    (scoreComparator a b).isPos = false := by
  rw [scoreComparator_isPos a b ha hb, h]
  simp

theorem ge_score_iff (a b : Record)
    (ha : (toNumber (getField a "Score")).isFinite = true)
    (hb : (toNumber (getField b "Score")).isFinite = true) :
    JSNum.ge (toNumber (getField a "Score")) (toNumber (getField b "Score")) = true
      ↔ scoreValue b ≤ scoreValue a := by
  unfold scoreValue
  cases hA : toNumber (getField a "Score") <;> simp [hA, JSNum.isFinite] at ha
  cases hB : toNumber (getField b "Score") <;> simp [hB, JSNum.isFinite] at hb
  simp [JSNum.ge]

/-! ## Stable sorts of one list agree -/

theorem filter_eq_of_stable {α : Type} (k : α → ℚ) (l s : List α) (hperm : s.Perm l)
    (hstab : ∀ c : List α, (∀ a ∈ c, ∀ b ∈ c, k a = k b) → c.Sublist l → c.Sublist s) (v : ℚ) :
    s.filter (fun a => decide (k a = v)) = l.filter (fun a => decide (k a = v)) := by
  have hsub : (l.filter (fun a => decide (k a = v))).Sublist s := by
    apply hstab _ _ (List.filter_sublist l)
    intro a ha b hb
    have h1 := (List.mem_filter.mp ha).2
    have h2 := (List.mem_filter.mp hb).2
    simp only [decide_eq_true_eq] at h1 h2
    rw [h1, h2]
  have hsub2 := hsub.filter (fun a => decide (k a = v))
  rw [List.filter_filter] at hsub2
  simp only [Bool.and_self] at hsub2
  have hlen : (s.filter (fun a => decide (k a = v))).length
      = (l.filter (fun a => decide (k a = v))).length := (hperm.filter _).length_eq
  exact (hsub2.eq_of_length hlen.symm).symm

theorem eq_of_sorted_of_filter_eq {α : Type} (k : α → ℚ) :
    ∀ (l1 l2 : List α), l1.Pairwise (fun a b => k b ≤ k a) → l2.Pairwise (fun a b => k b ≤ k a) →
      (∀ v : ℚ, l1.filter (fun a => decide (k a = v)) = l2.filter (fun a => decide (k a = v))) →
      l1 = l2
  | [], [], _, _, _ => rfl
  | [], b :: t2, _, _, h => by
    have := h (k b)
    simp at this
  | a :: t1, [], _, _, h => by
    have := h (k a)
    simp at this
  | a :: t1, b :: t2, h1, h2, h => by
    rw [List.pairwise_cons] at h1 h2
    have hab : a = b := by
      by_cases hk : k a = k b
      · have := h (k a)
        simp [List.filter_cons, hk] at this
        exact this.1
      · exfalso
        have e1 := h (k a)
        have e2 := h (k b)
        have hba : ¬ k b = k a := fun e => hk e.symm
        simp [List.filter_cons, hk, hba] at e1 e2
        have ha2 : a ∈ t2 := by
          have : a ∈ List.filter (fun x => decide (k x = k a)) t2 := by
            rw [← e1]; exact List.mem_cons_self _ _
          exact (List.mem_filter.mp this).1
        have hb1 : b ∈ t1 := by
          have : b ∈ List.filter (fun x => decide (k x = k b)) t1 := by
            rw [e2]; exact List.mem_cons_self _ _
          exact (List.mem_filter.mp this).1
        exact hk (le_antisymm (h2.1 a ha2) (h1.1 b hb1))
    subst hab
    have ht : t1 = t2 := by
      apply eq_of_sorted_of_filter_eq k t1 t2 h1.2 h2.2
      intro v
      have := h v
      by_cases hv : k a = v
      · simpa [List.filter_cons, hv] using this
      · simpa [List.filter_cons, hv] using this
    rw [ht]

theorem take_filter_isInitial {α : Type} (p : α → Bool) (l : List α) (n : Nat) :
    (l.take n).filter p <+: l.filter p := by
  conv_rhs => rw [← List.take_append_drop n l, List.filter_append]
  exact List.prefix_append _ _

theorem arraySort_scores_filter (data : List Record)
    (hfin : ∀ r ∈ data, (toNumber (getField r "Score")).isFinite = true) (v : ℚ) :
    (arraySort scoreComparator data).filter (fun r => decide (scoreValue r = v))
      = data.filter (fun r => decide (scoreValue r = v)) := by
  apply filter_eq_of_stable scoreValue data _ (arraySort_perm _ _)
  intro c hc hsub
  apply sublist_arraySort _ _ hsub
  rw [List.pairwise_iff_forall_sublist]
  intro a b hab
  have ha : a ∈ c := hab.subset (by simp)
  have hb : b ∈ c := hab.subset (by simp)
  exact scoreComparator_eq_zero_of_eq a b (hfin a (hsub.subset ha)) (hfin b (hsub.subset hb))
    (hc a ha b hb)

theorem stableSortDescByScore_filter (data : List Record) (v : ℚ) :
    (stableSortDescByScore data).filter (fun r => decide (scoreValue r = v))
      = data.filter (fun r => decide (scoreValue r = v)) := by
  apply filter_eq_of_stable scoreValue data _ (List.mergeSort_perm _ _)
  intro c hc hsub
  apply List.sublist_mergeSort _ _ _ hsub
  · intro a b c h1 h2
    simp only [decide_eq_true_eq] at *
    exact le_trans h2 h1
  · intro a b
    simp only [Bool.or_eq_true, decide_eq_true_eq]
    exact le_total _ _
  · rw [List.pairwise_iff_forall_sublist]
    intro a b hab
    have ha : a ∈ c := hab.subset (by simp)
    have hb : b ∈ c := hab.subset (by simp)
    simp only [decide_eq_true_eq]
    exact le_of_eq (hc a ha b hb).symm

theorem stableSortDescByScore_pairwise (data : List Record) :
    (stableSortDescByScore data).Pairwise (fun a b => scoreValue b ≤ scoreValue a) := by
  have h := @List.sorted_mergeSort Record (fun a b => decide (scoreValue b ≤ scoreValue a))
    (by
      intro a b c h1 h2
      simp only [decide_eq_true_eq] at *
      exact le_trans h2 h1)
    (by
      intro a b
      simp only [Bool.or_eq_true, decide_eq_true_eq]
      exact le_total _ _) data
  simpa [stableSortDescByScore] using h

theorem arraySort_scores_pairwise (data : List Record)
    (hfin : ∀ r ∈ data, (toNumber (getField r "Score")).isFinite = true) :
    (arraySort scoreComparator data).Pairwise (fun a b => scoreValue b ≤ scoreValue a) :=
  arraySort_pairwise scoreComparator scoreValue data
    (fun a ha b hb => scoreComparator_isPos a b (hfin a ha) (hfin b hb))

theorem arraySort_eq_stableSortDescByScore (data : List Record)
    (hfin : ∀ r ∈ data, (toNumber (getField r "Score")).isFinite = true) :
    arraySort scoreComparator data = stableSortDescByScore data :=
  eq_of_sorted_of_filter_eq scoreValue _ _ (arraySort_scores_pairwise data hfin)
    (stableSortDescByScore_pairwise data)
    (fun v => by rw [arraySort_scores_filter data hfin v, stableSortDescByScore_filter data v])

/-! ## Facts about records and trimming -/

theorem getField_setField_same (r : Record) (k : String) (v : JSVal) :
    getField (setField r k v) k = v := by
  induction r with
  | nil => simp [setField, getField]
  | cons p rest ih =>
    obtain ⟨k0, v0⟩ := p
    by_cases h : k0 = k
    · simp [setField, getField, h]
    · simp [setField, getField, h, ih]

theorem getField_setField_other (r : Record) (k k1 : String) (v : JSVal) (hne : k1 ≠ k) :
    getField (setField r k v) k1 = getField r k1 := by
  induction r with
  | nil =>
    have h : ¬ k = k1 := fun e => hne e.symm
    simp [setField, getField, h]
  | cons p rest ih =>
    obtain ⟨k0, v0⟩ := p
    by_cases h : k0 = k
    · subst h
      have h1 : ¬ k0 = k1 := fun e => hne e.symm
      simp [setField, getField, h1]
    · by_cases h1 : k0 = k1
      · subst h1
        simp [setField, getField, h]
      · simp [setField, getField, h, h1, ih]

theorem filter_not_dropWhile {α : Type} (p : α → Bool) (l : List α) :
    (l.dropWhile p).filter (fun c => !p c) = l.filter (fun c => !p c) := by
  induction l with
  | nil => rfl
  | cons a t ih =>
    by_cases h : p a = true
    · simp [List.dropWhile, List.filter_cons, h, ih]
    · simp [List.dropWhile, h]

theorem filter_not_trim (l : List Char) :
    (trim l).filter (fun c => !isJSWhiteSpace c) = l.filter (fun c => !isJSWhiteSpace c) := by
  unfold trim trimEnd trimStart
  rw [List.filter_reverse, filter_not_dropWhile, ← List.filter_reverse, List.reverse_reverse,
    filter_not_dropWhile]

theorem trim_sublist (l : List Char) : (trim l).Sublist l :=
  (List.rdropWhile_prefix isJSWhiteSpace (trimStart l)).sublist.trans
    (List.dropWhile_sublist _)

theorem trim_head (l : List Char) (c : Char) (h : (trim l).head? = some c) :
    isJSWhiteSpace c = false := by
  have hpre : trim l <+: trimStart l := List.rdropWhile_prefix isJSWhiteSpace (trimStart l)
  obtain ⟨t, ht⟩ := hpre
  have hh : (trimStart l).head? = some c := by
    rw [← ht]
    cases hl : trim l with
    | nil => rw [hl] at h; simp at h
    | cons a u => rw [hl] at h; simpa using h
  have := List.head?_dropWhile_not isJSWhiteSpace l
  unfold trimStart at hh
  rw [hh] at this
  exact this

theorem trim_last (l : List Char) (c : Char) (h : (trim l).getLast? = some c) :
    isJSWhiteSpace c = false := by
  have hne : (trimStart l).rdropWhile isJSWhiteSpace ≠ [] := by
    intro e
    have : trim l = [] := e
    rw [this] at h
    simp at h
  have hlast := List.rdropWhile_last_not isJSWhiteSpace (trimStart l) hne
  have hc : ((trimStart l).rdropWhile isJSWhiteSpace).getLast hne = c := by
    have h2 : ((trimStart l).rdropWhile isJSWhiteSpace).getLast? = some c := h
    rw [List.getLast?_eq_getLast _ hne] at h2
    exact Option.some.inj h2
  rw [hc] at hlast
  simpa using hlast

theorem trim_eq_self (l : List Char)
    (hh : ∀ c, l.head? = some c → isJSWhiteSpace c = false)
    (hl : ∀ c, l.getLast? = some c → isJSWhiteSpace c = false) : trim l = l := by
  have h1 : trimStart l = l := by
    unfold trimStart
    rw [List.dropWhile_eq_self_iff]
    intro hpos
    cases l with
    | nil => simp at hpos
    | cons a t =>
      have := hh a (by simp)
      simp [this]
  have h2 : trimEnd l = l := by
    show l.rdropWhile isJSWhiteSpace = l
    rw [List.rdropWhile_eq_self_iff]
    intro hne
    have := hl (l.getLast hne) (List.getLast?_eq_getLast _ hne)
    simp [this]
  unfold trim
  rw [h1, h2]

theorem cleanName_toList (name : String) :
    (cleanName name).toList = trim (name.toList.filter (fun c => !isNoiseChar c)) := rfl

/-! ## Facts about splitting and joining -/

theorem splitOnChar_ne_nil (sep : Char) (l : List Char) : splitOnChar sep l ≠ [] := by
  induction l with
  | nil => simp [splitOnChar]
  | cons c cs ih =>
    by_cases h : c = sep
    · simp [splitOnChar, h]
    · cases hs : splitOnChar sep cs with
      | nil => exact absurd hs ih
      | cons piece pieces => simp [splitOnChar, h, hs]

theorem splitOnChar_of_not_mem (sep : Char) (l : List Char) (h : sep ∉ l) :
    splitOnChar sep l = [l] := by
  induction l with
  | nil => rfl
  | cons c cs ih =>
    have hc : ¬ c = sep := fun e => h (by simp [e])
    have hcs : sep ∉ cs := fun e => h (List.mem_cons_of_mem _ e)
    simp [splitOnChar, hc, ih hcs]

theorem splitOnChar_append_sep (sep : Char) (l t : List Char) (h : sep ∉ l) :
    splitOnChar sep (l ++ sep :: t) = l :: splitOnChar sep t := by
  induction l with
  | nil => simp [splitOnChar]
  | cons c cs ih =>
    have hc : ¬ c = sep := fun e => h (by simp [e])
    have hcs : sep ∉ cs := fun e => h (List.mem_cons_of_mem _ e)
    simp [splitOnChar, hc, ih hcs]

theorem splitOnChar_joinWith (sep : Char) :
    ∀ ls : List (List Char), ls ≠ [] → (∀ l ∈ ls, sep ∉ l) →
      splitOnChar sep (joinWith sep ls) = ls
  | [], h, _ => absurd rfl h
  | [p], _, hmem => by
    simpa [joinWith] using splitOnChar_of_not_mem sep p (hmem p (by simp))
  | p :: q :: rest, _, hmem => by
    have hp : sep ∉ p := hmem p (by simp)
    have ih := splitOnChar_joinWith sep (q :: rest) (by simp)
      (fun l hl => hmem l (List.mem_cons_of_mem _ hl))
    simp only [joinWith]
    rw [splitOnChar_append_sep sep p _ hp, ih]

theorem mem_joinWith (sep c : Char) :
    ∀ ls : List (List Char), c ∈ joinWith sep ls → c = sep ∨ ∃ l ∈ ls, c ∈ l
  | [], h => by simp [joinWith] at h
  | [p], h => by
    right
    exact ⟨p, by simp, by simpa [joinWith] using h⟩
  | p :: q :: rest, h => by
    simp only [joinWith, List.mem_append, List.mem_cons] at h
    rcases h with h | h | h
    · right; exact ⟨p, by simp, h⟩
    · left; exact h
    · rcases mem_joinWith sep c (q :: rest) h with h1 | ⟨l, hl, hc⟩
      · left; exact h1
      · right; exact ⟨l, List.mem_cons_of_mem _ hl, hc⟩

/-! ## Facts about `buildRow` -/

theorem getField_assignField_same (r : Record) (k : String) (v : JSVal)
    (hk : k ≠ "__proto__") : getField (assignField r k v) k = v := by
  rw [assignField, if_neg hk, getField_setField_same]

theorem getField_assignField_other (r : Record) (k k1 : String) (v : JSVal) (h : k1 ≠ k) :
    getField (assignField r k v) k1 = getField r k1 := by
  unfold assignField
  split
  · rfl
  · exact getField_setField_other r k k1 v h

theorem buildRow_concat (hs : List (List Char)) (x : List Char) (values : List (List Char)) :
    buildRow (hs ++ [x]) values
      = assignField (buildRow hs values) (String.mk (trim x)) (trimmedValueAt values hs.length) := by
  simp [buildRow, List.enum_append, List.foldl_append, List.enumFrom_singleton]

theorem buildRow_undefined_past_values (values : List (List Char)) :
    ∀ (hs : List (List Char)) (i : Nat) (h : List Char), hs[i]? = some h → values.length ≤ i →
      String.mk (trim h) ≠ "__proto__" →
      getField (buildRow hs values) (String.mk (trim h)) = JSVal.undefined := by
  intro hs
  induction hs using List.reverseRecOn with
  | nil => intro i h hi; simp at hi
  | append_singleton hs x ih =>
    intro i h hi hk hp
    rw [buildRow_concat]
    by_cases hn : String.mk (trim x) = String.mk (trim h)
    · rw [← hn, getField_assignField_same _ _ _ (by rw [hn]; exact hp)]
      have hlt : i < (hs ++ [x]).length := by
        by_contra hge
        rw [List.getElem?_eq_none (not_lt.mp hge)] at hi
        simp at hi
      have hle : values.length ≤ hs.length := by
        simp at hlt; omega
      simp [trimmedValueAt, List.getElem?_eq_none hle]
    · rw [getField_assignField_other _ _ _ _ (fun e => hn e.symm)]
      by_cases hlt : i < hs.length
      · rw [List.getElem?_append_left hlt] at hi
        exact ih i h hi hk hp
      · rw [List.getElem?_append_right (not_lt.mp hlt)] at hi
        exfalso
        cases hd : i - hs.length with
        | zero => rw [hd] at hi; simp at hi; exact hn (by rw [hi])
        | succ n => rw [hd] at hi; simp at hi

theorem buildRow_value_at (values : List (List Char)) :
    ∀ (hs : List (List Char)) (i : Nat) (h : List Char), hs[i]? = some h →
      String.mk (trim h) ≠ "__proto__" →
      (∀ (j : Nat) (h1 : List Char), i < j → hs[j]? = some h1 →
        String.mk (trim h1) ≠ String.mk (trim h)) →
      getField (buildRow hs values) (String.mk (trim h)) = trimmedValueAt values i := by
  intro hs
  induction hs using List.reverseRecOn with
  | nil => intro i h hi; simp at hi
  | append_singleton hs x ih =>
    intro i h hi hp hlater
    rw [buildRow_concat]
    by_cases hlt : i < hs.length
    · have hx : String.mk (trim x) ≠ String.mk (trim h) :=
        hlater hs.length x hlt (by simp)
      rw [getField_assignField_other _ _ _ _ (fun e => hx e.symm)]
      rw [List.getElem?_append_left hlt] at hi
      apply ih i h hi hp
      intro j h1 hij hj
      apply hlater j h1 hij
      have hjl : j < hs.length := by
        by_contra hge
        rw [List.getElem?_eq_none (not_lt.mp hge)] at hj
        simp at hj
      rw [List.getElem?_append_left hjl]
      exact hj
    · rw [List.getElem?_append_right (not_lt.mp hlt)] at hi
      cases hd : i - hs.length with
      | zero =>
        rw [hd] at hi
        simp at hi
        have hi2 : i = hs.length := by omega
        rw [← hi, hi2, getField_assignField_same _ _ _ (by rw [hi]; exact hp)]
      | succ n => rw [hd] at hi; simp at hi

theorem mem_setField (r : Record) (k k1 : String) (v v1 : JSVal)
    (h : (k1, v1) ∈ setField r k v) : k1 = k ∨ (k1, v1) ∈ r := by
  induction r with
  | nil =>
    simp [setField] at h
    exact Or.inl h.1
  | cons p rest ih =>
    obtain ⟨k0, v0⟩ := p
    unfold setField at h
    split at h
    · rename_i hk
      rcases List.mem_cons.mp h with e | hm
      · left
        rw [← hk]
        exact (Prod.mk.inj e).1
      · exact Or.inr (List.mem_cons_of_mem _ hm)
    · rcases List.mem_cons.mp h with e | hm
      · right
        rw [e]
        exact List.mem_cons_self _ _
      · rcases ih hm with e | hm1
        · exact Or.inl e
        · exact Or.inr (List.mem_cons_of_mem _ hm1)

theorem buildRow_no_own_proto (values : List (List Char)) (v : JSVal) :
    ∀ hs : List (List Char), ("__proto__", v) ∉ buildRow hs values := by
  intro hs
  induction hs using List.reverseRecOn with
  | nil => simp [buildRow]
  | append_singleton hs x ih =>
    rw [buildRow_concat]
    unfold assignField
    split
    · exact ih
    · rename_i hk
      intro hm
      rcases mem_setField _ _ _ _ _ hm with e | hm1
      · exact hk e.symm
      · exact ih hm1

theorem processCSVData_eq (csvData : String) (headerLine : List Char) (rest : List (List Char))
    (h : splitOnChar (Char.ofNat 10) csvData.toList = headerLine :: rest) :
    processCSVData csvData
      = some (rest.map (fun line => buildRow (splitOnChar ',' headerLine) (splitOnChar ',' line))) := by
  unfold processCSVData
  simp only [h]

theorem string_mk_trim_toList (s : String) (h : trim s.toList = s.toList) :
    String.mk (trim s.toList) = s := by
  rw [h]
  rfl

theorem joinWith_cells_no_newline (cells : List String)
    (h : ∀ c ∈ cells, plainCell c) :
    Char.ofNat 10 ∉ joinWith ',' (cells.map String.toList) := by
  intro hmem
  rcases mem_joinWith ',' (Char.ofNat 10) _ hmem with h1 | ⟨l, hl, hc⟩
  · exact absurd h1 (by decide)
  · obtain ⟨c, hc1, rfl⟩ := List.mem_map.mp hl
    exact (h c hc1).2.1 hc

theorem splitOnChar_joinWith_cells (cells : List String) (hne : cells ≠ [])
    (h : ∀ c ∈ cells, plainCell c) :
    splitOnChar ',' (joinWith ',' (cells.map String.toList)) = cells.map String.toList := by
  apply splitOnChar_joinWith
  · simpa using hne
  · intro l hl
    obtain ⟨c, hc1, rfl⟩ := List.mem_map.mp hl
    exact (h c hc1).1

/-! ## Facts about `AnalysisHub.fetchData` -/

theorem foldlM_option_append {σ α β : Type} (f : σ → α → Option σ) (proj : σ → List β)
    (out : α → List β) (bad : α → Prop)
    (hnone : ∀ s a, bad a → f s a = none)
    (hsome : ∀ s a, ¬ bad a → ∃ s1, f s a = some s1 ∧ proj s1 = proj s ++ out a) :
    ∀ (l : List α) (s : σ),
      ((∀ a ∈ l, ¬ bad a) → ∃ s1, l.foldlM f s = some s1 ∧ proj s1 = proj s ++ l.flatMap out)
      ∧ ((∃ a ∈ l, bad a) → l.foldlM f s = none) := by
  intro l
  induction l with
  | nil =>
    intro s
    exact ⟨fun _ => ⟨s, rfl, by simp⟩, fun h => by simp at h⟩
  | cons a l ih =>
    intro s
    by_cases ha : bad a
    · constructor
      · intro h
        exact absurd ha (h a (List.mem_cons_self _ _))
      · intro _
        rw [List.foldlM_cons, hnone s a ha]
        rfl
    · obtain ⟨s1, hs1, hp1⟩ := hsome s a ha
      constructor
      · intro h
        obtain ⟨s2, hs2, hp2⟩ := (ih s1).1 (fun b hb => h b (List.mem_cons_of_mem _ hb))
        refine ⟨s2, ?_, ?_⟩
        · rw [List.foldlM_cons, hs1]
          exact hs2
        · rw [hp2, hp1, List.flatMap_cons, List.append_assoc]
      · rintro ⟨b, hb, hbad⟩
        rw [List.foldlM_cons, hs1]
        rcases List.mem_cons.mp hb with rfl | hb1
        · exact absurd hbad ha
        · exact (ih s1).2 ⟨b, hb1, hbad⟩

theorem AnalysisHub.step_eq_none (fileName : String) (st : HubData) (row : CsvRow)
    (h : ∃ o, AnalysisHub.observationOf fileName row = some o ∧ o.state ∈ inheritedPropertyNames) :
    AnalysisHub.step fileName st row = none := by
  obtain ⟨o, ho, hin⟩ := h
  unfold AnalysisHub.step
  rw [ho]
  simp only
  rw [if_pos hin]

theorem AnalysisHub.step_eq_some (fileName : String) (st : HubData) (row : CsvRow)
    (h : ¬ ∃ o, AnalysisHub.observationOf fileName row = some o
        ∧ o.state ∈ inheritedPropertyNames) :
    ∃ st1, AnalysisHub.step fileName st row = some st1
      ∧ st1.institutions = st.institutions ++ (AnalysisHub.observationOf fileName row).toList := by
  unfold AnalysisHub.step
  cases ho : AnalysisHub.observationOf fileName row with
  | none => exact ⟨st, rfl, by simp⟩
  | some inst =>
    have hin : inst.state ∉ inheritedPropertyNames := fun hin => h ⟨inst, ho, hin⟩
    simp only
    rw [if_neg hin]
    by_cases hk : AnalysisHub.institutionKey inst.name inst.state fileName ∈ st.tracker
    · rw [if_pos hk]
      exact ⟨_, rfl, by simp [Option.toList]⟩
    · rw [if_neg hk]
      exact ⟨_, rfl, by simp [Option.toList]⟩

theorem flatMap_toList_eq_filterMap {α β : Type} (f : α → Option β) (l : List α) :
    l.flatMap (fun a => (f a).toList) = l.filterMap f := by
  induction l with
  | nil => rfl
  | cons a l ih =>
    rw [List.flatMap_cons, List.filterMap_cons, ih]
    cases f a <;> simp [Option.toList]

theorem AnalysisHub.foldlM_step (fileName : String) (rows : List CsvRow) (st : HubData) :
    ((∀ o ∈ rows.filterMap (AnalysisHub.observationOf fileName),
        o.state ∉ inheritedPropertyNames) →
      ∃ st1, rows.foldlM (AnalysisHub.step fileName) st = some st1
        ∧ st1.institutions
          = st.institutions ++ rows.filterMap (AnalysisHub.observationOf fileName))
    ∧ ((∃ o ∈ rows.filterMap (AnalysisHub.observationOf fileName),
        o.state ∈ inheritedPropertyNames) →
      rows.foldlM (AnalysisHub.step fileName) st = none) := by
  have key := foldlM_option_append (AnalysisHub.step fileName) HubData.institutions
    (fun row => (AnalysisHub.observationOf fileName row).toList)
    (fun row => ∃ o, AnalysisHub.observationOf fileName row = some o
      ∧ o.state ∈ inheritedPropertyNames)
    (fun s a => AnalysisHub.step_eq_none fileName s a)
    (fun s a => AnalysisHub.step_eq_some fileName s a) rows st
  rw [flatMap_toList_eq_filterMap] at key
  constructor
  · intro h
    apply key.1
    rintro row hrow ⟨o, ho, hin⟩
    exact h o (List.mem_filterMap.mpr ⟨row, hrow, ho⟩) hin
  · rintro ⟨o, ho, hin⟩
    obtain ⟨row, hrow, hro⟩ := List.mem_filterMap.mp ho
    exact key.2 ⟨row, hrow, o, hro, hin⟩

theorem AnalysisHub.loadData_cases (files : List (String × List CsvRow)) :
    ((∀ o ∈ files.flatMap (fun file => file.2.filterMap (AnalysisHub.observationOf file.1)),
        o.state ∉ inheritedPropertyNames) →
      ∃ st, AnalysisHub.loadData files = some st
        ∧ st.institutions
          = files.flatMap (fun file => file.2.filterMap (AnalysisHub.observationOf file.1)))
    ∧ ((∃ o ∈ files.flatMap (fun file => file.2.filterMap (AnalysisHub.observationOf file.1)),
        o.state ∈ inheritedPropertyNames) →
      AnalysisHub.loadData files = none) := by
  have key := foldlM_option_append
    (fun (st : HubData) (file : String × List CsvRow) =>
      file.2.foldlM (AnalysisHub.step file.1) st)
    HubData.institutions
    (fun file => file.2.filterMap (AnalysisHub.observationOf file.1))
    (fun file => ∃ o ∈ file.2.filterMap (AnalysisHub.observationOf file.1),
      o.state ∈ inheritedPropertyNames)
    (fun s file h => (AnalysisHub.foldlM_step file.1 file.2 s).2 h)
    (fun s file h => (AnalysisHub.foldlM_step file.1 file.2 s).1
      (fun o ho hin => h ⟨o, ho, hin⟩))
    files AnalysisHub.initialData
  constructor
  · intro h
    obtain ⟨st, hst, hp⟩ := key.1 (by
      rintro file hfile ⟨o, ho, hin⟩
      exact h o (List.mem_flatMap.mpr ⟨file, hfile, ho⟩) hin)
    have hl : ∃ st1, AnalysisHub.loadData files = some st1
        ∧ st1.institutions = st.institutions := by
      unfold AnalysisHub.loadData
      rw [hst]
      exact ⟨_, rfl, rfl⟩
    obtain ⟨st1, h1, h2⟩ := hl
    refine ⟨st1, h1, ?_⟩
    rw [h2, hp]
    simp [AnalysisHub.initialData]
  · rintro ⟨o, ho, hin⟩
    obtain ⟨file, hfile, hfo⟩ := List.mem_flatMap.mp ho
    unfold AnalysisHub.loadData
    rw [key.2 ⟨file, hfile, o, hfo, hin⟩]

theorem AnalysisHub.fetchData_institutions_sublist (files : List (String × List CsvRow)) :
    ∀ o ∈ (AnalysisHub.fetchData files).institutions,
      ∃ file ∈ files, ∃ row ∈ file.2, AnalysisHub.observationOf file.1 row = some o := by
  intro o ho
  by_cases hbad : ∃ o ∈ files.flatMap
      (fun file => file.2.filterMap (AnalysisHub.observationOf file.1)),
      o.state ∈ inheritedPropertyNames
  · have hnone := (AnalysisHub.loadData_cases files).2 hbad
    rw [AnalysisHub.fetchData, hnone] at ho
    simp [AnalysisHub.initialData] at ho
  · obtain ⟨st, hst, hinst⟩ := (AnalysisHub.loadData_cases files).1
      (fun o ho hin => hbad ⟨o, ho, hin⟩)
    rw [AnalysisHub.fetchData, hst] at ho
    simp only [Option.getD_some] at ho
    rw [hinst] at ho
    obtain ⟨file, hfile, hfo⟩ := List.mem_flatMap.mp ho
    obtain ⟨row, hrow, hro⟩ := List.mem_filterMap.mp hfo
    exact ⟨file, hfile, row, hrow, hro⟩

/-! ## Facts about `InstitutionProfile.fetchInstitutions` -/

theorem append_cons_inj_of_not_mem (sep : Char) :
    ∀ (a c b d : List Char), sep ∉ a → sep ∉ c → a ++ sep :: b = c ++ sep :: d → a = c ∧ b = d
  | [], [], b, d, _, _, h => by simpa using h
  | [], y :: c, b, d, _, hc, h => by
    simp at h
    exact absurd (by simp [h.1]) hc
  | x :: a, [], b, d, ha, _, h => by
    simp at h
    exact absurd (by simp [h.1]) ha
  | x :: a, y :: c, b, d, ha, hc, h => by
    simp at h
    have := append_cons_inj_of_not_mem sep a c b d
      (fun e => ha (List.mem_cons_of_mem _ e)) (fun e => hc (List.mem_cons_of_mem _ e)) h.2
    exact ⟨by rw [h.1, this.1], this.2⟩

theorem cons_append_inj_of_not_mem (sep : Char) (a c b d : List Char) (hb : sep ∉ b)
    (hd : sep ∉ d) (h : a ++ sep :: b = c ++ sep :: d) : a = c ∧ b = d := by
  have hr := congrArg List.reverse h
  simp only [List.reverse_append, List.reverse_cons, List.append_assoc, List.singleton_append]
    at hr
  have := append_cons_inj_of_not_mem sep b.reverse d.reverse a.reverse c.reverse
    (by simpa using hb) (by simpa using hd) hr
  exact ⟨List.reverse_injective this.2, List.reverse_injective this.1⟩

theorem InstitutionProfile.institutionKey_toList (name category : String) :
    (InstitutionProfile.institutionKey name category).toList
      = name.toList ++ '-' :: category.toList := by
  show (name ++ "-" ++ category).data = name.data ++ '-' :: category.data
  simp [String.data_append]

theorem InstitutionProfile.institutionKey_inj (n1 n2 c1 c2 : String)
    (h1 : '-' ∉ c1.toList) (h2 : '-' ∉ c2.toList)
    (h : InstitutionProfile.institutionKey n1 c1 = InstitutionProfile.institutionKey n2 c2) :
    n1 = n2 ∧ c1 = c2 := by
  have hl := congrArg String.toList h
  rw [InstitutionProfile.institutionKey_toList, InstitutionProfile.institutionKey_toList] at hl
  have := cons_append_inj_of_not_mem '-' _ _ _ _ h1 h2 hl
  exact ⟨String.ext this.1, String.ext this.2⟩

/-- The rows of all files in file order then row order, each with the category of its file. -/
theorem InstitutionProfile.foldl_files_eq (files : List (String × List CsvRow)) :
    ∀ m : List (String × ProfileEntry),
      files.foldl (fun m file => file.2.foldl (InstitutionProfile.step file.1) m) m
        = (files.flatMap (fun file => file.2.map (fun row => (file.1, row)))).foldl
            (fun m p => InstitutionProfile.step p.1 m p.2) m := by
  induction files with
  | nil => intro m; rfl
  | cons file files ih =>
    intro m
    rw [List.foldl_cons, ih, List.flatMap_cons, List.foldl_append, List.foldl_map]

theorem lookup_singleton_entry (k key : String) (e : ProfileEntry) :
    List.lookup key [(k, e)] = if k = key then some e else none := by
  by_cases h : k = key
  · subst h
    simp [List.lookup]
  · have hb : (key == k) = false := by
      simp
      exact fun e => h e.symm
    simp [List.lookup, hb, h]

theorem InstitutionProfile.step_of_present (m : List (String × ProfileEntry))
    (category : String) (row : CsvRow) (e : ProfileEntry)
    (hl : m.lookup (InstitutionProfile.institutionKey (InstitutionProfile.nameOf row) category)
      = some e) :
    InstitutionProfile.step category m row = m := by
  unfold InstitutionProfile.step
  by_cases hn : InstitutionProfile.nameOf row ≠ ""
  · rw [if_pos hn]
    simp [hl]
  · rw [if_neg hn]

theorem InstitutionProfile.step_of_absent (m : List (String × ProfileEntry))
    (category : String) (row : CsvRow) (hn : InstitutionProfile.nameOf row ≠ "")
    (hl : m.lookup (InstitutionProfile.institutionKey (InstitutionProfile.nameOf row) category)
      = none) :
    InstitutionProfile.step category m row
      = m ++ [(InstitutionProfile.institutionKey (InstitutionProfile.nameOf row) category,
          InstitutionProfile.entryOf category row)] := by
  unfold InstitutionProfile.step
  rw [if_pos hn]
  simp [hl]

theorem InstitutionProfile.lookup_step (m : List (String × ProfileEntry)) (category : String)
    (row : CsvRow) (key : String) :
    (InstitutionProfile.step category m row).lookup key
      = (m.lookup key).or
          (if InstitutionProfile.nameOf row ≠ ""
              ∧ InstitutionProfile.institutionKey (InstitutionProfile.nameOf row) category = key
           then some (InstitutionProfile.entryOf category row) else none) := by
  by_cases hn : InstitutionProfile.nameOf row ≠ ""
  · by_cases hk : InstitutionProfile.institutionKey (InstitutionProfile.nameOf row) category = key
    · have hR : (if InstitutionProfile.nameOf row ≠ ""
              ∧ InstitutionProfile.institutionKey (InstitutionProfile.nameOf row) category = key
           then some (InstitutionProfile.entryOf category row) else none)
          = some (InstitutionProfile.entryOf category row) := if_pos ⟨hn, hk⟩
      rw [hR]
      cases hl : List.lookup
          (InstitutionProfile.institutionKey (InstitutionProfile.nameOf row) category) m with
      | some e =>
        rw [InstitutionProfile.step_of_present m category row e hl, ← hk, hl]
        rfl
      | none =>
        rw [InstitutionProfile.step_of_absent m category row hn hl, List.lookup_append,
          lookup_singleton_entry, if_pos hk]
    · have hR : (if InstitutionProfile.nameOf row ≠ ""
              ∧ InstitutionProfile.institutionKey (InstitutionProfile.nameOf row) category = key
           then some (InstitutionProfile.entryOf category row) else none)
          = none := if_neg (fun h => hk h.2)
      rw [hR]
      cases hl : List.lookup
          (InstitutionProfile.institutionKey (InstitutionProfile.nameOf row) category) m with
      | some e =>
        rw [InstitutionProfile.step_of_present m category row e hl]
        simp
      | none =>
        rw [InstitutionProfile.step_of_absent m category row hn hl, List.lookup_append,
          lookup_singleton_entry, if_neg hk]
  · have hstep : InstitutionProfile.step category m row = m := by
      unfold InstitutionProfile.step
      rw [if_neg hn]
    have hR : (if InstitutionProfile.nameOf row ≠ ""
              ∧ InstitutionProfile.institutionKey (InstitutionProfile.nameOf row) category = key
           then some (InstitutionProfile.entryOf category row) else none)
          = none := if_neg (fun h => hn h.1)
    rw [hstep, hR]
    simp

theorem InstitutionProfile.lookup_foldl (rows : List (String × CsvRow)) (key : String) :
    ∀ m : List (String × ProfileEntry),
      (rows.foldl (fun m p => InstitutionProfile.step p.1 m p.2) m).lookup key
        = (m.lookup key).or
            ((rows.find? (fun p => decide (InstitutionProfile.nameOf p.2 ≠ ""
                ∧ InstitutionProfile.institutionKey (InstitutionProfile.nameOf p.2) p.1 = key))).map
              (fun p => InstitutionProfile.entryOf p.1 p.2)) := by
  induction rows with
  | nil => intro m; simp
  | cons p rows ih =>
    intro m
    rw [List.foldl_cons, ih, InstitutionProfile.lookup_step, List.find?_cons]
    by_cases hp : InstitutionProfile.nameOf p.2 ≠ ""
        ∧ InstitutionProfile.institutionKey (InstitutionProfile.nameOf p.2) p.1 = key
    · rw [if_pos hp, decide_eq_true hp]
      cases m.lookup key <;> rfl
    · rw [if_neg hp, decide_eq_false hp]
      cases m.lookup key <;> simp

theorem InstitutionProfile.lookup_fetchInstitutions (files : List (String × List CsvRow))
    (key : String) :
    (InstitutionProfile.fetchInstitutions files).lookup key
      = ((files.flatMap (fun file => file.2.map (fun row => (file.1, row)))).find?
          (fun p => decide (InstitutionProfile.nameOf p.2 ≠ ""
            ∧ InstitutionProfile.institutionKey (InstitutionProfile.nameOf p.2) p.1 = key))).map
          (fun p => InstitutionProfile.entryOf p.1 p.2) := by
  unfold InstitutionProfile.fetchInstitutions
  rw [InstitutionProfile.foldl_files_eq, InstitutionProfile.lookup_foldl]
  simp [List.lookup]

theorem no_hyphen_of_source_category (c : String)
    (h : c ∈ ["University", "Engineering", "Pharmacy", "Management"]) : '-' ∉ c.toList := by
  simp only [List.mem_cons, List.mem_singleton, List.not_mem_nil, or_false] at h
  rcases h with rfl | rfl | rfl | rfl <;> decide

/-! ## Facts about `parseInt` -/

theorem roundToDouble_natCast (n : Nat) :
    roundToDouble (n : ℚ) = JSNum.posInf ∨ roundToDouble (n : ℚ) = JSNum.negInf
      ∨ ∃ z : ℤ, roundToDouble (n : ℚ) = JSNum.fin (z : ℚ) := by
  have h := roundToDouble_int_or_inf (n : ℤ)
  rw [Int.cast_natCast] at h
  exact h

theorem roundToDouble_neg_natCast (n : Nat) :
    roundToDouble (-(n : ℚ)) = JSNum.posInf ∨ roundToDouble (-(n : ℚ)) = JSNum.negInf
      ∨ ∃ z : ℤ, roundToDouble (-(n : ℚ)) = JSNum.fin (z : ℚ) := by
  have h := roundToDouble_int_or_inf (-(n : ℤ))
  rw [Int.cast_neg, Int.cast_natCast] at h
  exact h

theorem parseIntStr_integer (s : String) :
    parseIntStr s = JSNum.nan ∨ parseIntStr s = JSNum.posInf ∨ parseIntStr s = JSNum.negInf
      ∨ ∃ z : ℤ, parseIntStr s = JSNum.fin (z : ℚ) := by
  unfold parseIntStr
  simp only
  split
  · left; rfl
  · right
    split
    · exact roundToDouble_neg_natCast _
    · exact roundToDouble_natCast _

theorem parseInt_integer (v : JSVal) :
    parseInt v = JSNum.nan ∨ parseInt v = JSNum.posInf ∨ parseInt v = JSNum.negInf
      ∨ ∃ z : ℤ, parseInt v = JSNum.fin (z : ℚ) := by
  cases v with
  | undefined => exact Or.inl rfl
  | str s => exact parseIntStr_integer s
  | num x => exact parseIntStr_integer (numberToString x)

theorem parseInt_number_zero : parseInt (JSVal.num (JSNum.fin 0)) = JSNum.fin 0 := by
  decide!

theorem AnalysisHub.observationOf_valid (fileName : String) (row : CsvRow) (o : Observation)
    (h : AnalysisHub.observationOf fileName row = some o) :
    o.name ≠ "" ∧ o.score.isNaN = false ∧ o.score.isPos = true ∧ o.rank.isNaN = false
      ∧ o.rank = parseInt (firstPresentOrNumber row ["Rank", "rank"] 0)
      ∧ (o.rank = JSNum.posInf ∨ o.rank = JSNum.negInf
          ∨ ∃ z : ℤ, o.rank = JSNum.fin (z : ℚ)) := by
  unfold AnalysisHub.observationOf at h
  simp only at h
  split at h
  · rename_i hc
    have ho := Option.some.inj h
    subst ho
    refine ⟨hc.1, hc.2.1, hc.2.2.2, hc.2.2.1, rfl, ?_⟩
    rcases parseInt_integer (firstPresentOrNumber row ["Rank", "rank"] 0) with hn | hz
    · have := hc.2.2.1
      rw [hn] at this
      simp [JSNum.isNaN] at this
    · exact hz
  · simp at h

/-! ## Facts about `getInstitutionsByState` -/

theorem lookup_pushToGroup (m : List (String × List Record)) (s key : String) (item : Record) :
    (pushToGroup m s item).lookup key
      = if s = key then some ((m.lookup key).getD [] ++ [item]) else m.lookup key := by
  induction m with
  | nil =>
    by_cases h : s = key
    · subst h
      simp [pushToGroup, List.lookup]
    · have hb : (key == s) = false := by
        simp
        exact fun e => h e.symm
      simp [pushToGroup, List.lookup, hb, h]
  | cons p rest ih =>
    obtain ⟨s0, items⟩ := p
    by_cases h0 : s0 = s
    · subst h0
      by_cases h : s0 = key
      · subst h
        simp [pushToGroup, List.lookup]
      · have hb : (key == s0) = false := by
          simp
          exact fun e => h e.symm
        simp [pushToGroup, List.lookup, hb, h]
    · by_cases hk : key = s0
      · subst hk
        have hne : ¬ s = key := fun e => h0 e.symm
        simp [pushToGroup, List.lookup, h0, hne]
      · have hb : (key == s0) = false := by
          simp
          exact hk
        simp only [pushToGroup, h0, if_false, List.lookup, hb]
        exact ih

theorem lookup_foldl_pushToGroup (keyOf : Record → String) (key : String) :
    ∀ (data : List Record) (m : List (String × List Record)),
      (data.foldl (fun stateMap item => pushToGroup stateMap (keyOf item) item) m).lookup key
        = if data.filter (fun r => decide (keyOf r = key)) = [] then m.lookup key
          else some ((m.lookup key).getD [] ++ data.filter (fun r => decide (keyOf r = key))) := by
  intro data
  induction data with
  | nil => intro m; simp
  | cons item rest ih =>
    intro m
    rw [List.foldl_cons, ih, lookup_pushToGroup]
    by_cases hk : keyOf item = key
    · have hf : (item :: rest).filter (fun r => decide (keyOf r = key))
          = item :: rest.filter (fun r => decide (keyOf r = key)) := by
        simp [List.filter_cons, hk]
      rw [hf, if_pos hk]
      by_cases hr : rest.filter (fun r => decide (keyOf r = key)) = []
      · simp [hr]
      · simp [hr]
    · have hf : (item :: rest).filter (fun r => decide (keyOf r = key))
          = rest.filter (fun r => decide (keyOf r = key)) := by
        simp [List.filter_cons, hk]
      rw [hf, if_neg hk]

theorem keys_pushToGroup (m : List (String × List Record)) (s : String) (item : Record) :
    (pushToGroup m s item).map Prod.fst
      = if s ∈ m.map Prod.fst then m.map Prod.fst else m.map Prod.fst ++ [s] := by
  induction m with
  | nil => simp [pushToGroup]
  | cons p rest ih =>
    obtain ⟨s0, items⟩ := p
    by_cases h0 : s0 = s
    · subst h0
      simp [pushToGroup]
    · have hne : ¬ s = s0 := fun e => h0 e.symm
      simp only [pushToGroup, h0, if_false, List.map_cons, ih, List.mem_cons, hne, false_or]
      by_cases hm : s ∈ rest.map Prod.fst
      · simp [hm]
      · simp [hm]

theorem keys_nodup_foldl_pushToGroup (keyOf : Record → String) :
    ∀ (data : List Record) (m : List (String × List Record)), (m.map Prod.fst).Nodup →
      ((data.foldl (fun stateMap item => pushToGroup stateMap (keyOf item) item) m).map
        Prod.fst).Nodup := by
  intro data
  induction data with
  | nil => intro m h; exact h
  | cons item rest ih =>
    intro m h
    rw [List.foldl_cons]
    apply ih
    rw [keys_pushToGroup]
    by_cases hm : keyOf item ∈ m.map Prod.fst
    · rw [if_pos hm]; exact h
    · rw [if_neg hm]
      rw [List.nodup_append]
      refine ⟨h, by simp, ?_⟩
      intro a ha hb
      simp at hb
      subst hb
      exact hm ha

theorem lengths_pushToGroup (m : List (String × List Record)) (s : String) (item : Record) :
    ((pushToGroup m s item).map (fun e => e.2.length)).sum
      = (m.map (fun e => e.2.length)).sum + 1 := by
  induction m with
  | nil => simp [pushToGroup]
  | cons p rest ih =>
    obtain ⟨s0, items⟩ := p
    by_cases h0 : s0 = s
    · simp [pushToGroup, h0]
      omega
    · simp only [pushToGroup, h0, if_false, List.map_cons, List.sum_cons, ih]
      omega

theorem lengths_foldl_pushToGroup (keyOf : Record → String) :
    ∀ (data : List Record) (m : List (String × List Record)),
      ((data.foldl (fun stateMap item => pushToGroup stateMap (keyOf item) item) m).map
        (fun e => e.2.length)).sum
        = (m.map (fun e => e.2.length)).sum + data.length := by
  intro data
  induction data with
  | nil => intro m; simp
  | cons item rest ih =>
    intro m
    rw [List.foldl_cons, ih, lengths_pushToGroup, List.length_cons]
    omega

theorem lookup_of_mem_of_nodup_keys {β : Type} :
    ∀ (m : List (String × β)) (k : String) (v : β), (m.map Prod.fst).Nodup → (k, v) ∈ m →
      m.lookup k = some v := by
  intro m
  induction m with
  | nil => intro k v _ h; simp at h
  | cons p rest ih =>
    intro k v hn hmem
    obtain ⟨k0, v0⟩ := p
    simp only [List.map_cons, List.nodup_cons] at hn
    rcases List.mem_cons.mp hmem with h | h
    · have h1 : k = k0 := (Prod.mk.inj h).1
      have h2 : v = v0 := (Prod.mk.inj h).2
      subst h1; subst h2
      simp [List.lookup]
    · have hne : ¬ k = k0 := by
        intro e
        subst e
        exact hn.1 (List.mem_map.mpr ⟨(k, v), h, rfl⟩)
      have hb : (k == k0) = false := by
        simp
        exact hne
      simp only [List.lookup, hb]
      exact ih k v hn.2 h

theorem mem_of_lookup_eq_some {β : Type} :
    ∀ (m : List (String × β)) (k : String) (v : β), m.lookup k = some v → (k, v) ∈ m := by
  intro m
  induction m with
  | nil => intro k v h; simp [List.lookup] at h
  | cons p rest ih =>
    intro k v h
    obtain ⟨k0, v0⟩ := p
    by_cases hk : k = k0
    · subst hk
      simp [List.lookup] at h
      subst h
      exact List.mem_cons_self _ _
    · have hb : (k == k0) = false := by
        simp
        exact hk
      simp only [List.lookup, hb] at h
      exact List.mem_cons_of_mem _ (ih k v h)

theorem getInstitutionsByState.foldlM_cases (data : List Record) :
    ∀ m : List (String × List Record),
      ((∀ r ∈ data, propertyKey (getField r "State") ∉ inheritedPropertyNames) →
        data.foldlM getInstitutionsByState.step m = some (data.foldl
          (fun stateMap item => pushToGroup stateMap (propertyKey (getField item "State")) item)
          m))
      ∧ ((∃ r ∈ data, propertyKey (getField r "State") ∈ inheritedPropertyNames) →
        data.foldlM getInstitutionsByState.step m = none) := by
  induction data with
  | nil =>
    intro m
    exact ⟨fun _ => rfl, fun h => by simp at h⟩
  | cons a l ih =>
    intro m
    by_cases ha : propertyKey (getField a "State") ∈ inheritedPropertyNames
    · constructor
      · intro h
        exact absurd ha (h a (List.mem_cons_self _ _))
      · intro _
        rw [List.foldlM_cons]
        simp only [getInstitutionsByState.step, if_pos ha]
        rfl
    · have hstep : getInstitutionsByState.step m a
          = some (pushToGroup m (propertyKey (getField a "State")) a) := by
        simp only [getInstitutionsByState.step, if_neg ha]
      constructor
      · intro h
        rw [List.foldlM_cons, hstep, List.foldl_cons]
        exact (ih _).1 (fun b hb => h b (List.mem_cons_of_mem _ hb))
      · rintro ⟨b, hb, hbad⟩
        rw [List.foldlM_cons, hstep]
        rcases List.mem_cons.mp hb with rfl | hb1
        · exact absurd hbad ha
        · exact (ih _).2 ⟨b, hb1, hbad⟩

theorem getInstitutionsByState_eq_none (data : List Record)
    (h : ∃ r ∈ data, propertyKey (getField r "State") ∈ inheritedPropertyNames) :
    getInstitutionsByState data = none :=
  (getInstitutionsByState.foldlM_cases data []).2 h

theorem getInstitutionsByState_eq_some (data : List Record)
    (h : ∀ r ∈ data, propertyKey (getField r "State") ∉ inheritedPropertyNames) :
    getInstitutionsByState data = some (data.foldl
      (fun stateMap item => pushToGroup stateMap (propertyKey (getField item "State")) item) []) :=
  (getInstitutionsByState.foldlM_cases data []).1 h

theorem getInstitutionsByState_some (data : List Record)
    (stateMap : List (String × List Record)) (hm : getInstitutionsByState data = some stateMap) :
    (∀ r ∈ data, propertyKey (getField r "State") ∉ inheritedPropertyNames)
    ∧ stateMap = data.foldl
      (fun stateMap item => pushToGroup stateMap (propertyKey (getField item "State")) item) [] := by
  by_cases h : ∃ r ∈ data, propertyKey (getField r "State") ∈ inheritedPropertyNames
  · rw [getInstitutionsByState_eq_none data h] at hm
    simp at hm
  · have h1 : ∀ r ∈ data, propertyKey (getField r "State") ∉ inheritedPropertyNames :=
      fun r hr hin => h ⟨r, hr, hin⟩
    rw [getInstitutionsByState_eq_some data h1] at hm
    exact ⟨h1, (Option.some.inj hm).symm⟩

theorem getInstitutionsByState_lookup (data : List Record)
    (stateMap : List (String × List Record)) (hm : getInstitutionsByState data = some stateMap)
    (key : String) :
    stateMap.lookup key
      = if data.filter (fun r => decide (propertyKey (getField r "State") = key)) = [] then none
        else some (data.filter (fun r => decide (propertyKey (getField r "State") = key))) := by
  rw [(getInstitutionsByState_some data stateMap hm).2]
  rw [lookup_foldl_pushToGroup (fun r => propertyKey (getField r "State")) key data []]
  simp [List.lookup]

theorem getInstitutionsByState_keys_nodup (data : List Record)
    (stateMap : List (String × List Record)) (hm : getInstitutionsByState data = some stateMap) :
    (stateMap.map Prod.fst).Nodup := by
  rw [(getInstitutionsByState_some data stateMap hm).2]
  exact keys_nodup_foldl_pushToGroup (fun r => propertyKey (getField r "State")) data []
    (by simp)

theorem getInstitutionsByState_mem (data : List Record)
    (stateMap : List (String × List Record)) (hm : getInstitutionsByState data = some stateMap)
    (key : String) (items : List Record) (h : (key, items) ∈ stateMap) :
    items ≠ [] ∧ items = data.filter (fun r => decide (propertyKey (getField r "State") = key)) := by
  have hl := lookup_of_mem_of_nodup_keys _ key items
    (getInstitutionsByState_keys_nodup data stateMap hm) h
  rw [getInstitutionsByState_lookup data stateMap hm] at hl
  by_cases he : data.filter (fun r => decide (propertyKey (getField r "State") = key)) = []
  · rw [if_pos he] at hl
    simp at hl
  · rw [if_neg he] at hl
    have := Option.some.inj hl
    rw [← this]
    exact ⟨he, rfl⟩

theorem getInstitutionsByState_lengths (data : List Record)
    (stateMap : List (String × List Record)) (hm : getInstitutionsByState data = some stateMap) :
    (stateMap.map (fun e => e.2.length)).sum = data.length := by
  rw [(getInstitutionsByState_some data stateMap hm).2, lengths_foldl_pushToGroup]
  simp

/-! ## Facts about the name cleaner of Home -/

theorem noParenGroup_nil : noParenGroup [] := by
  intro a b h
  cases a <;> simp at h

theorem noParenGroup_cons (c : Char) (l : List Char) :
    noParenGroup (c :: l) ↔ (c = '(' → ')' ∉ l) ∧ noParenGroup l := by
  constructor
  · intro h
    constructor
    · intro hc
      exact h [] l (by simp [hc])
    · intro a b hab
      exact h (c :: a) b (by simp [hab])
  · intro h a b hab
    cases a with
    | nil =>
      simp at hab
      rw [← hab.2]
      exact h.1 hab.1
    | cons x a =>
      simp at hab
      exact h.2 a b hab.2

theorem noParenGroup_of_append (a l b : List Char) (h : noParenGroup (a ++ l ++ b)) :
    noParenGroup l := by
  intro x y hxy
  have := h (a ++ x) (y ++ b) (by simp [hxy])
  intro hy
  exact this (List.mem_append_left _ hy)

theorem stripParenGroups_sublist (cs : List Char) :
    (stripParenGroups cs).1.Sublist cs ∧ (stripParenGroups cs).2.Sublist cs := by
  induction cs with
  | nil => simp [stripParenGroups]
  | cons c cs ih =>
    constructor
    · simp only [stripParenGroups]
      split
      · exact ih.2.trans (List.sublist_cons_self _ _)
      · exact ih.1.cons₂ c
    · simp only [stripParenGroups]
      split
      · exact ih.1.trans (List.sublist_cons_self _ _)
      · exact ih.2.trans (List.sublist_cons_self _ _)

theorem stripParenGroups_noParenGroup (cs : List Char) :
    noParenGroup (stripParenGroups cs).1 ∧ noParenGroup (stripParenGroups cs).2 := by
  induction cs with
  | nil => exact ⟨noParenGroup_nil, noParenGroup_nil⟩
  | cons c cs ih =>
    constructor
    · simp only [stripParenGroups]
      split
      · exact ih.2
      · rename_i hc
        rw [noParenGroup_cons]
        refine ⟨?_, ih.1⟩
        intro hopen hclose
        exact hc ⟨hopen, (stripParenGroups_sublist cs).1.subset hclose⟩
    · simp only [stripParenGroups]
      split
      · exact ih.1
      · exact ih.2

theorem stripParenGroups_eq_self (l : List Char) (h : noParenGroup l) :
    (stripParenGroups l).1 = l := by
  induction l with
  | nil => rfl
  | cons c cs ih =>
    rw [noParenGroup_cons] at h
    have hc : ¬ (c = '(' ∧ ')' ∈ cs) := fun hh => h.1 hh.1 hh.2
    simp only [stripParenGroups, hc, if_false]
    rw [ih h.2]

theorem trim_append_form (l : List Char) : ∃ a b : List Char, l = a ++ trim l ++ b := by
  obtain ⟨b, hb⟩ : trim l <+: trimStart l := List.rdropWhile_prefix isJSWhiteSpace (trimStart l)
  obtain ⟨a, ha⟩ : trimStart l <:+ l := List.dropWhile_suffix isJSWhiteSpace
  refine ⟨a, b, ?_⟩
  rw [List.append_assoc, hb, ha]

theorem trim_trim (l : List Char) : trim (trim l) = trim l :=
  trim_eq_self (trim l) (fun c hc => trim_head l c hc) (fun c hc => trim_last l c hc)

theorem stripParenGroups_inside (g rest : List Char) (hg : ')' ∉ g) :
    (stripParenGroups (g ++ ')' :: rest)).2 = (stripParenGroups rest).1 := by
  induction g with
  | nil => simp [stripParenGroups]
  | cons c g ih =>
    have hc : ¬ c = ')' := fun e => hg (by simp [e])
    have hg2 : ')' ∉ g := fun e => hg (List.mem_cons_of_mem _ e)
    simp [stripParenGroups, hc, ih hg2]

/-- A match `(g)`, with no `)` in `g`, is deleted and the scan goes on behind it. -/
theorem stripParenGroups_group (g rest : List Char) (hg : ')' ∉ g) :
    (stripParenGroups ('(' :: g ++ ')' :: rest)).1 = (stripParenGroups rest).1 := by
  have h := stripParenGroups_inside g rest hg
  simp only [List.cons_append, stripParenGroups]
  simp only [List.cons_append] at h
  simp [h]

/-- A `(` that no `)` follows starts no match and is kept. -/
theorem stripParenGroups_open_unclosed (cs : List Char) (h : ')' ∉ cs) :
    (stripParenGroups ('(' :: cs)).1 = '(' :: (stripParenGroups cs).1 := by
  simp [stripParenGroups, h]

/-- A character other than `(` is kept. -/
theorem stripParenGroups_other (c : Char) (cs : List Char) (h : c ≠ '(') :
    (stripParenGroups (c :: cs)).1 = c :: (stripParenGroups cs).1 := by
  simp [stripParenGroups, h]

/-! ## Facts about the selection of CompareInstitutions -/

theorem selectionInvariant_add (st : CompareState) (value : Option CompareOption)
    (h : selectionInvariant st.selectedInstitutions) :
    selectionInvariant (handleAddInstitution st value).selectedInstitutions := by
  unfold handleAddInstitution
  cases value with
  | none => exact h
  | some v =>
    simp only
    split
    · exact h
    · rename_i hlen
      split
      · exact h
      · rename_i hany
        show selectionInvariant (st.selectedInstitutions ++ [v])
        constructor
        · simp only [List.length_append, List.length_singleton]
          omega
        · rw [List.pairwise_append]
          refine ⟨h.2, by simp, ?_⟩
          intro a ha b hb
          simp only [List.mem_singleton] at hb
          subst hb
          intro e
          apply hany
          rw [List.any_eq_true]
          exact ⟨a, ha, by simp [e]⟩

theorem selectionInvariant_remove (st : CompareState) (index : Int)
    (h : selectionInvariant st.selectedInstitutions) :
    selectionInvariant (handleRemoveInstitution st index).selectedInstitutions := by
  show selectionInvariant (spliceOne st.selectedInstitutions index)
  unfold spliceOne
  simp only
  constructor
  · exact le_trans (List.eraseIdx_sublist _ _).length_le h.1
  · exact h.2.sublist (List.eraseIdx_sublist _ _)

/-! ## Facts about `calculateYearOverYearChanges` -/

theorem calculateYearOverYearChanges_getElem? (data : List Record) (institutionId : JSVal)
    (i : Nat) :
    (calculateYearOverYearChanges data institutionId)[i]?
      = ((data.filter (fun r => (getField r "Institute_ID").strictEq institutionId))[i]?).map
          (fun item => setField item "rankChange" (JSVal.num
            (if i = 0 then JSNum.fin 0
             else JSNum.sub
               (parseInt (getField ((data.filter
                 (fun r => (getField r "Institute_ID").strictEq institutionId)).getD (i - 1) [])
                 "Rank"))
               (parseInt (getField item "Rank"))))) := by
  unfold calculateYearOverYearChanges
  simp only [List.getElem?_map, List.getElem?_enum]
  cases (data.filter (fun r => (getField r "Institute_ID").strictEq institutionId))[i]? with
  | none => rfl
  | some item =>
    by_cases h0 : i = 0
    · simp [h0]
    · simp [h0]

theorem add_fin_int (a b : ℤ) (h : |a + b| < 2 ^ 53) :
    JSNum.add (JSNum.fin (a : ℚ)) (JSNum.fin (b : ℚ)) = JSNum.fin ((a + b : ℤ) : ℚ) := by
  show roundToDouble ((a : ℚ) + (b : ℚ)) = _
  rw [← Int.cast_add]
  exact roundToDouble_int _ h

theorem sub_fin_int (a b : ℤ) (h : |a - b| < 2 ^ 53) :
    JSNum.sub (JSNum.fin (a : ℚ)) (JSNum.fin (b : ℚ)) = JSNum.fin ((a - b : ℤ) : ℚ) := by
  show roundToDouble ((a : ℚ) + -(b : ℚ)) = _
  rw [← Int.cast_neg, ← Int.cast_add, ← sub_eq_add_neg]
  exact roundToDouble_int _ h

theorem abs_sub_lt_of_abs_lt (a b : ℤ) (ha : |a| < 2 ^ 52) (hb : |b| < 2 ^ 52) :
    |a - b| < 2 ^ 53 := by
  have h1 := abs_lt.mp ha
  have h2 := abs_lt.mp hb
  rw [abs_lt]
  constructor <;> omega

theorem foldl_add_telescope (r : Nat → ℤ) (hb : ∀ i : Nat, |r i| < 2 ^ 52) (m : Nat) :
    ((List.range (m + 1)).map
        (fun i => JSNum.fin (((if i = 0 then 0 else r (i - 1) - r i : ℤ)) : ℚ))).foldl
      JSNum.add (JSNum.fin 0)
      = JSNum.fin ((r 0 - r m : ℤ) : ℚ) := by
  induction m with
  | zero =>
    have h := add_fin_int 0 0 (by norm_num)
    simp only [List.range_succ, List.range_zero, List.nil_append, List.map_cons, List.map_nil,
      List.foldl_cons, List.foldl_nil, if_true, sub_self]
    simp only [Int.cast_zero, add_zero] at h
    exact h
  | succ m ih =>
    rw [List.range_succ, List.map_append, List.foldl_append, ih]
    have h := add_fin_int (r 0 - r m) (r m - r (m + 1)) (by
      have : r 0 - r m + (r m - r (m + 1)) = r 0 - r (m + 1) := by ring
      rw [this]
      exact abs_sub_lt_of_abs_lt _ _ (hb 0) (hb (m + 1)))
    have e : r 0 - r m + (r m - r (m + 1)) = r 0 - r (m + 1) := by ring
    rw [e] at h
    simp only [List.map_cons, List.map_nil, List.foldl_cons, List.foldl_nil,
      if_neg (Nat.succ_ne_zero m), Nat.add_sub_cancel]
    exact h

theorem rankChangeSum_eq (hist out : List Record) (r : Nat → ℤ)
    (hb : ∀ i : Nat, |r i| < 2 ^ 52) (m : Nat) (hm : hist.length = m + 1)
    (hlen : out.length = hist.length)
    (hout : ∀ i : Nat, i < hist.length →
      (out[i]?).map (fun o => toNumber (getField o "rankChange"))
        = some (JSNum.fin (((if i = 0 then 0 else r (i - 1) - r i : ℤ)) : ℚ))) :
    rankChangeSum out = JSNum.fin ((r 0 - r m : ℤ) : ℚ) := by
  have hmap : out.map (fun o => toNumber (getField o "rankChange"))
      = (List.range hist.length).map
          (fun i => JSNum.fin (((if i = 0 then 0 else r (i - 1) - r i : ℤ)) : ℚ)) := by
    apply List.ext_getElem?
    intro i
    rw [List.getElem?_map, List.getElem?_map]
    by_cases hi : i < hist.length
    · rw [hout i hi, List.getElem?_range hi]
      rfl
    · have h1 : out[i]? = none := List.getElem?_eq_none (by omega)
      have h2 : (List.range hist.length)[i]? = none :=
        List.getElem?_eq_none (by simp; omega)
      rw [h1, h2]
      rfl
  unfold rankChangeSum
  have hfold : out.foldl (fun acc o => JSNum.add acc (toNumber (getField o "rankChange")))
      (JSNum.fin 0)
      = (out.map (fun o => toNumber (getField o "rankChange"))).foldl JSNum.add (JSNum.fin 0) := by
    rw [List.foldl_map]
  rw [hfold, hmap, hm, foldl_add_telescope r hb m]

/-! ## Facts about `filterInstitutions` -/

theorem includes_iff (s t : String) : includes s t = true ↔ t.toList <:+: s.toList := by
  unfold includes
  rw [List.any_eq_true, List.infix_iff_prefix_suffix]
  constructor
  · rintro ⟨u, hu, hp⟩
    exact ⟨u, List.isPrefixOf_iff_prefix.mp hp, (List.mem_tails _ _).mp hu⟩
  · rintro ⟨u, hp, hu⟩
    exact ⟨u, (List.mem_tails _ _).mpr hu, List.isPrefixOf_iff_prefix.mpr hp⟩

theorem fieldIncludes_iff (toLowerCase : String → String) (row : CsvRow) (k searchLower : String) :
    fieldIncludes toLowerCase row k searchLower = true
      ↔ ∃ v : String, row.lookup k = some v ∧ searchLower.toList <:+: (toLowerCase v).toList := by
  unfold fieldIncludes
  cases h : row.lookup k with
  | none => simp
  | some v => simp [includes_iff]

theorem csvField_strictEq_str (row : CsvRow) (k v : String) :
    (csvField row k).strictEq (JSVal.str v) = true ↔ row.lookup k = some v := by
  unfold csvField
  cases h : row.lookup k with
  | none => simp [JSVal.strictEq]
  | some s => simp [JSVal.strictEq]

/-! ## The claims -/

/-- C1: on the empty list `calculateAverageScores` divides `0` by `0`: each of the five
averages is `NaN`, none is `0`. -/
theorem calculateAverageScores_nil_is_NaN :
    calculateAverageScores [] =
      [("TLR", JSVal.num JSNum.nan), ("RPC", JSVal.num JSNum.nan), ("GO", JSVal.num JSNum.nan),
        ("OI", JSVal.num JSNum.nan), ("Perception", JSVal.num JSNum.nan)]
    ∧ ∀ p ∈ parameters, getField (calculateAverageScores []) p ≠ JSVal.num (JSNum.fin 0) := by
  decide

/-- C2: when every Score is a finite number, the records returned by
`getTopNInstitutions data n` are non-increasing in Score: each one's Score is `>=` the
Score of every later one, in particular of the next one. -/
theorem getTopNInstitutions_nonincreasing (data : List Record) (n : Nat)
    (hfin : ∀ r ∈ data, (toNumber (getField r "Score")).isFinite = true) :
    (getTopNInstitutions data n).1.Pairwise
        (fun a b => JSNum.ge (toNumber (getField a "Score")) (toNumber (getField b "Score")) = true)
    ∧ (getTopNInstitutions data n).1.Chain'
        (fun a b => JSNum.ge (toNumber (getField a "Score")) (toNumber (getField b "Score")) = true) := by
  have hsub : ((arraySort scoreComparator data).take n).Sublist (arraySort scoreComparator data) :=
    List.take_sublist _ _
  have hmem : ∀ r ∈ (arraySort scoreComparator data).take n, r ∈ data := fun r hr =>
    (arraySort_perm scoreComparator data).mem_iff.mp (hsub.subset hr)
  have hp : ((arraySort scoreComparator data).take n).Pairwise
      (fun a b => JSNum.ge (toNumber (getField a "Score")) (toNumber (getField b "Score")) = true) := by
    have h1 := (arraySort_scores_pairwise data hfin).sublist hsub
    rw [List.pairwise_iff_forall_sublist] at h1 ⊢
    intro a b hab
    have ha : a ∈ (arraySort scoreComparator data).take n := hab.subset (by simp)
    have hb : b ∈ (arraySort scoreComparator data).take n := hab.subset (by simp)
    exact (ge_score_iff a b (hfin a (hmem a ha)) (hfin b (hmem b hb))).mpr (h1 hab)
  exact ⟨hp, List.Pairwise.chain' hp⟩

/-- Witness for C2: three records with Scores "80", "90.5" and 85. -/
theorem getTopNInstitutions_nonincreasing_witness :
    (∀ r ∈ ([[("Score", JSVal.str "80")], [("Score", JSVal.str "90.5")],
        [("Score", JSVal.num (JSNum.fin 85))]] : List Record),
      (toNumber (getField r "Score")).isFinite = true)
    ∧ (getTopNInstitutions [[("Score", JSVal.str "80")], [("Score", JSVal.str "90.5")],
        [("Score", JSVal.num (JSNum.fin 85))]] 2).1.Chain'
        (fun a b => JSNum.ge (toNumber (getField a "Score")) (toNumber (getField b "Score")) = true) :=
  ⟨by decide!, (getTopNInstitutions_nonincreasing _ 2 (by decide!)).2⟩

/-- C3: `getTopNInstitutions data n` returns exactly `min n |data|` records, and they
form a sub-multiset of `data`: every returned record is an element of `data`. -/
theorem getTopNInstitutions_length_subperm (data : List Record) (n : Nat) :
    (getTopNInstitutions data n).1.length = min n data.length
    ∧ List.Subperm (getTopNInstitutions data n).1 data
    ∧ ∀ r ∈ (getTopNInstitutions data n).1, r ∈ data := by
  have hperm := arraySort_perm scoreComparator data
  have hsub : ((arraySort scoreComparator data).take n).Sublist (arraySort scoreComparator data) :=
    List.take_sublist _ _
  refine ⟨?_, ?_, ?_⟩
  · simp [getTopNInstitutions, List.length_take, hperm.length_eq]
  · exact hsub.subperm.trans hperm.subperm
  · intro r hr
    exact hperm.mem_iff.mp (hsub.subset hr)

/-- C4: when every Score is a finite number, `getTopNInstitutions` breaks ties by input
order. The returned records of any one score are, in order, the first such records of the
input; two returned records of equal score stand in the input in the order they are
returned in; and the result is the first `n` records of the stable descending sort. -/
theorem getTopNInstitutions_stable (data : List Record) (n : Nat)
    (hfin : ∀ r ∈ data, (toNumber (getField r "Score")).isFinite = true) :
    (∀ v : ℚ, (getTopNInstitutions data n).1.filter (fun r => decide (scoreValue r = v))
        <+: data.filter (fun r => decide (scoreValue r = v)))
    ∧ (∀ a b : Record, scoreValue a = scoreValue b →
        [a, b].Sublist (getTopNInstitutions data n).1 → [a, b].Sublist data)
    ∧ (getTopNInstitutions data n).1 = (stableSortDescByScore data).take n := by
  have hpre : ∀ v : ℚ, (getTopNInstitutions data n).1.filter (fun r => decide (scoreValue r = v))
      <+: data.filter (fun r => decide (scoreValue r = v)) := by
    intro v
    have h := take_filter_isInitial (fun r => decide (scoreValue r = v))
      (arraySort scoreComparator data) n
    rw [arraySort_scores_filter data hfin v] at h
    exact h
  refine ⟨hpre, ?_, ?_⟩
  · intro a b hab hsub
    have h1 := hsub.filter (fun r => decide (scoreValue r = scoreValue a))
    have h2 : [a, b].filter (fun r => decide (scoreValue r = scoreValue a)) = [a, b] := by
      simp [List.filter_cons, hab]
    rw [h2] at h1
    exact (h1.trans (hpre (scoreValue a)).sublist).trans (List.filter_sublist data)
  · simp [getTopNInstitutions, arraySort_eq_stableSortDescByScore data hfin]

/-- Witness for C4: five records, two ties, the top three. -/
theorem getTopNInstitutions_stable_witness :
    (∀ r ∈ ([[("Name", JSVal.str "a"), ("Score", JSVal.str "80")],
        [("Name", JSVal.str "b"), ("Score", JSVal.str "90.5")],
        [("Name", JSVal.str "c"), ("Score", JSVal.str "80")],
        [("Name", JSVal.str "d"), ("Score", JSVal.str "90.5")]] : List Record),
      (toNumber (getField r "Score")).isFinite = true)
    ∧ (getTopNInstitutions [[("Name", JSVal.str "a"), ("Score", JSVal.str "80")],
        [("Name", JSVal.str "b"), ("Score", JSVal.str "90.5")],
        [("Name", JSVal.str "c"), ("Score", JSVal.str "80")],
        [("Name", JSVal.str "d"), ("Score", JSVal.str "90.5")]] 3).1
      = (stableSortDescByScore [[("Name", JSVal.str "a"), ("Score", JSVal.str "80")],
        [("Name", JSVal.str "b"), ("Score", JSVal.str "90.5")],
        [("Name", JSVal.str "c"), ("Score", JSVal.str "80")],
        [("Name", JSVal.str "d"), ("Score", JSVal.str "90.5")]]).take 3 :=
  ⟨by decide!, (getTopNInstitutions_stable _ 3 (by decide!)).2.2⟩

/-- C5: `getTopNInstitutions` reorders the caller's array: called on the records with
Scores 1 and 2, it leaves them in the order 2, 1. -/
theorem getTopNInstitutions_reorders_argument :
    (getTopNInstitutions [[("Score", JSVal.num (JSNum.fin 1))],
        [("Score", JSVal.num (JSNum.fin 2))]] 1).2
      = [[("Score", JSVal.num (JSNum.fin 2))], [("Score", JSVal.num (JSNum.fin 1))]]
    ∧ (getTopNInstitutions [[("Score", JSVal.num (JSNum.fin 1))],
        [("Score", JSVal.num (JSNum.fin 2))]] 1).2
      ≠ [[("Score", JSVal.num (JSNum.fin 1))], [("Score", JSVal.num (JSNum.fin 2))]] := by
  decide!

/-- C6, as the claim states it: called with the integer 2020, `filterByYear` returns no
record whose Year is the string "2020", and not what it returns for the string. -/
theorem filterByYear_integer_misses_string_year :
    filterByYear [[("Year", JSVal.str "2020")]] (JSVal.num (JSNum.fin 2020)) = []
    ∧ filterByYear [[("Year", JSVal.str "2020")]] (JSVal.num (JSNum.fin 2020))
      ≠ filterByYear [[("Year", JSVal.str "2020")]] (JSVal.str "2020") := by
  decide

/-- C6, amended: `filterByYear` compares with `===`. Called with a string it returns, in
input order, the records whose Year is that string; called with a number it returns no
record whose Year is a string. -/
theorem filterByYear_strict (data : List Record) (s : String) (x : JSNum) :
    filterByYear data (JSVal.str s)
      = data.filter (fun r => decide (getField r "Year" = JSVal.str s))
    ∧ (∀ r ∈ filterByYear data (JSVal.num x), ∀ t : String, getField r "Year" ≠ JSVal.str t) := by
  constructor
  · unfold filterByYear
    apply List.filter_congr
    intro r _
    cases h : getField r "Year" <;> simp [JSVal.strictEq]
  · intro r hr t ht
    have h := (List.mem_filter.mp hr).2
    rw [ht] at h
    simp [JSVal.strictEq] at h

/-- C7: the `i`-th record of the institution, in input order, is returned at position
`i` as a copy that differs only in `rankChange`, which is `0` at position 0 and
`parseInt(previous Rank) - parseInt(this Rank)` at every later position. -/
theorem calculateYearOverYearChanges_rankChange (data : List Record) (institutionId : JSVal)
    (i : Nat) (item : Record)
    (hi : (data.filter
      (fun r => (getField r "Institute_ID").strictEq institutionId))[i]? = some item) :
    (calculateYearOverYearChanges data institutionId).length
      = (data.filter (fun r => (getField r "Institute_ID").strictEq institutionId)).length
    ∧ ∃ out : Record,
        (calculateYearOverYearChanges data institutionId)[i]? = some out
        ∧ (∀ k : String, k ≠ "rankChange" → getField out k = getField item k)
        ∧ getField out "rankChange" = JSVal.num
            (if i = 0 then JSNum.fin 0
             else JSNum.sub
               (parseInt (getField ((data.filter
                 (fun r => (getField r "Institute_ID").strictEq institutionId)).getD (i - 1) [])
                 "Rank"))
               (parseInt (getField item "Rank"))) := by
  constructor
  · simp [calculateYearOverYearChanges]
  · by_cases h0 : i = 0
    · subst h0
      refine ⟨setField item "rankChange" (JSVal.num (JSNum.fin 0)), ?_, ?_, ?_⟩
      · simp [calculateYearOverYearChanges, List.getElem?_enum, hi]
      · intro k hk
        exact getField_setField_other _ _ _ _ hk
      · rw [getField_setField_same]; simp
    · refine ⟨setField item "rankChange" (JSVal.num (JSNum.sub
        (parseInt (getField ((data.filter
          (fun r => (getField r "Institute_ID").strictEq institutionId)).getD (i - 1) []) "Rank"))
        (parseInt (getField item "Rank")))), ?_, ?_, ?_⟩
      · simp [calculateYearOverYearChanges, List.getElem?_enum, hi, h0]
      · intro k hk
        exact getField_setField_other _ _ _ _ hk
      · rw [getField_setField_same]; simp [h0]

/-- Witness for C7: ranks "5" then "3" give `rankChange` 2 on the second record. -/
theorem calculateYearOverYearChanges_rankChange_witness :
    ∃ out : Record,
      (calculateYearOverYearChanges
        [[("Institute_ID", JSVal.str "X"), ("Year", JSVal.str "2018"), ("Rank", JSVal.str "5")],
         [("Institute_ID", JSVal.str "X"), ("Year", JSVal.str "2019"), ("Rank", JSVal.str "3")]]
        (JSVal.str "X"))[1]? = some out
      ∧ getField out "rankChange" = JSVal.num (JSNum.fin 2) := by
  obtain ⟨out, h1, _, h3⟩ := (calculateYearOverYearChanges_rankChange
    [[("Institute_ID", JSVal.str "X"), ("Year", JSVal.str "2018"), ("Rank", JSVal.str "5")],
     [("Institute_ID", JSVal.str "X"), ("Year", JSVal.str "2019"), ("Rank", JSVal.str "3")]]
    (JSVal.str "X") 1
    [("Institute_ID", JSVal.str "X"), ("Year", JSVal.str "2019"), ("Rank", JSVal.str "3")]
    (by decide)).2
  refine ⟨out, h1, ?_⟩
  rw [h3]
  decide!

/-- C8, as the claim states it: given the 2019 record before the 2018 record,
`calculateYearOverYearChanges` returns them in that order, not sorted by Year. -/
theorem calculateYearOverYearChanges_not_sorted_by_year :
    (calculateYearOverYearChanges
        [[("Institute_ID", JSVal.str "X"), ("Year", JSVal.str "2019"), ("Rank", JSVal.str "3")],
         [("Institute_ID", JSVal.str "X"), ("Year", JSVal.str "2018"), ("Rank", JSVal.str "5")]]
        (JSVal.str "X")).map (fun r => getField r "Year")
      = [JSVal.str "2019", JSVal.str "2018"]
    ∧ ¬ sortedByYearAscending (calculateYearOverYearChanges
        [[("Institute_ID", JSVal.str "X"), ("Year", JSVal.str "2019"), ("Rank", JSVal.str "3")],
         [("Institute_ID", JSVal.str "X"), ("Year", JSVal.str "2018"), ("Rank", JSVal.str "5")]]
        (JSVal.str "X")) := by
  constructor
  · decide
  · unfold sortedByYearAscending
    decide!

/-- C8, amended: `calculateYearOverYearChanges` does not sort. The Years of the history
are the Years of the institution's records in input order, so the history is sorted by
Year ascending exactly when those records are so in the input. -/
theorem calculateYearOverYearChanges_keeps_input_order (data : List Record)
    (institutionId : JSVal) :
    (calculateYearOverYearChanges data institutionId).map (fun r => getField r "Year")
      = (data.filter (fun r => (getField r "Institute_ID").strictEq institutionId)).map
          (fun r => getField r "Year")
    ∧ (sortedByYearAscending (calculateYearOverYearChanges data institutionId)
        ↔ sortedByYearAscending
            (data.filter (fun r => (getField r "Institute_ID").strictEq institutionId))) := by
  have hmap : (calculateYearOverYearChanges data institutionId).map (fun r => getField r "Year")
      = (data.filter (fun r => (getField r "Institute_ID").strictEq institutionId)).map
          (fun r => getField r "Year") := by
    unfold calculateYearOverYearChanges
    simp only [List.map_map]
    conv_rhs => rw [← List.enum_map_snd (data.filter
      (fun r => (getField r "Institute_ID").strictEq institutionId)), List.map_map]
    apply List.map_congr_left
    intro p _
    have hne : ("Year" : String) ≠ "rankChange" := by decide
    by_cases h0 : p.1 = 0
    · simp [h0, getField_setField_other _ _ _ _ hne]
    · simp [h0, getField_setField_other _ _ _ _ hne]
  refine ⟨hmap, ?_⟩
  have key : ∀ l : List Record, sortedByYearAscending l ↔
      (l.map (fun r => getField r "Year")).Pairwise
        (fun a b => JSNum.ge (toNumber b) (toNumber a) = true) := by
    intro l
    unfold sortedByYearAscending
    rw [List.pairwise_map]
  rw [key, key, hmap]

/-- C9, as the claim states it: the cleaner does not map the example name to
"Indian Institute of Technology Madras". -/
theorem cleanName_example_keeps_parenthesised_text :
    cleanName "Indian Institute of Technology Madras (IITM) (1)"
      ≠ "Indian Institute of Technology Madras" := by
  decide

/-- C9, amended: the cleaner deletes the digit, parenthesis and quote characters and
trims, and keeps every other non-blank character in order, the text between parentheses
included: the example name becomes "Indian Institute of Technology Madras IITM". -/
theorem cleanName_removes_characters_only (name : String) :
    cleanName "Indian Institute of Technology Madras (IITM) (1)"
      = "Indian Institute of Technology Madras IITM"
    ∧ (cleanName name).toList.filter (fun c => !isJSWhiteSpace c)
      = name.toList.filter (fun c => !isNoiseChar c && !isJSWhiteSpace c) := by
  constructor
  · decide
  · rw [cleanName_toList, filter_not_trim, List.filter_filter]
    apply List.filter_congr
    intro c _
    exact Bool.and_comm _ _

/-- C10: a cleaned name holds no decimal digit, parenthesis, double quote or single
quote, neither starts nor ends with whitespace, and is left unchanged by the cleaner. -/
theorem cleanName_clean_and_idempotent (name : String) :
    (∀ c ∈ (cleanName name).toList,
        isDecDigit c = false ∧ c ≠ '(' ∧ c ≠ ')' ∧ c ≠ Char.ofNat 34 ∧ c ≠ Char.ofNat 39)
    ∧ (∀ c : Char, (cleanName name).toList.head? = some c → isJSWhiteSpace c = false)
    ∧ (∀ c : Char, (cleanName name).toList.getLast? = some c → isJSWhiteSpace c = false)
    ∧ cleanName (cleanName name) = cleanName name := by
  have hnoise : ∀ c ∈ (cleanName name).toList, isNoiseChar c = false := by
    intro c hc
    rw [cleanName_toList] at hc
    have := (List.mem_filter.mp ((trim_sublist _).subset hc)).2
    simpa using this
  have hhead : ∀ c : Char, (cleanName name).toList.head? = some c → isJSWhiteSpace c = false :=
    fun c hc => trim_head _ c hc
  have hlast : ∀ c : Char, (cleanName name).toList.getLast? = some c → isJSWhiteSpace c = false :=
    fun c hc => trim_last _ c hc
  refine ⟨?_, hhead, hlast, ?_⟩
  · intro c hc
    have h := hnoise c hc
    simp only [isNoiseChar, Bool.or_eq_false_iff, beq_eq_false_iff_ne] at h
    exact ⟨h.1.1.1.1, h.1.1.1.2, h.1.1.2, h.1.2, h.2⟩
  · have hfilter : (cleanName name).toList.filter (fun c => !isNoiseChar c)
        = (cleanName name).toList := by
      rw [List.filter_eq_self]
      intro c hc
      simp [hnoise c hc]
    show String.mk (trim ((cleanName name).toList.filter (fun c => !isNoiseChar c)))
      = cleanName name
    rw [hfilter, trim_eq_self _ hhead hlast]
    rfl

/-- C11, as the claim states it: with header `a,b,a` the row `1,2` has two values for three
header columns, and the record does not hold the value "1" under the first header field
`a`: the write for the third column, also named `a`, has replaced it by `undefined`. -/
theorem processCSVData_repeated_header_overwrites :
    processCSVData "a,b,a\n1,2" = some [[("a", JSVal.undefined), ("b", JSVal.str "2")]]
    ∧ getField [("a", JSVal.undefined), ("b", JSVal.str "2")] "a" ≠ JSVal.str "1" := by
  decide

/-- C11, amended: `processCSVData` never throws and returns one record per line after the
header line. In the record of a line, a header field at a position past the line's values
is `undefined`, and a header field at the position of a value holds that value trimmed,
provided no later header column has the same trimmed name and the trimmed name is not
`__proto__`; under the name `__proto__` the record gets no field of its own. -/
theorem processCSVData_never_throws_short_rows (csvData : String) :
    ∃ (headerLine : List Char) (rest : List (List Char)) (recs : List Record),
      splitOnChar (Char.ofNat 10) csvData.toList = headerLine :: rest
      ∧ processCSVData csvData = some recs
      ∧ recs.length = rest.length
      ∧ ∀ (j : Nat) (line : List Char), rest[j]? = some line →
          ∃ rec : Record, recs[j]? = some rec
            ∧ (∀ v : JSVal, ("__proto__", v) ∉ rec)
            ∧ ∀ (i : Nat) (header : List Char),
                (splitOnChar ',' headerLine)[i]? = some header →
                String.mk (trim header) ≠ "__proto__" →
                ((splitOnChar ',' line).length ≤ i →
                  getField rec (String.mk (trim header)) = JSVal.undefined)
                ∧ (∀ value : List Char, (splitOnChar ',' line)[i]? = some value →
                    (∀ (j1 : Nat) (header1 : List Char), i < j1 →
                      (splitOnChar ',' headerLine)[j1]? = some header1 →
                      String.mk (trim header1) ≠ String.mk (trim header)) →
                    getField rec (String.mk (trim header))
                      = JSVal.str (String.mk (trim value))) := by
  cases hs : splitOnChar (Char.ofNat 10) csvData.toList with
  | nil => exact absurd hs (splitOnChar_ne_nil _ _)
  | cons headerLine rest =>
    refine ⟨headerLine, rest, _, rfl, processCSVData_eq csvData headerLine rest hs, by simp, ?_⟩
    intro j line hj
    refine ⟨buildRow (splitOnChar ',' headerLine) (splitOnChar ',' line), by simp [hj],
      fun v => buildRow_no_own_proto _ v _, ?_⟩
    intro i header hi hp
    constructor
    · intro hk
      exact buildRow_undefined_past_values _ _ i header hi hk hp
    · intro value hv hlater
      rw [buildRow_value_at _ _ i header hi hp hlater]
      simp [trimmedValueAt, hv]

/-- C12: for the text `Name,Score\nA,90\n` the code returns two records, the second one
built from the empty line that follows the final line feed. -/
theorem processCSVData_keeps_empty_line :
    processCSVData "Name,Score\nA,90\n"
      = some [[("Name", JSVal.str "A"), ("Score", JSVal.str "90")],
              [("Name", JSVal.str ""), ("Score", JSVal.undefined)]] := by
  decide

/-- C13: for header `Name,Score` and the row whose first field is `A, B` in double quotes
(code 34) followed by `,90`, the code cuts at the comma inside the quotes: Name is the
opening quote and `A`, Score is `B` and the closing quote. -/
theorem processCSVData_cuts_quoted_field :
    processCSVData ("Name,Score\n" ++ String.singleton (Char.ofNat 34) ++ "A, B"
        ++ String.singleton (Char.ofNat 34) ++ ",90")
      = some [[("Name", JSVal.str (String.singleton (Char.ofNat 34) ++ "A")),
               ("Score", JSVal.str ("B" ++ String.singleton (Char.ofNat 34)))]] := by
  decide

/-- C15, as the claim states it: for the text `\nA,90`, whose header line is empty, the
code returns one record, not the empty sequence. -/
theorem processCSVData_empty_header_not_empty :
    processCSVData "\nA,90" = some [[("", JSVal.str "A")]]
    ∧ processCSVData "\nA,90" ≠ some [] := by
  decide

/-- C15, amended: when the header line is empty, `processCSVData` returns one record per
line that follows it, each holding under the empty name the first value of its line,
trimmed. The result is empty only when no line follows: when the text is empty. -/
theorem processCSVData_empty_header (tail : List Char) :
    processCSVData (String.mk (Char.ofNat 10 :: tail))
      = some ((splitOnChar (Char.ofNat 10) tail).map
          (fun line => [("", JSVal.str (String.mk (trim ((splitOnChar ',' line).headD []))))]))
    ∧ processCSVData (String.mk (Char.ofNat 10 :: tail)) ≠ some []
    ∧ processCSVData "" = some [] := by
  have hs : splitOnChar (Char.ofNat 10) (String.mk (Char.ofNat 10 :: tail)).toList
      = [] :: splitOnChar (Char.ofNat 10) tail := by
    simp [splitOnChar]
  have hrow : ∀ line : List Char, buildRow (splitOnChar ',' []) (splitOnChar ',' line)
      = [("", JSVal.str (String.mk (trim ((splitOnChar ',' line).headD []))))] := by
    intro line
    cases hv : splitOnChar ',' line with
    | nil => exact absurd hv (splitOnChar_ne_nil _ _)
    | cons v vs =>
      have ht : trim [] = [] := by decide
      have hp : ¬ ("" : String) = "__proto__" := by decide
      simp [splitOnChar, buildRow, assignField, setField, trimmedValueAt, ht, hp]
  have h1 := processCSVData_eq _ _ _ hs
  simp only [hrow] at h1
  refine ⟨h1, ?_, by decide⟩
  rw [h1]
  intro e
  have := Option.some.inj e
  simp at this
  exact splitOnChar_ne_nil _ _ this

/-- C14, as the claim states it: the header `__proto__`, `a` has distinct non-empty names
without comma, line feed or outer whitespace, and the row `1`, `2` has two such values; the
one record returned has the field `a` only, and no field `__proto__` with the value `1`. -/
theorem processCSVData_round_trip_fails_on_proto :
    (["__proto__", "a"] : List String).Nodup
    ∧ (∀ name ∈ (["__proto__", "a"] : List String), name ≠ "" ∧ plainCell name)
    ∧ (∀ v ∈ (["1", "2"] : List String), plainCell v)
    ∧ processCSVData (serializeCSV ["__proto__", "a"] [["1", "2"]])
      = some [[("a", JSVal.str "2")]]
    ∧ ("__proto__", JSVal.str "1") ∉ ([("a", JSVal.str "2")] : Record) := by
  refine ⟨by decide, ?_, ?_, by decide, by decide⟩
  · unfold plainCell
    decide
  · unfold plainCell
    decide

/-- C14, amended: round trip on well-formed input. For a header of distinct names, none
of them `__proto__`, and rows of as many values as the header has names, all without
comma, line feed and outer whitespace, `processCSVData` applied to the serialised table
returns one record per row, and the record of row `j` maps each name `H[i]` to the value
`R[j][i]`. -/
theorem processCSVData_round_trip (header : List String) (rows : List (List String))
    (hdistinct : header.Nodup)
    (hproto : "__proto__" ∉ header)
    (hheader : ∀ name ∈ header, plainCell name)
    (hrows : ∀ row ∈ rows, row.length = header.length ∧ ∀ v ∈ row, plainCell v) :
    ∃ recs : List Record,
      processCSVData (serializeCSV header rows) = some recs
      ∧ recs.length = rows.length
      ∧ ∀ (j : Nat) (row : List String), rows[j]? = some row →
          ∃ rec : Record, recs[j]? = some rec
            ∧ ∀ (i : Nat) (name v : String), header[i]? = some name → row[i]? = some v →
                getField rec name = JSVal.str v := by
  have hsplit : splitOnChar (Char.ofNat 10) (serializeCSV header rows).toList
      = joinWith ',' (header.map String.toList)
        :: rows.map (fun row => joinWith ',' (row.map String.toList)) := by
    unfold serializeCSV
    apply splitOnChar_joinWith
    · simp
    · intro l hl
      rcases List.mem_cons.mp hl with rfl | hl
      · exact joinWith_cells_no_newline header hheader
      · obtain ⟨row, hrow, rfl⟩ := List.mem_map.mp hl
        exact joinWith_cells_no_newline row (hrows row hrow).2
  refine ⟨_, processCSVData_eq _ _ _ hsplit, by simp, ?_⟩
  intro j row hj
  have hrowmem : row ∈ rows := List.getElem?_mem hj
  refine ⟨buildRow (splitOnChar ',' (joinWith ',' (header.map String.toList)))
    (splitOnChar ',' (joinWith ',' (row.map String.toList))), by simp [hj], ?_⟩
  intro i name v hi hv
  have hhne : header ≠ [] := by
    intro e; rw [e] at hi; simp at hi
  have hrne : row ≠ [] := by
    intro e; rw [e] at hv; simp at hv
  rw [splitOnChar_joinWith_cells header hhne hheader,
    splitOnChar_joinWith_cells row hrne (hrows row hrowmem).2]
  have hname : String.mk (trim name.toList) = name :=
    string_mk_trim_toList name (hheader name (List.getElem?_mem hi)).2.2
  have hval : String.mk (trim v.toList) = v :=
    string_mk_trim_toList v ((hrows row hrowmem).2 v (List.getElem?_mem hv)).2.2
  have hget := buildRow_value_at (row.map String.toList) (header.map String.toList) i
    name.toList (by simp [hi]) (by
      rw [hname]
      intro e
      exact hproto (e ▸ List.getElem?_mem hi)) (by
      intro j1 h1 hij hj1
      rw [List.getElem?_map] at hj1
      cases hn : header[j1]? with
      | none => rw [hn] at hj1; simp at hj1
      | some name1 =>
        rw [hn] at hj1
        simp at hj1
        subst hj1
        have hname1 : String.mk (trim name1.toList) = name1 :=
          string_mk_trim_toList name1 (hheader name1 (List.getElem?_mem hn)).2.2
        show String.mk (trim name1.toList) ≠ String.mk (trim name.toList)
        rw [hname1, hname]
        intro e
        subst e
        have hjlt : j1 < header.length := by
          by_contra hge
          rw [List.getElem?_eq_none (not_lt.mp hge)] at hn
          simp at hn
        have hilt : i < header.length := by
          by_contra hge
          rw [List.getElem?_eq_none (not_lt.mp hge)] at hi
          simp at hi
        have e1 : header[i] = name1 := by
          rw [List.getElem?_eq_getElem hilt] at hi; exact Option.some.inj hi
        have e2 : header[j1] = name1 := by
          rw [List.getElem?_eq_getElem hjlt] at hn; exact Option.some.inj hn
        have := (@List.Nodup.getElem_inj_iff _ header hdistinct i hilt j1 hjlt).mp (e1.trans e2.symm)
        omega)
  rw [hname] at hget
  rw [hget]
  have hcell : trimmedValueAt (row.map String.toList) i
      = JSVal.str (String.mk (trim v.toList)) := by
    simp [trimmedValueAt, hv]
  rw [hcell, hval]

/-- Witness for C14: the header Name, Score and the rows (A, 90) and (B, 85.5). -/
theorem processCSVData_round_trip_witness :
    ∃ recs : List Record,
      processCSVData (serializeCSV ["Name", "Score"] [["A", "90"], ["B", "85.5"]]) = some recs
      ∧ recs.length = 2
      ∧ ∀ (j : Nat) (row : List String), [["A", "90"], ["B", "85.5"]][j]? = some row →
          ∃ rec : Record, recs[j]? = some rec
            ∧ ∀ (i : Nat) (name v : String), ["Name", "Score"][i]? = some name →
                row[i]? = some v → getField rec name = JSVal.str v :=
  processCSVData_round_trip ["Name", "Score"] [["A", "90"], ["B", "85.5"]]
    (by decide)
    (by decide)
    (by unfold plainCell; decide)
    (by unfold plainCell; decide)

/-- C16, as the claim states it: the University file holding the same valid row twice
gives two observations of the identity (X, Delhi, University), not one. -/
theorem AnalysisHub.fetchData_keeps_duplicate_rows :
    ((AnalysisHub.fetchData [("University",
        [[("Name", "X"), ("Score", "85"), ("Rank", "1"), ("State", "Delhi"), ("Year", "2020")],
         [("Name", "X"), ("Score", "85"), ("Rank", "1"), ("State", "Delhi"), ("Year", "2020")]])]
      ).institutions.filter
        (fun o => decide (o.name = "X" ∧ o.state = "Delhi" ∧ o.category = "University"))).length
      = 2
    ∧ AnalysisHub.fetchError [("University",
        [[("Name", "X"), ("Score", "85"), ("Rank", "1"), ("State", "Delhi"), ("Year", "2020")],
         [("Name", "X"), ("Score", "85"), ("Rank", "1"), ("State", "Delhi"), ("Year", "2020")]])]
      = "" := by
  decide!

/-- C16, amended: duplicates are not collapsed. When no valid row has a state that names
a property inherited from `Object.prototype`, the load completes, and `institutions` holds
one observation for every valid row, in file order then row order: rows of one identity
are all kept. When some valid row has such a state, `byState[state].push` throws: the
failure is reported and `institutions` stays empty. -/
theorem AnalysisHub.fetchData_institutions (files : List (String × List CsvRow)) :
    ((∀ o ∈ files.flatMap (fun file => file.2.filterMap (AnalysisHub.observationOf file.1)),
        o.state ∉ inheritedPropertyNames) →
      (AnalysisHub.fetchData files).institutions
          = files.flatMap (fun file => file.2.filterMap (AnalysisHub.observationOf file.1))
        ∧ AnalysisHub.fetchError files = "")
    ∧ ((∃ o ∈ files.flatMap (fun file => file.2.filterMap (AnalysisHub.observationOf file.1)),
        o.state ∈ inheritedPropertyNames) →
      (AnalysisHub.fetchData files).institutions = []
        ∧ AnalysisHub.fetchError files = "Failed to load data. Please try again later.") := by
  constructor
  · intro h
    obtain ⟨st, hst, hinst⟩ := (AnalysisHub.loadData_cases files).1 h
    rw [AnalysisHub.fetchData, AnalysisHub.fetchError, hst]
    exact ⟨hinst, rfl⟩
  · intro h
    have hnone := (AnalysisHub.loadData_cases files).2 h
    rw [AnalysisHub.fetchData, AnalysisHub.fetchError, hnone]
    exact ⟨rfl, rfl⟩

/-- Witness for C16: the University file with a valid row of state `constructor` before a
valid row of state Delhi. The load fails at the first row, and the second is not added. -/
theorem AnalysisHub.fetchData_institutions_witness :
    (∃ o ∈ ([("University",
          [[("Name", "X"), ("Score", "85"), ("Rank", "1"), ("State", "constructor")],
           [("Name", "Y"), ("Score", "80"), ("Rank", "2"), ("State", "Delhi")]])] :
          List (String × List CsvRow)).flatMap
        (fun file => file.2.filterMap (AnalysisHub.observationOf file.1)),
      o.state ∈ inheritedPropertyNames)
    ∧ (AnalysisHub.fetchData [("University",
          [[("Name", "X"), ("Score", "85"), ("Rank", "1"), ("State", "constructor")],
           [("Name", "Y"), ("Score", "80"), ("Rank", "2"), ("State", "Delhi")]])]).institutions
      = []
    ∧ AnalysisHub.fetchError [("University",
          [[("Name", "X"), ("Score", "85"), ("Rank", "1"), ("State", "constructor")],
           [("Name", "Y"), ("Score", "80"), ("Rank", "2"), ("State", "Delhi")]])]
      = "Failed to load data. Please try again later." :=
  ⟨by decide!,
    (AnalysisHub.fetchData_institutions [("University",
        [[("Name", "X"), ("Score", "85"), ("Rank", "1"), ("State", "constructor")],
         [("Name", "Y"), ("Score", "80"), ("Rank", "2"), ("State", "Delhi")]])]).2
      (by decide!)⟩

/-- C19: in the University file, the rows (name A-B, state C) and (name A, state B-C) are
two valid institutions, and both have the key `A-B-C-University`: the state B-C, which
has one institution, gets no count. -/
theorem AnalysisHub.fetchData_stateCounts_key_collision :
    (AnalysisHub.fetchData [("University",
        [[("Name", "A-B"), ("Score", "85"), ("Rank", "1"), ("State", "C")],
         [("Name", "A"), ("Score", "80"), ("Rank", "2"), ("State", "B-C")]])]).stateCounts
      = [("C", 1)]
    ∧ countOf (AnalysisHub.fetchData [("University",
        [[("Name", "A-B"), ("Score", "85"), ("Rank", "1"), ("State", "C")],
         [("Name", "A"), ("Score", "80"), ("Rank", "2"), ("State", "B-C")]])]).stateCounts "B-C"
      = 0
    ∧ ((AnalysisHub.fetchData [("University",
        [[("Name", "A-B"), ("Score", "85"), ("Rank", "1"), ("State", "C")],
         [("Name", "A"), ("Score", "80"), ("Rank", "2"), ("State", "B-C")]])]).institutions.map
        (fun o => (o.name, o.state, o.category)))
      = [("A-B", "C", "University"), ("A", "B-C", "University")] := by
  decide!

/-- C20: `topInstitutions` takes `category` from the row's `Category` column, not from the
file: a row of the University file without that column gets `undefined`, and a row of the
Engineering file whose column says Pharmacy gets Pharmacy. -/
theorem processNirfData.topInstitutions_category_from_row :
    processNirfData.topInstitutions
        [("University",
          [[("Name", JSVal.str "X"), ("Score", JSVal.str "85"), ("Year", JSVal.str "2020")]]),
         ("Engineering",
          [[("Name", JSVal.str "Y"), ("Score", JSVal.str "90"), ("Year", JSVal.str "2020"),
            ("Category", JSVal.str "Pharmacy")]])]
        (JSVal.str "2020")
      = [[("name", JSVal.str "Y"), ("score", JSVal.num (JSNum.fin 90)),
          ("category", JSVal.str "Pharmacy")],
         [("name", JSVal.str "X"), ("score", JSVal.num (JSNum.fin 85)),
          ("category", JSVal.undefined)]] := by
  decide!

/-- C17: in `fetchInstitutions`, with the four source categories, two rows share a key
only when they have the same cleaned name and the same category; every row with a
non-empty cleaned name is under an entry of its own name and category; and every entry
is stored under the key of its own name and category. -/
theorem InstitutionProfile.fetchInstitutions_separates_categories
    (files : List (String × List CsvRow))
    (hcat : ∀ file ∈ files, file.1 ∈ ["University", "Engineering", "Pharmacy", "Management"]) :
    (∀ n1 n2 c1 c2 : String,
        c1 ∈ ["University", "Engineering", "Pharmacy", "Management"] →
        c2 ∈ ["University", "Engineering", "Pharmacy", "Management"] →
        InstitutionProfile.institutionKey n1 c1 = InstitutionProfile.institutionKey n2 c2 →
        n1 = n2 ∧ c1 = c2)
    ∧ (∀ file ∈ files, ∀ row ∈ file.2, InstitutionProfile.nameOf row ≠ "" →
        ∃ e : ProfileEntry,
          (InstitutionProfile.fetchInstitutions files).lookup
              (InstitutionProfile.institutionKey (InstitutionProfile.nameOf row) file.1) = some e
          ∧ e.name = InstitutionProfile.nameOf row ∧ e.category = file.1)
    ∧ (∀ (key : String) (e : ProfileEntry),
        (InstitutionProfile.fetchInstitutions files).lookup key = some e →
        key = InstitutionProfile.institutionKey e.name e.category) := by
  have hinj : ∀ n1 n2 c1 c2 : String,
      c1 ∈ ["University", "Engineering", "Pharmacy", "Management"] →
      c2 ∈ ["University", "Engineering", "Pharmacy", "Management"] →
      InstitutionProfile.institutionKey n1 c1 = InstitutionProfile.institutionKey n2 c2 →
      n1 = n2 ∧ c1 = c2 := fun n1 n2 c1 c2 h1 h2 h =>
    InstitutionProfile.institutionKey_inj n1 n2 c1 c2 (no_hyphen_of_source_category c1 h1)
      (no_hyphen_of_source_category c2 h2) h
  refine ⟨hinj, ?_, ?_⟩
  · intro file hfile row hrow hname
    rw [InstitutionProfile.lookup_fetchInstitutions]
    cases hfind : (files.flatMap (fun file => file.2.map (fun row => (file.1, row)))).find?
        (fun p => decide (InstitutionProfile.nameOf p.2 ≠ ""
          ∧ InstitutionProfile.institutionKey (InstitutionProfile.nameOf p.2) p.1
            = InstitutionProfile.institutionKey (InstitutionProfile.nameOf row) file.1)) with
    | none =>
      exfalso
      rw [List.find?_eq_none] at hfind
      have hmem : (file.1, row) ∈ files.flatMap
          (fun file => file.2.map (fun row => (file.1, row))) := by
        rw [List.mem_flatMap]
        exact ⟨file, hfile, List.mem_map.mpr ⟨row, hrow, rfl⟩⟩
      have := hfind (file.1, row) hmem
      simp [hname] at this
    | some p =>
      have hp := List.find?_some hfind
      have hpmem := List.mem_of_find?_eq_some hfind
      simp only [decide_eq_true_eq] at hp
      rw [List.mem_flatMap] at hpmem
      obtain ⟨file1, hfile1, hp1⟩ := hpmem
      obtain ⟨row1, _, rfl⟩ := List.mem_map.mp hp1
      have := hinj _ _ _ _ (hcat file1 hfile1) (hcat file hfile) hp.2
      exact ⟨InstitutionProfile.entryOf file1.1 row1, rfl, this.1, this.2⟩
  · intro key e he
    rw [InstitutionProfile.lookup_fetchInstitutions] at he
    cases hfind : (files.flatMap (fun file => file.2.map (fun row => (file.1, row)))).find?
        (fun p => decide (InstitutionProfile.nameOf p.2 ≠ ""
          ∧ InstitutionProfile.institutionKey (InstitutionProfile.nameOf p.2) p.1 = key)) with
    | none => rw [hfind] at he; simp at he
    | some p =>
      rw [hfind] at he
      have hp := List.find?_some hfind
      simp only [decide_eq_true_eq] at hp
      have he2 : InstitutionProfile.entryOf p.1 p.2 = e := by simpa using he
      rw [← he2]
      exact hp.2.symm

/-- Witness for C17: the name X in the University file and in the Engineering file. -/
theorem InstitutionProfile.fetchInstitutions_separates_categories_witness :
    (∀ file ∈ ([("University", [[("Name", "X"), ("State", "Delhi")]]),
          ("Engineering", [[("Name", "X"), ("State", "Delhi")]])] : List (String × List CsvRow)),
        file.1 ∈ ["University", "Engineering", "Pharmacy", "Management"])
    ∧ ∀ file ∈ ([("University", [[("Name", "X"), ("State", "Delhi")]]),
          ("Engineering", [[("Name", "X"), ("State", "Delhi")]])] : List (String × List CsvRow)),
        ∀ row ∈ file.2, InstitutionProfile.nameOf row ≠ "" →
        ∃ e : ProfileEntry,
          (InstitutionProfile.fetchInstitutions
              [("University", [[("Name", "X"), ("State", "Delhi")]]),
               ("Engineering", [[("Name", "X"), ("State", "Delhi")]])]).lookup
              (InstitutionProfile.institutionKey (InstitutionProfile.nameOf row) file.1) = some e
          ∧ e.name = InstitutionProfile.nameOf row ∧ e.category = file.1 :=
  ⟨by decide,
    (InstitutionProfile.fetchInstitutions_separates_categories
      [("University", [[("Name", "X"), ("State", "Delhi")]]),
       ("Engineering", [[("Name", "X"), ("State", "Delhi")]])] (by decide)).2.1⟩

/-- C18: first occurrence wins in `fetchInstitutions`. The entry under a key is the one
built from the first row, in file order then row order, that has a non-empty cleaned name
and that key; its state is that row's `State || state`, or "Unknown" when the row has
neither; and rows of files that come later never change an entry that exists. -/
theorem InstitutionProfile.fetchInstitutions_first_occurrence
    (files : List (String × List CsvRow)) (key : String) :
    (InstitutionProfile.fetchInstitutions files).lookup key
      = ((files.flatMap (fun file => file.2.map (fun row => (file.1, row)))).find?
          (fun p => decide (InstitutionProfile.nameOf p.2 ≠ ""
            ∧ InstitutionProfile.institutionKey (InstitutionProfile.nameOf p.2) p.1 = key))).map
          (fun p => InstitutionProfile.entryOf p.1 p.2)
    ∧ (∀ (category : String) (row : CsvRow),
        (InstitutionProfile.entryOf category row).state
          = (firstPresent row ["State", "state"]).getD "Unknown")
    ∧ (∀ (category : String) (row : CsvRow), row.lookup "State" = none →
        row.lookup "state" = none →
        (InstitutionProfile.entryOf category row).state = "Unknown")
    ∧ (∀ (more : List (String × List CsvRow)) (e : ProfileEntry),
        (InstitutionProfile.fetchInstitutions files).lookup key = some e →
        (InstitutionProfile.fetchInstitutions (files ++ more)).lookup key = some e) := by
  refine ⟨InstitutionProfile.lookup_fetchInstitutions files key, fun _ _ => rfl, ?_, ?_⟩
  · intro category row h1 h2
    simp [InstitutionProfile.entryOf, firstPresent, h1, h2]
  · intro more e he
    rw [InstitutionProfile.lookup_fetchInstitutions] at he ⊢
    rw [List.flatMap_append, List.find?_append]
    cases hfind : (files.flatMap (fun file => file.2.map (fun row => (file.1, row)))).find?
        (fun p => decide (InstitutionProfile.nameOf p.2 ≠ ""
          ∧ InstitutionProfile.institutionKey (InstitutionProfile.nameOf p.2) p.1 = key)) with
    | none => rw [hfind] at he; simp at he
    | some p =>
      rw [hfind] at he
      simpa using he

/-- C21: when no record has the requested Year, `processNirfData` returns `null`:
`regions` has no entry, so reading `[0][0]` of its sorted entries throws inside `try`. -/
theorem processNirfData_null_when_no_record_of_year (allData : List (String × List Record))
    (year : JSVal) (h : processNirfData.yearData allData year = []) :
    processNirfData allData year = none := by
  unfold processNirfData
  simp [h, arraySort]

/-- Witness for C21: four files, fetched and parsed, none with a record of 2020. -/
theorem processNirfData_null_when_no_record_of_year_witness :
    processNirfData.yearData
        [("University", [[("Name", JSVal.str "X"), ("Score", JSVal.str "85"),
            ("Year", JSVal.str "2019")]]),
         ("Engineering", []), ("Pharmacy", []), ("Management", [])] (JSVal.str "2020") = []
    ∧ processNirfData
        [("University", [[("Name", JSVal.str "X"), ("Score", JSVal.str "85"),
            ("Year", JSVal.str "2019")]]),
         ("Engineering", []), ("Pharmacy", []), ("Management", [])] (JSVal.str "2020") = none :=
  ⟨by decide, processNirfData_null_when_no_record_of_year _ _ (by decide)⟩

/-- C24: a value that does not parse makes the average `NaN`, not a term `0` of the sum:
for the one record with TLR `N/A` and RPC `50`, the TLR average is `NaN`. -/
theorem calculateAverageScores_unparseable_is_NaN :
    calculateAverageScores [[("TLR", JSVal.str "N/A"), ("RPC", JSVal.str "50")]]
      = [("TLR", JSVal.num JSNum.nan), ("RPC", JSVal.num (JSNum.fin 50)),
         ("GO", JSVal.num (JSNum.fin 0)), ("OI", JSVal.num (JSNum.fin 0)),
         ("Perception", JSVal.num (JSNum.fin 0))] := by
  decide!

/-- C25, as the claim states it: a row with Rank `-5` is added with rank -5, which is
not a non-negative integer. -/
theorem AnalysisHub.fetchData_negative_rank :
    (AnalysisHub.fetchData [("University",
        [[("Name", "X"), ("Score", "85"), ("Rank", "-5"), ("State", "Delhi")]])]).institutions.map
        (fun o => o.rank)
      = [JSNum.fin (-5)] := by
  decide!

/-- C25, amended: every observation in `institutions` is the normalisation of a row, and
has a non-empty cleaned name, a score that is a number greater than 0, and a rank that is
not `NaN`: the rank is what `parseInt` reads in the Rank column, an integer of either sign
or an infinity, and it is 0 when the row has no Rank that is not empty. -/
theorem AnalysisHub.fetchData_observations_valid (files : List (String × List CsvRow)) :
    ∀ o ∈ (AnalysisHub.fetchData files).institutions,
      o.name ≠ "" ∧ o.score.isNaN = false ∧ o.score.isPos = true ∧ o.rank.isNaN = false
        ∧ (o.rank = JSNum.posInf ∨ o.rank = JSNum.negInf ∨ ∃ z : ℤ, o.rank = JSNum.fin (z : ℚ))
        ∧ ∃ file ∈ files, ∃ row ∈ file.2, AnalysisHub.observationOf file.1 row = some o
          ∧ o.rank = parseInt (firstPresentOrNumber row ["Rank", "rank"] 0)
          ∧ (firstPresent row ["Rank", "rank"] = none → o.rank = JSNum.fin 0) := by
  intro o ho
  obtain ⟨file, hfile, row, hrow, hro⟩ := AnalysisHub.fetchData_institutions_sublist files o ho
  have hv := AnalysisHub.observationOf_valid file.1 row o hro
  refine ⟨hv.1, hv.2.1, hv.2.2.1, hv.2.2.2.1, hv.2.2.2.2.2, file, hfile, row, hrow, hro,
    hv.2.2.2.2.1, ?_⟩
  intro hnone
  rw [hv.2.2.2.2.1]
  unfold firstPresentOrNumber
  rw [hnone]
  exact parseInt_number_zero

/-- Witness for C25: the row with name `X (1)`, Score 85 and Rank 7 of the University
file. -/
theorem AnalysisHub.fetchData_observations_valid_witness :
    ({ name := "X", score := JSNum.fin 85, rank := JSNum.fin 7, state := "Delhi",
       year := JSNum.fin 2020, category := "University" } : Observation)
      ∈ (AnalysisHub.fetchData [("University",
          [[("Name", "X (1)"), ("Score", "85"), ("Rank", "7"), ("State", "Delhi")],
           [("Name", "Y"), ("Score", "80")]])]).institutions
    ∧ ("X" : String) ≠ "" ∧ (JSNum.fin 85).isNaN = false ∧ (JSNum.fin 85).isPos = true
    ∧ (JSNum.fin 7).isNaN = false :=
  ⟨by decide!,
    (AnalysisHub.fetchData_observations_valid
      [("University",
        [[("Name", "X (1)"), ("Score", "85"), ("Rank", "7"), ("State", "Delhi")],
         [("Name", "Y"), ("Score", "80")]])]
      { name := "X", score := JSNum.fin 85, rank := JSNum.fin 7, state := "Delhi",
        year := JSNum.fin 2020, category := "University" } (by decide!)).1,
    (AnalysisHub.fetchData_observations_valid
      [("University",
        [[("Name", "X (1)"), ("Score", "85"), ("Rank", "7"), ("State", "Delhi")],
         [("Name", "Y"), ("Score", "80")]])]
      { name := "X", score := JSNum.fin 85, rank := JSNum.fin 7, state := "Delhi",
        year := JSNum.fin 2020, category := "University" } (by decide!)).2.1,
    (AnalysisHub.fetchData_observations_valid
      [("University",
        [[("Name", "X (1)"), ("Score", "85"), ("Rank", "7"), ("State", "Delhi")],
         [("Name", "Y"), ("Score", "80")]])]
      { name := "X", score := JSNum.fin 85, rank := JSNum.fin 7, state := "Delhi",
        year := JSNum.fin 2020, category := "University" } (by decide!)).2.2.1,
    (AnalysisHub.fetchData_observations_valid
      [("University",
        [[("Name", "X (1)"), ("Score", "85"), ("Rank", "7"), ("State", "Delhi")],
         [("Name", "Y"), ("Score", "80")]])]
      { name := "X", score := JSNum.fin 85, rank := JSNum.fin 7, state := "Delhi",
        year := JSNum.fin 2020, category := "University" } (by decide!)).2.2.2.1⟩

/-- C26: `filterByCategory` throws on the records of `processCSVData` when the header has
no `Institute_ID` column, and when a short row leaves `Institute_ID` undefined. -/
theorem filterByCategory_throws_without_institute_id :
    (processCSVData "Name,Score\nA,90").bind (fun recs => filterByCategory recs "UNIV") = none
    ∧ (processCSVData "Score,Institute_ID\n90,IR-O-U-0456\n80").bind
        (fun recs => filterByCategory recs "-O-") = none := by
  decide

/-- C23, as the claim states it: the records of state A given with Scores 1 then 2 come
back in that order, which is not sorted by score descending. -/
theorem getInstitutionsByState_not_sorted_by_score :
    getInstitutionsByState
        [[("State", JSVal.str "A"), ("Score", JSVal.str "1")],
         [("State", JSVal.str "A"), ("Score", JSVal.str "2")]]
      = some [("A", [[("State", JSVal.str "A"), ("Score", JSVal.str "1")],
                     [("State", JSVal.str "A"), ("Score", JSVal.str "2")]])]
    ∧ ¬ sortedByScoreDescending
        [[("State", JSVal.str "A"), ("Score", JSVal.str "1")],
         [("State", JSVal.str "A"), ("Score", JSVal.str "2")]] := by
  constructor
  · decide
  · unfold sortedByScoreDescending
    decide!

/-- C23, amended: `getInstitutionsByState` does not sort. Every inner list of the mapping
it returns is the records of its state in input order, so it is sorted by score descending
exactly when those records are so in the input. -/
theorem getInstitutionsByState_keeps_input_order (data : List Record)
    (stateMap : List (String × List Record)) (hm : getInstitutionsByState data = some stateMap) :
    ∀ (key : String) (items : List Record), (key, items) ∈ stateMap →
      items = data.filter (fun r => decide (propertyKey (getField r "State") = key))
      ∧ (sortedByScoreDescending items ↔ sortedByScoreDescending
          (data.filter (fun r => decide (propertyKey (getField r "State") = key)))) := by
  intro key items h
  have := (getInstitutionsByState_mem data stateMap hm key items h).2
  exact ⟨this, by rw [← this]⟩

/-- Witness for C23: state A with Scores 1 then 2, and state B between them. -/
theorem getInstitutionsByState_keeps_input_order_witness :
    getInstitutionsByState
        [[("State", JSVal.str "A"), ("Score", JSVal.str "1")],
         [("State", JSVal.str "B"), ("Score", JSVal.str "5")],
         [("State", JSVal.str "A"), ("Score", JSVal.str "2")]]
      = some [("A", [[("State", JSVal.str "A"), ("Score", JSVal.str "1")],
                     [("State", JSVal.str "A"), ("Score", JSVal.str "2")]]),
              ("B", [[("State", JSVal.str "B"), ("Score", JSVal.str "5")]])]
    ∧ [[("State", JSVal.str "A"), ("Score", JSVal.str "1")],
       [("State", JSVal.str "A"), ("Score", JSVal.str "2")]]
      = ([[("State", JSVal.str "A"), ("Score", JSVal.str "1")],
          [("State", JSVal.str "B"), ("Score", JSVal.str "5")],
          [("State", JSVal.str "A"), ("Score", JSVal.str "2")]] : List Record).filter
          (fun r => decide (propertyKey (getField r "State") = "A")) :=
  ⟨by decide,
    (getInstitutionsByState_keeps_input_order
      [[("State", JSVal.str "A"), ("Score", JSVal.str "1")],
       [("State", JSVal.str "B"), ("Score", JSVal.str "5")],
       [("State", JSVal.str "A"), ("Score", JSVal.str "2")]]
      [("A", [[("State", JSVal.str "A"), ("Score", JSVal.str "1")],
              [("State", JSVal.str "A"), ("Score", JSVal.str "2")]]),
       ("B", [[("State", JSVal.str "B"), ("Score", JSVal.str "5")]])]
      (by decide) "A" _ (by decide)).1⟩

/-- C30, as the claim states it: for the one record whose State is `constructor` the call
throws, and so for every list that holds a record with such a State: no inner list holds
the record. -/
theorem getInstitutionsByState_throws_on_inherited_name :
    getInstitutionsByState [[("State", JSVal.str "constructor")]] = none
    ∧ ∀ data : List Record,
        (∃ r ∈ data, propertyKey (getField r "State") ∈ inheritedPropertyNames) →
        getInstitutionsByState data = none :=
  ⟨by decide, getInstitutionsByState_eq_none⟩

/-- C30, amended: when no State names a property inherited from `Object.prototype`,
`getInstitutionsByState` returns a mapping that partitions its input. Every inner list is
non-empty and is the input filtered to the records whose State names its key, in input
order; every record is in the inner list under the key of its State; the keys are
distinct; and the lengths of the inner lists add up to the length of the input. -/
theorem getInstitutionsByState_partitions (data : List Record)
    (hstate : ∀ r ∈ data, propertyKey (getField r "State") ∉ inheritedPropertyNames) :
    ∃ stateMap : List (String × List Record),
      getInstitutionsByState data = some stateMap
      ∧ (∀ (key : String) (items : List Record), (key, items) ∈ stateMap →
          items ≠ []
          ∧ items = data.filter (fun r => decide (propertyKey (getField r "State") = key)))
      ∧ (∀ r ∈ data, ∃ items : List Record,
          (propertyKey (getField r "State"), items) ∈ stateMap ∧ r ∈ items)
      ∧ (stateMap.map Prod.fst).Nodup
      ∧ (stateMap.map (fun e => e.2.length)).sum = data.length := by
  have hm := getInstitutionsByState_eq_some data hstate
  refine ⟨_, hm, fun key items h => getInstitutionsByState_mem data _ hm key items h, ?_,
    getInstitutionsByState_keys_nodup data _ hm, getInstitutionsByState_lengths data _ hm⟩
  intro r hr
  have hmem : r ∈ data.filter
      (fun x => decide (propertyKey (getField x "State") = propertyKey (getField r "State"))) := by
    simp [List.mem_filter, hr]
  have hne : data.filter
      (fun x => decide (propertyKey (getField x "State") = propertyKey (getField r "State")))
      ≠ [] := List.ne_nil_of_mem hmem
  have hl := getInstitutionsByState_lookup data _ hm (propertyKey (getField r "State"))
  rw [if_neg hne] at hl
  exact ⟨_, mem_of_lookup_eq_some _ _ _ hl, hmem⟩

/-- Witness for C30: two records of state A around one of state B. -/
theorem getInstitutionsByState_partitions_witness :
    (∀ r ∈ ([[("State", JSVal.str "A"), ("Score", JSVal.str "1")],
          [("State", JSVal.str "B"), ("Score", JSVal.str "5")],
          [("State", JSVal.str "A"), ("Score", JSVal.str "2")]] : List Record),
        propertyKey (getField r "State") ∉ inheritedPropertyNames)
    ∧ ∃ stateMap : List (String × List Record),
        getInstitutionsByState
            [[("State", JSVal.str "A"), ("Score", JSVal.str "1")],
             [("State", JSVal.str "B"), ("Score", JSVal.str "5")],
             [("State", JSVal.str "A"), ("Score", JSVal.str "2")]] = some stateMap
        ∧ (stateMap.map Prod.fst).Nodup
        ∧ (stateMap.map (fun e => e.2.length)).sum = 3 :=
  ⟨by decide,
    (getInstitutionsByState_partitions
      [[("State", JSVal.str "A"), ("Score", JSVal.str "1")],
       [("State", JSVal.str "B"), ("Score", JSVal.str "5")],
       [("State", JSVal.str "A"), ("Score", JSVal.str "2")]] (by decide)).imp
      (fun _ h => ⟨h.1, h.2.2.2.1, h.2.2.2.2⟩)⟩

/-- C27: the name that the cleaner of Home returns has no `(` that a `)` follows later,
and the cleaner leaves it unchanged. -/
theorem Home.cleanName_no_group_and_idempotent (name : String) :
    (∀ a b : List Char, (Home.cleanName name).toList = a ++ '(' :: b → ')' ∉ b)
    ∧ Home.cleanName (Home.cleanName name) = Home.cleanName name := by
  have hno : noParenGroup (trim (stripParenGroups name.toList).1) := by
    obtain ⟨a, b, hab⟩ := trim_append_form (stripParenGroups name.toList).1
    apply noParenGroup_of_append a _ b
    rw [← hab]
    exact (stripParenGroups_noParenGroup name.toList).1
  refine ⟨hno, ?_⟩
  show String.mk (trim (stripParenGroups (trim (stripParenGroups name.toList).1)).1)
    = String.mk (trim (stripParenGroups name.toList).1)
  rw [stripParenGroups_eq_self _ hno, trim_trim]

/-- C28: starting from the empty selection, after every sequence of calls of
`handleAddInstitution` and `handleRemoveInstitution` the selection has at most 3
institutions and no two of them share a name; and an add of `null`, an add to a selection
of 3 or more, and an add of a name that is selected leave the selection unchanged. -/
theorem runSelection_invariant (calls : List SelectionCall) :
    selectionInvariant
        (runSelection { selectedInstitutions := [], error := "" } calls).selectedInstitutions
    ∧ (∀ st : CompareState,
        (handleAddInstitution st none).selectedInstitutions = st.selectedInstitutions)
    ∧ (∀ (st : CompareState) (v : CompareOption), 3 ≤ st.selectedInstitutions.length →
        (handleAddInstitution st (some v)).selectedInstitutions = st.selectedInstitutions)
    ∧ (∀ (st : CompareState) (v : CompareOption),
        (∃ inst ∈ st.selectedInstitutions, inst.name = v.name) →
        (handleAddInstitution st (some v)).selectedInstitutions = st.selectedInstitutions) := by
  refine ⟨?_, fun _ => rfl, ?_, ?_⟩
  · have key : ∀ (cs : List SelectionCall) (st : CompareState),
        selectionInvariant st.selectedInstitutions →
        selectionInvariant (runSelection st cs).selectedInstitutions := by
      intro cs
      induction cs with
      | nil => intro st h; exact h
      | cons call cs ih =>
        intro st h
        unfold runSelection
        rw [List.foldl_cons]
        apply ih
        cases call with
        | add value => exact selectionInvariant_add st value h
        | remove index => exact selectionInvariant_remove st index h
    exact key calls _ ⟨by simp, List.Pairwise.nil⟩
  · intro st v hlen
    unfold handleAddInstitution
    simp only
    rw [if_pos hlen]
  · intro st v hex
    unfold handleAddInstitution
    simp only
    split
    · rfl
    · have hany : st.selectedInstitutions.any (fun inst => inst.name == v.name) = true := by
        rw [List.any_eq_true]
        obtain ⟨inst, hi, he⟩ := hex
        exact ⟨inst, hi, by simp [he]⟩
      rw [if_pos hany]

/-- C29, as the claim states it: the ranks 9007199254740994, 1 and 0 parse to integers,
and the changes are 0, 9007199254740992 and 1: the first difference is rounded to
binary64, and so is the sum, 9007199254740992, which is not the first rank minus the last,
9007199254740994. -/
theorem calculateYearOverYearChanges_sum_is_rounded :
    (∀ item ∈ ([[("Institute_ID", JSVal.str "X"), ("Rank", JSVal.str "9007199254740994")],
          [("Institute_ID", JSVal.str "X"), ("Rank", JSVal.str "1")],
          [("Institute_ID", JSVal.str "X"), ("Rank", JSVal.str "0")]] : List Record),
        parseInt (getField item "Rank") = JSNum.fin 9007199254740994
          ∨ parseInt (getField item "Rank") = JSNum.fin 1
          ∨ parseInt (getField item "Rank") = JSNum.fin 0)
    ∧ (calculateYearOverYearChanges
        [[("Institute_ID", JSVal.str "X"), ("Rank", JSVal.str "9007199254740994")],
         [("Institute_ID", JSVal.str "X"), ("Rank", JSVal.str "1")],
         [("Institute_ID", JSVal.str "X"), ("Rank", JSVal.str "0")]] (JSVal.str "X")).map
        (fun r => getField r "rankChange")
      = [JSVal.num (JSNum.fin 0), JSVal.num (JSNum.fin 9007199254740992),
         JSVal.num (JSNum.fin 1)]
    ∧ rankChangeSum (calculateYearOverYearChanges
        [[("Institute_ID", JSVal.str "X"), ("Rank", JSVal.str "9007199254740994")],
         [("Institute_ID", JSVal.str "X"), ("Rank", JSVal.str "1")],
         [("Institute_ID", JSVal.str "X"), ("Rank", JSVal.str "0")]] (JSVal.str "X"))
      = JSNum.fin 9007199254740992
    ∧ JSNum.sub (parseInt (JSVal.str "9007199254740994")) (parseInt (JSVal.str "0"))
      = JSNum.fin 9007199254740994 := by
  decide!

/-- C29, amended: rank changes telescope for ranks below `2^52`. When every record of the
institution has a Rank that parses to an integer of magnitude below `2^52` and there is at
least one such record, the sum of `rankChange` over the history is `parseInt` of the first
Rank minus `parseInt` of the last Rank; the history has as many records as the institution
has in the input, and its record at each position agrees with the input record at that
position on every field but `rankChange`. -/
theorem calculateYearOverYearChanges_telescopes (data : List Record) (institutionId : JSVal)
    (hint : ∀ item ∈ data.filter (fun r => (getField r "Institute_ID").strictEq institutionId),
      ∃ z : ℤ, |z| < 2 ^ 52 ∧ parseInt (getField item "Rank") = JSNum.fin (z : ℚ))
    (hne : data.filter (fun r => (getField r "Institute_ID").strictEq institutionId) ≠ []) :
    rankChangeSum (calculateYearOverYearChanges data institutionId)
      = JSNum.sub
          (parseInt (getField ((data.filter
            (fun r => (getField r "Institute_ID").strictEq institutionId)).head hne) "Rank"))
          (parseInt (getField ((data.filter
            (fun r => (getField r "Institute_ID").strictEq institutionId)).getLast hne) "Rank"))
    ∧ (calculateYearOverYearChanges data institutionId).length
      = (data.filter (fun r => (getField r "Institute_ID").strictEq institutionId)).length
    ∧ ∀ (i : Nat) (item : Record),
        (data.filter (fun r => (getField r "Institute_ID").strictEq institutionId))[i]? = some item →
        ∃ out : Record, (calculateYearOverYearChanges data institutionId)[i]? = some out
          ∧ ∀ k : String, k ≠ "rankChange" → getField out k = getField item k := by
  generalize hh : data.filter (fun r => (getField r "Institute_ID").strictEq institutionId)
    = hist at hint hne
  have hget := fun i => calculateYearOverYearChanges_getElem? data institutionId i
  simp only [hh] at hget
  have hlen : (calculateYearOverYearChanges data institutionId).length = hist.length := by
    simp [calculateYearOverYearChanges, hh]
  refine ⟨?_, hlen, ?_⟩
  · have hex : ∀ i : Nat, ∃ z : ℤ, |z| < 2 ^ 52
        ∧ (i < hist.length → parseInt (getField (hist.getD i []) "Rank") = JSNum.fin (z : ℚ)) := by
      intro i
      by_cases hi : i < hist.length
      · have hmem : hist.getD i [] ∈ hist := by
          rw [List.getD_eq_getElem _ _ hi]
          exact List.getElem_mem _
        obtain ⟨z, hz1, hz2⟩ := hint _ hmem
        exact ⟨z, hz1, fun _ => hz2⟩
      · exact ⟨0, by norm_num, fun h => absurd h hi⟩
    choose r hr using hex
    have hb : ∀ i : Nat, |r i| < 2 ^ 52 := fun i => (hr i).1
    obtain ⟨m, hm⟩ : ∃ m, hist.length = m + 1 := by
      cases hist with
      | nil => exact absurd rfl hne
      | cons a t => exact ⟨t.length, rfl⟩
    have hsum := rankChangeSum_eq hist (calculateYearOverYearChanges data institutionId) r hb m
      hm hlen
      (by
        intro i hi
        rw [hget i, List.getElem?_eq_getElem hi]
        simp only [Option.map_some']
        by_cases h0 : i = 0
        · rw [getField_setField_same, if_pos h0, if_pos h0]
          show some (roundToDouble 0) = _
          rw [roundToDouble_zero, Int.cast_zero]
        · have hprev : i - 1 < hist.length := by omega
          have hcur : hist[i] = hist.getD i [] := (List.getD_eq_getElem _ _ hi).symm
          rw [getField_setField_same, if_neg h0, if_neg h0, hcur, (hr (i - 1)).2 hprev,
            (hr i).2 hi, sub_fin_int _ _ (abs_sub_lt_of_abs_lt _ _ (hb (i - 1)) (hb i))]
          show some (roundToDouble _) = _
          rw [roundToDouble_int _ (abs_sub_lt_of_abs_lt _ _ (hb (i - 1)) (hb i))])
    rw [hsum]
    have hhead : hist.head hne = hist.getD 0 [] := by
      cases hist with
      | nil => exact absurd rfl hne
      | cons a t => rfl
    have hlast : hist.getLast hne = hist.getD m [] := by
      rw [List.getD_eq_getElem _ _ (by omega), List.getLast_eq_getElem]
      congr 1
      omega
    rw [hhead, hlast]
    rw [(hr 0).2 (by omega), (hr m).2 (by omega),
      sub_fin_int _ _ (abs_sub_lt_of_abs_lt _ _ (hb 0) (hb m))]
  · intro i item hi
    refine ⟨_, by rw [hget i, hi]; rfl, ?_⟩
    intro k hk
    exact getField_setField_other _ _ _ _ hk

/-- Witness for C29: ranks "5", "3", "4" give changes 0, 2, -1, whose sum is 5 - 4. -/
theorem calculateYearOverYearChanges_telescopes_witness :
    rankChangeSum (calculateYearOverYearChanges
        [[("Institute_ID", JSVal.str "X"), ("Rank", JSVal.str "5")],
         [("Institute_ID", JSVal.str "Y"), ("Rank", JSVal.str "9")],
         [("Institute_ID", JSVal.str "X"), ("Rank", JSVal.str "3")],
         [("Institute_ID", JSVal.str "X"), ("Rank", JSVal.str "4")]] (JSVal.str "X"))
      = JSNum.fin 1 := by
  have h := (calculateYearOverYearChanges_telescopes
    [[("Institute_ID", JSVal.str "X"), ("Rank", JSVal.str "5")],
     [("Institute_ID", JSVal.str "Y"), ("Rank", JSVal.str "9")],
     [("Institute_ID", JSVal.str "X"), ("Rank", JSVal.str "3")],
     [("Institute_ID", JSVal.str "X"), ("Rank", JSVal.str "4")]] (JSVal.str "X")
    (by
      intro item hitem
      have hmem : item ∈ ([[("Institute_ID", JSVal.str "X"), ("Rank", JSVal.str "5")],
          [("Institute_ID", JSVal.str "X"), ("Rank", JSVal.str "3")],
          [("Institute_ID", JSVal.str "X"), ("Rank", JSVal.str "4")]] : List Record) := hitem
      simp only [List.mem_cons, List.mem_singleton, List.not_mem_nil, or_false] at hmem
      rcases hmem with rfl | rfl | rfl
      · exact ⟨5, by norm_num, by decide!⟩
      · exact ⟨3, by norm_num, by decide!⟩
      · exact ⟨4, by norm_num, by decide!⟩)
    (by decide)).1
  rw [h]
  decide!

/-- C22: in `filterInstitutions` an empty filter value matches all. With year, category
and search all empty the result is the whole list in its order; in general the result is
the rows, in their order, that pass each filter whose value is not empty: the year by
`===` on Year, the category by equality on category, the search by the lowercased term
occurring in the lowercased Name or State. -/
theorem ExploreRankings.filterInstitutions_empty_matches_all (toLowerCase : String → String)
    (allInstitutions : List CsvRow) (year : JSVal) (category search : String) :
    ExploreRankings.filterInstitutions toLowerCase allInstitutions (JSVal.str "") "" ""
      = allInstitutions
    ∧ (ExploreRankings.filterInstitutions toLowerCase allInstitutions year category search).Sublist
        allInstitutions
    ∧ ∀ inst : CsvRow,
        inst ∈ ExploreRankings.filterInstitutions toLowerCase allInstitutions year category search
          ↔ inst ∈ allInstitutions
            ∧ (year.truthy = false ∨ (csvField inst "Year").strictEq year = true)
            ∧ (category = "" ∨ inst.lookup "category" = some category)
            ∧ (search = ""
                ∨ (∃ v : String, inst.lookup "Name" = some v
                    ∧ (toLowerCase search).toList <:+: (toLowerCase v).toList)
                ∨ (∃ v : String, inst.lookup "State" = some v
                    ∧ (toLowerCase search).toList <:+: (toLowerCase v).toList)) := by
  refine ⟨?_, List.filter_sublist _, ?_⟩
  · unfold ExploreRankings.filterInstitutions
    rw [List.filter_eq_self]
    intro inst _
    simp [JSVal.truthy]
  · intro inst
    unfold ExploreRankings.filterInstitutions
    rw [List.mem_filter]
    simp only [Bool.and_eq_true, Bool.or_eq_true, Bool.not_eq_true', beq_iff_eq,
      fieldIncludes_iff, csvField_strictEq_str]
    generalize (∃ v : String, inst.lookup "Name" = some v
      ∧ (toLowerCase search).toList <:+: (toLowerCase v).toList) = P
    generalize (∃ v : String, inst.lookup "State" = some v
      ∧ (toLowerCase search).toList <:+: (toLowerCase v).toList) = Q
    tauto

end NirfDashboard
